import Mathlib

/-!
Verification of the `poche` CAD geometry kernel
(`frontend/src/cad/core/store.ts`, `frontend/src/cad/core/utils.ts`).

The TypeScript code is shallowly embedded in Lean:

* coordinates are exact rationals (`ℚ`); the floating-point guards of the
  source of the shape `Math.sqrt e < tol` are translated to the equivalent
  exact comparison `e < tol ^ 2` (both sides are nonnegative, squaring is
  strictly monotone there), and `Math.abs a / L > tol` with `L = Math.sqrt e`
  to `a ^ 2 > tol ^ 2 * e`;
* where the source divides by `Math.sqrt e` (normal normalisation) we use
  `ratSqrt`, the exact rational square root, which agrees with the source
  whenever the radicand is a perfect rational square — which is the case in
  every run analysed here;
* JavaScript `Map`s (insertion-ordered, keyed by freshly generated id
  strings) become insertion-ordered association lists keyed by `ℕ`, and
  `generateId` becomes a counter threaded through the store state;
* `Math.acos` is never evaluated: the source only compares `acos` values of
  numbers in `[0, 1]`, and `acos` is strictly antitone there, so every
  comparison is translated to the reversed comparison of its arguments; the
  single threshold test against `cos (π/12)` (with `cos (π/12) ^ 2 = (2+√3)/4`)
  is decided exactly by the quadratic-surd comparison `ltSqrt3Mul`.
-/

namespace Poche

/-! ## Insertion-ordered association lists (JavaScript `Map`) -/

/-- An insertion-ordered finite map, as JavaScript `Map` is: a list of
key/value pairs in insertion order. -/
abbrev AList (α : Type) : Type := List (Nat × α)

namespace AList

/-- `Map.get`: the value at the first occurrence of the key. -/
def get : AList α → Nat → Option α
  | [], _ => none
  | (k', v) :: rest, k => if k' = k then some v else get rest k

/-- `Map.set`: replace the value in place if the key is present,
otherwise append at the end (JavaScript `Map` insertion order). -/
def set : AList α → Nat → α → AList α
  | [], k, v => [(k, v)]
  | (k', v') :: rest, k, v =>
    if k' = k then (k, v) :: rest else (k', v') :: set rest k v

/-- `Map.delete`: remove the entry for the key. -/
def del : AList α → Nat → AList α
  | [], _ => []
  | p :: rest, k => if p.1 = k then del rest k else p :: del rest k

/-- Update the value stored at `k` (models mutation of an Immer draft
obtained by `get`); no-op when the key is absent. -/
def modify : AList α → Nat → (α → α) → AList α
  | [], _, _ => []
  | p :: rest, k, f =>
    if p.1 = k then (p.1, f p.2) :: modify rest k f
    else p :: modify rest k f

/-- `Map.values()` in insertion order. -/
def values (m : AList α) : List α := m.map (·.2)

/-- `Map.keys()` in insertion order. -/
def keys (m : AList α) : List Nat := m.map (·.1)

/-- `Map.size`. -/
def size (m : AList α) : Nat := m.length

end AList

namespace AList

variable {α : Type}

@[simp] theorem keys_nil : AList.keys ([] : AList α) = [] := rfl

@[simp] theorem keys_cons (p : Nat × α) (m : AList α) :
    AList.keys (p :: m) = p.1 :: m.keys := rfl

@[simp] theorem values_nil : AList.values ([] : AList α) = [] := rfl

@[simp] theorem values_cons (p : Nat × α) (m : AList α) :
    AList.values (p :: m) = p.2 :: m.values := rfl

@[simp] theorem get_nil (k : Nat) : AList.get ([] : AList α) k = none := rfl

theorem get_cons (p : Nat × α) (m : AList α) (k : Nat) :
    AList.get (p :: m) k = if p.1 = k then some p.2 else m.get k := rfl

theorem get_set_self (m : AList α) (k : Nat) (v : α) :
    (m.set k v).get k = some v := by
  induction m with
  | nil => simp [AList.set, AList.get]
  | cons p rest ih =>
    by_cases h : p.1 = k
    · simp [AList.set, h, get_cons]
    · simp [AList.set, h, get_cons, ih]

theorem get_set_ne (m : AList α) {k k' : Nat} (v : α) (h : k' ≠ k) :
    (m.set k v).get k' = m.get k' := by
  induction m with
  | nil => simp [AList.set, get_cons, Ne.symm h]
  | cons p rest ih =>
    by_cases hp : p.1 = k
    · simp [AList.set, hp, get_cons, Ne.symm h]
    · simp [AList.set, hp, get_cons, ih]

theorem get_del_self (m : AList α) (k : Nat) : (m.del k).get k = none := by
  induction m with
  | nil => simp [AList.del]
  | cons p rest ih =>
    by_cases h : p.1 = k
    · simpa [AList.del, h] using ih
    · simpa [AList.del, get_cons, h] using ih

theorem get_del_ne (m : AList α) {k k' : Nat} (h : k' ≠ k) :
    (m.del k).get k' = m.get k' := by
  induction m with
  | nil => simp [AList.del]
  | cons p rest ih =>
    by_cases hp : p.1 = k
    · simp [AList.del, hp, get_cons, Ne.symm h, ih]
    · simp [AList.del, hp, get_cons, ih]

theorem get_modify_self (m : AList α) (k : Nat) (f : α → α) :
    (m.modify k f).get k = (m.get k).map f := by
  induction m with
  | nil => simp [AList.modify]
  | cons p rest ih =>
    by_cases h : p.1 = k
    · simp [AList.modify, h, get_cons]
    · simp [AList.modify, h, get_cons, ih]

theorem get_modify_ne (m : AList α) {k k' : Nat} (f : α → α) (h : k' ≠ k) :
    (m.modify k f).get k' = m.get k' := by
  induction m with
  | nil => simp [AList.modify]
  | cons p rest ih =>
    by_cases hp : p.1 = k
    · simp [AList.modify, hp, get_cons, Ne.symm h, ih]
    · simp [AList.modify, hp, get_cons, ih]

theorem keys_modify (m : AList α) (k : Nat) (f : α → α) :
    (m.modify k f).keys = m.keys := by
  induction m with
  | nil => simp [AList.modify]
  | cons p rest ih =>
    by_cases h : p.1 = k <;> simp [AList.modify, h, ih]

theorem keys_del (m : AList α) (k : Nat) :
    (m.del k).keys = m.keys.filter (· ≠ k) := by
  induction m with
  | nil => simp [AList.del]
  | cons p rest ih =>
    by_cases h : p.1 = k <;> simp [AList.del, h, ih, List.filter_cons]

theorem keys_set_of_not_mem (m : AList α) {k : Nat} (v : α)
    (h : k ∉ m.keys) : (m.set k v).keys = m.keys ++ [k] := by
  induction m with
  | nil => simp [AList.set]
  | cons p rest ih =>
    simp only [keys_cons, List.mem_cons, not_or] at h
    have h1 : ¬ p.1 = k := fun hh => h.1 hh.symm
    simp [AList.set, h1, ih h.2]

theorem keys_set_of_mem (m : AList α) {k : Nat} (v : α)
    (h : k ∈ m.keys) : (m.set k v).keys = m.keys := by
  induction m with
  | nil => simp at h
  | cons p rest ih =>
    by_cases hp : p.1 = k
    · simp [AList.set, hp]
    · simp only [keys_cons, List.mem_cons] at h
      rcases h with h | h
      · exact absurd h.symm hp
      · simp [AList.set, hp, ih h]

theorem get_eq_none_iff (m : AList α) (k : Nat) :
    m.get k = none ↔ k ∉ m.keys := by
  induction m with
  | nil => simp
  | cons p rest ih =>
    by_cases h : p.1 = k
    · simp [get_cons, h]
    · rw [get_cons, if_neg h, ih]
      simp only [keys_cons, List.mem_cons, not_or]
      exact ⟨fun hk => ⟨fun hh => h hh.symm, hk⟩, fun hk => hk.2⟩

theorem get_isSome_iff (m : AList α) (k : Nat) :
    (m.get k).isSome ↔ k ∈ m.keys := by
  rcases hm : m.get k with _ | v
  · simpa [hm] using (get_eq_none_iff m k).1 hm
  · simp only [Option.isSome_some, true_iff]
    by_contra hk
    rw [← get_eq_none_iff m k] at hk
    simp [hm] at hk

theorem mem_of_get (m : AList α) {k : Nat} {v : α} (h : m.get k = some v) :
    (k, v) ∈ m := by
  induction m with
  | nil => simp at h
  | cons p rest ih =>
    by_cases hp : p.1 = k
    · rw [get_cons, if_pos hp] at h
      cases h
      have : (k, p.2) = p := by
        rw [← hp]
      rw [this]
      exact List.mem_cons_self _ _
    · rw [get_cons, if_neg hp] at h
      exact List.mem_cons_of_mem _ (ih h)

theorem get_mem_keys (m : AList α) {k : Nat} {v : α} (h : m.get k = some v) :
    k ∈ m.keys := by
  have := mem_of_get m h
  exact List.mem_map.2 ⟨(k, v), this, rfl⟩

theorem mem_values_of_get (m : AList α) {k : Nat} {v : α}
    (h : m.get k = some v) : v ∈ m.values :=
  List.mem_map.2 ⟨(k, v), mem_of_get m h, rfl⟩

theorem nodup_keys_set (m : AList α) (k : Nat) (v : α)
    (h : m.keys.Nodup) : (m.set k v).keys.Nodup := by
  by_cases hk : k ∈ m.keys
  · rwa [keys_set_of_mem m v hk]
  · rw [keys_set_of_not_mem m v hk]
    refine List.Nodup.append h (List.nodup_singleton k) ?_
    intro a ha hb
    rw [List.mem_singleton] at hb
    exact hk (hb ▸ ha)

theorem nodup_keys_del (m : AList α) (k : Nat) (h : m.keys.Nodup) :
    (m.del k).keys.Nodup := by
  rw [keys_del]
  exact h.filter _

theorem nodup_keys_modify (m : AList α) (k : Nat) (f : α → α)
    (h : m.keys.Nodup) : (m.modify k f).keys.Nodup := by
  rwa [keys_modify]

theorem exists_get_of_mem_values (m : AList α) {v : α}
    (h : v ∈ m.values) (hnd : m.keys.Nodup) : ∃ k, m.get k = some v := by
  induction m with
  | nil => simp at h
  | cons p rest ih =>
    simp only [values_cons, List.mem_cons] at h
    rcases h with h | h
    · exact ⟨p.1, by simp [get_cons, h]⟩
    · simp only [keys_cons, List.nodup_cons] at hnd
      obtain ⟨k, hk⟩ := ih h hnd.2
      refine ⟨k, ?_⟩
      have hkp : ¬ p.1 = k := by
        intro hh
        exact hnd.1 (hh ▸ get_mem_keys rest hk)
      simp [get_cons, hkp, hk]

end AList

/-! ## Geometry primitives (`utils.ts`) -/

/-- A 3D point/vector `[x, y, z]` (`Vector3Tuple`), with exact rational
coordinates. -/
structure Vec3 where
  x : ℚ
  y : ℚ
  z : ℚ
deriving DecidableEq

namespace Vec3

def sub (a b : Vec3) : Vec3 := ⟨a.x - b.x, a.y - b.y, a.z - b.z⟩

def dot (a b : Vec3) : ℚ := a.x * b.x + a.y * b.y + a.z * b.z

def cross (a b : Vec3) : Vec3 :=
  ⟨a.y * b.z - a.z * b.y, a.z * b.x - a.x * b.z, a.x * b.y - a.y * b.x⟩

/-- Squared euclidean length (the source only ever compares or divides by
`Math.sqrt` of this). -/
def len2 (a : Vec3) : ℚ := a.x * a.x + a.y * a.y + a.z * a.z

end Vec3

/-- Integer square root by digit-pair recursion (structural in the fuel, so
that it evaluates by reduction; the fuel `n` is ample since the recursion
divides by 4 each step). -/
def isqrtAux : Nat → Nat → Nat
  | 0, _ => 0
  | fuel + 1, n =>
    if n < 2 then n
    else
      let r := isqrtAux fuel (n / 4) * 2
      if (r + 1) * (r + 1) ≤ n then r + 1 else r

/-- `⌊√n⌋`. -/
def isqrt (n : Nat) : Nat := isqrtAux n n

/-- Exact rational square root: `ratSqrt q * ratSqrt q = q` whenever `q` is
the square of a rational, and `0` otherwise.  The embedding only takes
square roots of perfect squares (all normal lengths in the verified runs are
rational), so this agrees with `Math.sqrt` wherever it is used. -/
def ratSqrt (q : ℚ) : ℚ :=
  let n := isqrt q.num.toNat
  let d := isqrt q.den
  if q.num = (n * n : ℕ) ∧ q.den = d * d then (n : ℚ) / (d : ℚ) else 0

/-- Decides `a < √3 * b` exactly, assuming `b ≥ 0`. -/
def ltSqrt3Mul (a b : ℚ) : Bool :=
  a < 0 ∨ a ^ 2 < 3 * b ^ 2

/-- `snapToGrid(value, gridSize) = Math.round(value / gridSize) * gridSize`.
JavaScript `Math.round` is `⌊x + 1/2⌋`, which is Mathlib's `round`. -/
def snapToGrid (value gridSize : ℚ) : ℚ :=
  (round (value / gridSize) : ℤ) * gridSize

/-- `calculateFaceNormal` (Newell's method).  The degenerate test
`length < 0.0001` is the exact test `length² < 1/10^8`; the normalisation
divides by `ratSqrt length²` (exact whenever the squared length is a perfect
square, as in every run analysed here). -/
def calculateFaceNormal (vertices : List Vec3) : Vec3 :=
  let n := vertices.length
  let acc := (List.range n).foldl
    (fun (acc : Vec3) i =>
      let current := vertices.getD i ⟨0, 0, 0⟩
      let next := vertices.getD ((i + 1) % n) ⟨0, 0, 0⟩
      ⟨acc.x + (current.y - next.y) * (current.z + next.z),
       acc.y + (current.z - next.z) * (current.x + next.x),
       acc.z + (current.x - next.x) * (current.y + next.y)⟩)
    ⟨0, 0, 0⟩
  if acc.len2 < 1 / 10 ^ 8 then ⟨0, 1, 0⟩
  else
    let length := ratSqrt acc.len2
    ⟨acc.x / length, acc.y / length, acc.z / length⟩

/-- `areVerticesCoplanar(vertices, tolerance = 0.01)`.
`normalLength < 0.0001` becomes `normal.len2 < 1/10^8`, and
`|dot| / normalLength > tolerance` becomes `dot² > tolerance² * normal.len2`. -/
def areVerticesCoplanar (vertices : List Vec3) : Bool :=
  let tolerance : ℚ := 1 / 100
  if vertices.length < 4 then true
  else
    let p0 := vertices.getD 0 ⟨0, 0, 0⟩
    let p1 := vertices.getD 1 ⟨0, 0, 0⟩
    let p2 := vertices.getD 2 ⟨0, 0, 0⟩
    let v1 := p1.sub p0
    let v2 := p2.sub p0
    let normal := v1.cross v2
    if normal.len2 < 1 / 10 ^ 8 then true
    else
      (List.range (vertices.length - 3)).all (fun j =>
        let v := (vertices.getD (j + 3) ⟨0, 0, 0⟩).sub p0
        let dot := v.dot normal
        ¬ (dot ^ 2 > tolerance ^ 2 * normal.len2))

/-- `lineSegmentIntersection(p1, p2, p3, p4, tolerance = 0.01)`.
The three `Math.sqrt` guards are translated to their exact squared forms:
`crossLen < 0.0001` to `cross.len2 < 1/10^8`,
`coplanarCheck > tolerance * crossLen` to
`coplanarCheck² > tolerance² * cross.len2`, and
`dist > tolerance` to `dist² > tolerance²`.  Everything else (including the
parameters `t`, `s`) is exact rational arithmetic, exactly as the source
computes it. -/
def lineSegmentIntersection (p1 p2 p3 p4 : Vec3) : Option Vec3 :=
  let tolerance : ℚ := 1 / 100
  let d1 := p2.sub p1
  let d2 := p4.sub p3
  let w := p3.sub p1
  let cross := d1.cross d2
  if cross.len2 < 1 / 10 ^ 8 then none
  else
    let coplanarCheck := w.dot cross
    if coplanarCheck ^ 2 > tolerance ^ 2 * cross.len2 then none
    else
      let d1Len2 := d1.len2
      let d2Len2 := d2.len2
      let d1d2 := d1.dot d2
      let wd1 := w.dot d1
      let wd2 := w.dot d2
      let denom := d1Len2 * d2Len2 - d1d2 * d1d2
      if |denom| < 1 / 10 ^ 4 then none
      else
        let t := (d1d2 * wd2 - d2Len2 * wd1) / denom
        let s := (d1Len2 * wd2 - d1d2 * wd1) / denom
        let endpointMargin : ℚ := 2 / 100
        if t ≤ endpointMargin ∨ t ≥ 1 - endpointMargin then none
        else if s ≤ endpointMargin ∨ s ≥ 1 - endpointMargin then none
        else
          let intersection : Vec3 :=
            ⟨p1.x + t * d1.x, p1.y + t * d1.y, p1.z + t * d1.z⟩
          let point2 : Vec3 :=
            ⟨p3.x + s * d2.x, p3.y + s * d2.y, p3.z + s * d2.z⟩
          if (intersection.sub point2).len2 > tolerance ^ 2 then none
          else some intersection

/-- Result axes of `inferAxis` (the source's `'x' | 'y' | 'z' | 'none'`). -/
inductive Axis where
  | x | y | z | free
deriving DecidableEq

/-- `AxisInferenceResult` (the color field of the source is a fixed function
of the axis and is omitted). -/
structure AxisInferenceResult where
  axis : Axis
  point : Vec3
deriving DecidableEq

/-- `inferAxis(startPoint, rawEndPoint, gridSize, snapEnabled)`.

Exact translation of the floating-point comparisons:
* `length < 0.1` becomes `len2 < 1/100`;
* `minAngle > AXIS_LOCK_THRESHOLD` — with `angle_i = acos |dir_i|` and
  `acos` strictly antitone on `[0,1]` — holds iff
  `max |dir_i| < cos (π/12)`, i.e. (multiplying by the length and squaring)
  iff `4 * maxAbs² - 2 * len2 < √3 * len2`, decided by `ltSqrt3Mul`;
* `angleX === minAngle` holds iff `|dx|` is the (weak) maximum, etc. -/
def inferAxis (startPoint rawEndPoint : Vec3) (gridSize : ℚ)
    (snapEnabled : Bool) : AxisInferenceResult :=
  let d := rawEndPoint.sub startPoint
  if d.len2 < 1 / 100 then
    { axis := Axis.free, point := rawEndPoint }
  else
    let ax := d.x ^ 2
    let ay := d.y ^ 2
    let az := d.z ^ 2
    let maxSq := max ax (max ay az)
    if ltSqrt3Mul (4 * maxSq - 2 * d.len2) d.len2 then
      -- Off-axis: free movement (grid-snapped when enabled).
      let point := if snapEnabled then
          ⟨snapToGrid rawEndPoint.x gridSize, snapToGrid rawEndPoint.y gridSize,
           snapToGrid rawEndPoint.z gridSize⟩
        else rawEndPoint
      { axis := Axis.free, point := point }
    else if ax ≥ ay ∧ ax ≥ az then
      let xValue := if snapEnabled then snapToGrid rawEndPoint.x gridSize
        else rawEndPoint.x
      { axis := Axis.x, point := ⟨xValue, startPoint.y, startPoint.z⟩ }
    else if ay ≥ az then
      let yValue := if snapEnabled then snapToGrid rawEndPoint.y gridSize
        else rawEndPoint.y
      { axis := Axis.y, point := ⟨startPoint.x, yValue, startPoint.z⟩ }
    else
      let zValue := if snapEnabled then snapToGrid rawEndPoint.z gridSize
        else rawEndPoint.z
      { axis := Axis.z, point := ⟨startPoint.x, startPoint.y, zValue⟩ }

/-! ## Mesh data model (`types.ts`) -/

/-- `Vertex`: id, 3D position, ids of incident edges. -/
structure Vertex where
  id : Nat
  position : Vec3
  edges : List Nat
deriving DecidableEq

/-- `Edge`: id, ordered pair of endpoint vertex ids, ids of adjacent faces,
construction flag. -/
structure Edge where
  id : Nat
  vertices : Nat × Nat
  faces : List Nat
  isConstruction : Bool
deriving DecidableEq

/-- `Face`: id, ordered boundary edge ids, normal. -/
structure Face where
  id : Nat
  edges : List Nat
  normal : Vec3
deriving DecidableEq

/-- The geometry part of the Zustand store, plus the id counter modelling
`generateId()` (the source generates fresh UUID strings; the embedding
generates fresh naturals). -/
structure SceneState where
  vertices : AList Vertex
  edges : AList Edge
  faces : AList Face
  nextId : Nat
deriving DecidableEq

/-- `generateId()`: returns a fresh id and advances the generator. -/
def genId (s : SceneState) : Nat × SceneState :=
  (s.nextId, { s with nextId := s.nextId + 1 })

/-- The initial store: empty geometry. -/
def SceneState.empty : SceneState := ⟨[], [], [], 0⟩

/-- Does edge `e` connect `a` and `b` (in either orientation)?  This is the
test `(e.vertices[0] === a && e.vertices[1] === b) || (e.vertices[0] === b &&
e.vertices[1] === a)` used throughout `store.ts`. -/
def edgeConnects (e : Edge) (a b : Nat) : Bool :=
  (e.vertices.1 == a && e.vertices.2 == b) ||
  (e.vertices.1 == b && e.vertices.2 == a)

/-! ## Cycle detection (`findAllCycles`) -/

/-- The DFS of `findAllCycles`, enumerating all simple paths from the current
vertex to `v2` that avoid the new edge.  The source recursion is bounded by
`path.length > maxCycleLength (= 8)`; the structural `fuel` argument only
makes the recursion well-founded and never runs out when the function is
entered with `fuel ≥ 10 - path.length` (each recursive call grows the path
by one and the `path.length > 8` guard stops at length 9). -/
def dfs (vertices : AList Vertex) (edges : AList Edge) (v2Id newEdgeId : Nat) :
    Nat → Nat → List Nat → List Nat → List (List Nat)
  | 0, _, _, _ => []
  | fuel + 1, currentId, path, visitedInPath =>
    if path.length > 8 then []
    else
      match vertices.get currentId with
      | none => []
      | some vertex =>
        vertex.edges.foldl
          (fun cycles edgeId =>
            if edgeId = newEdgeId then cycles
            else
              match edges.get edgeId with
              | none => cycles
              | some edge =>
                let neighborId := if edge.vertices.1 = currentId
                  then edge.vertices.2 else edge.vertices.1
                if neighborId = v2Id ∧ path.length ≥ 2 then cycles ++ [path]
                else if neighborId ∈ visitedInPath then cycles
                else cycles ++ dfs vertices edges v2Id newEdgeId fuel neighborId
                    (path ++ [neighborId]) (visitedInPath ++ [neighborId]))
          []

/-- The chord test of the minimal-cycle filter in `findAllCycles`: does the
cycle have an edge between two non-adjacent cycle positions (other than the
new edge)? -/
def hasChord (vertices : AList Vertex) (edges : AList Edge) (newEdgeId : Nat)
    (cycle : List Nat) : Bool :=
  (List.range cycle.length).any fun i =>
    (List.range cycle.length).any fun j =>
      i + 2 ≤ j && !(i == 0 && j == cycle.length - 1) &&
      (let vi := cycle.getD i 0
       let vj := cycle.getD j 0
       match vertices.get vi with
       | none => false
       | some vertexI =>
         vertexI.edges.any fun edgeId =>
           edgeId != newEdgeId &&
           match edges.get edgeId with
           | none => false
           | some edge =>
             (if edge.vertices.1 = vi then edge.vertices.2 else edge.vertices.1)
               == vj)

/-- `findAllCycles(vertices, edges, v1Id, v2Id, newEdgeId)`: all simple paths
`v1 … v2` avoiding the new edge (DFS), keeping only chord-free (minimal)
cycles. -/
def findAllCycles (vertices : AList Vertex) (edges : AList Edge)
    (v1Id v2Id newEdgeId : Nat) : List (List Nat) :=
  (dfs vertices edges v2Id newEdgeId 9 v1Id [v1Id] [v1Id]).filter
    (fun cycle => ¬ hasChord vertices edges newEdgeId cycle)

/-! ## Face synthesis (`detectAndCreateFaces`) -/

/-- The cycle's vertex positions (`cycle.map(...)` in the source; missing
vertices contribute the origin). -/
def cyclePositions (s : SceneState) (cycle : List Nat) : List Vec3 :=
  cycle.map (fun vId =>
    match s.vertices.get vId with
    | some v => v.position
    | none => (⟨0, 0, 0⟩ : Vec3))

/-- The boundary edges of a candidate cycle: for each consecutive pair (with
wrap-around) the already-stored connecting edge, if any. -/
def cycleFaceEdges (s : SceneState) (cycle : List Nat) : List Nat :=
  (List.range cycle.length).foldl
    (fun fe i =>
      let currVId := cycle.getD i 0
      let nextVId := cycle.getD ((i + 1) % cycle.length) 0
      match s.edges.values.find? (fun e => edgeConnects e currVId nextVId) with
      | some e => fe ++ [e.id]
      | none => fe)
    []

/-- One iteration of the `detectAndCreateFaces` loop body, for a single
cycle path found by `findAllCycles`. -/
def createFaceForCycle (v2Id : Nat) (s : SceneState) (cyclePath : List Nat) :
    SceneState :=
  if cyclePath.length < 2 then s
  else
    let cycle := cyclePath ++ [v2Id]
    let vertexPositions := cyclePositions s cycle
    if ¬ areVerticesCoplanar vertexPositions then s
    else
      let faceEdges := cycleFaceEdges s cycle
      if faceEdges.length = cycle.length then
        match s.faces.values.find? (fun f =>
            f.edges.length == faceEdges.length &&
            f.edges.all (fun e => faceEdges.contains e)) with
        | some _ => s
        | none =>
          let (faceId, s1) := genId s
          let normal := calculateFaceNormal vertexPositions
          let s2 := { s1 with
            faces := s1.faces.set faceId ⟨faceId, faceEdges, normal⟩ }
          faceEdges.foldl
            (fun s' faceEdgeId =>
              let es := s'.edges.modify faceEdgeId
                (fun e => { e with faces := e.faces ++ [faceId] })
              { s' with edges := es })
            s2
      else s

/-- `detectAndCreateFaces(state, v1Id, v2Id, edgeId)`: find all minimal
cycles through the new edge and materialize each coplanar one as a face
(unless an identical face already exists). -/
def detectAndCreateFaces (s : SceneState) (v1Id v2Id edgeId : Nat) :
    SceneState :=
  (findAllCycles s.vertices s.edges v1Id v2Id edgeId).foldl
    (createFaceForCycle v2Id) s

/-! ## Store operations (`useSceneStore`) -/

/-- `addVertex(position)`: always succeeds; returns the fresh id. -/
def addVertex (s : SceneState) (position : Vec3) : Nat × SceneState :=
  let (id, s1) := genId s
  (id, { s1 with vertices := s1.vertices.set id ⟨id, position, []⟩ })

/-- An intersection record collected by `addEdge`: the intersection point,
the id of the existing edge it lies on, and the sort key.  The source sorts
by `t = √((point−v1)·(point−v1)) / len` with `len` the candidate's length,
fixed across all records; `t ↦ t²·len²` is strictly monotone on the
nonnegative reals, so sorting by `tKey = (point−v1)·(point−v1)` produces the
same (stable) order. -/
structure Hit where
  point : Vec3
  edgeId : Nat
  tKey : ℚ
deriving DecidableEq

/-- Collect the intersections of the candidate segment with every existing
edge (first loop of `addEdge`). -/
def collectIntersections (s : SceneState) (p1 p2 : Vec3) : List Hit :=
  s.edges.foldl
    (fun acc p =>
      let edge := p.2
      match s.vertices.get edge.vertices.1, s.vertices.get edge.vertices.2 with
      | some ev1, some ev2 =>
        match lineSegmentIntersection p1 p2 ev1.position ev2.position with
        | some point => acc ++ [⟨point, p.1, (point.sub p1).len2⟩]
        | none => acc
      | _, _ => acc)
    []

/-- Stable insertion into an ascending list (JavaScript `Array.sort` with
comparator `a.t - b.t` is stable and ascending). -/
def insertHit (h : Hit) : List Hit → List Hit
  | [] => [h]
  | h' :: rest => if h.tKey < h'.tKey then h :: h' :: rest
      else h' :: insertHit h rest

/-- Stable ascending sort of the intersection list by `t`. -/
def sortHits (l : List Hit) : List Hit :=
  l.foldl (fun acc h => insertHit h acc) []

/-- Append an edge id to a vertex's incident-edge list
(`vertex.edges.push(edgeId)`). -/
def pushEdge (eid : Nat) (v : Vertex) : Vertex :=
  { v with edges := v.edges ++ [eid] }

/-- Split the existing edge `edgeId` at the freshly created intersection
vertex `xId` (one iteration of the splitting loop in `addEdge`): detach the
old edge from its endpoints, create the two half edges, rewire, delete the
old edge. -/
def splitEdgeAt (s : SceneState) (edgeId xId : Nat) : SceneState :=
  match s.edges.get edgeId with
  | none => s
  | some edge =>
    let oldV1Id := edge.vertices.1
    let oldV2Id := edge.vertices.2
    match s.vertices.get oldV1Id, s.vertices.get oldV2Id with
    | some _, some _ =>
      let vs0 := (s.vertices.modify oldV1Id
          (fun v => { v with edges := v.edges.filter (· ≠ edgeId) })).modify
          oldV2Id (fun v => { v with edges := v.edges.filter (· ≠ edgeId) })
      let s := { s with vertices := vs0 }
      let (newEdge1Id, s) := genId s
      let (newEdge2Id, s) := genId s
      let es0 := (s.edges.set newEdge1Id
          ⟨newEdge1Id, (oldV1Id, xId), [], edge.isConstruction⟩).set newEdge2Id
          ⟨newEdge2Id, (xId, oldV2Id), [], edge.isConstruction⟩
      let s := { s with edges := es0 }
      let vs1 := ((s.vertices.modify oldV1Id (pushEdge newEdge1Id)).modify
          oldV2Id (pushEdge newEdge2Id)).modify xId
          (fun v => { v with edges := v.edges ++ [newEdge1Id, newEdge2Id] })
      let s := { s with vertices := vs1 }
      { s with edges := s.edges.del edgeId }
    | _, _ => s

/-- The vertex set of a face, in first-encounter order (the `faceVertices`
accumulation in `addEdge`'s face-subdivision check). -/
def faceVerticesOf (s : SceneState) (face : Face) : List Nat :=
  face.edges.foldl
    (fun acc edgeId =>
      match s.edges.get edgeId with
      | none => acc
      | some edge =>
        let acc := if edge.vertices.1 ∈ acc then acc else acc ++ [edge.vertices.1]
        if edge.vertices.2 ∈ acc then acc else acc ++ [edge.vertices.2])
    []

/-- The chord-invalidation scan of `addEdge`: ids of the faces that have
both `v1Id` and `v2Id` among their vertices without an existing boundary
edge between them. -/
def facesToRemove (s : SceneState) (v1Id v2Id : Nat) : List Nat :=
  s.faces.foldl
    (fun acc p =>
      let fv := faceVerticesOf s p.2
      if v1Id ∈ fv ∧ v2Id ∈ fv then
        let areAdjacent := p.2.edges.any (fun eid =>
          match s.edges.get eid with
          | none => false
          | some e => edgeConnects e v1Id v2Id)
        if areAdjacent then acc else acc ++ [p.1]
      else acc)
    []

/-- Remove a subdivided face: detach it from its boundary edges' face lists
and delete it. -/
def removeFace (s : SceneState) (faceId : Nat) : SceneState :=
  match s.faces.get faceId with
  | none => s
  | some face =>
    let s := face.edges.foldl
      (fun s' edgeId =>
        let es := s'.edges.modify edgeId
          (fun e => { e with faces := e.faces.filter (· ≠ faceId) })
        { s' with edges := es })
      s
    { s with faces := s.faces.del faceId }

/-- The no-intersection branch of `addEdge`: insert the edge, wire it to its
endpoints, remove faces it subdivides, then run face detection. -/
def addEdgeDirect (s : SceneState) (v1Id v2Id id : Nat) : SceneState :=
  let s1 := { s with
    edges := s.edges.set id ⟨id, (v1Id, v2Id), [], false⟩,
    vertices := (s.vertices.modify v1Id (pushEdge id)).modify v2Id (pushEdge id) }
  let s2 := (facesToRemove s1 v1Id v2Id).foldl removeFace s1
  detectAndCreateFaces s2 v1Id v2Id id

/-- One iteration of the intersection-vertex creation loop of `addEdge`:
create a vertex at the intersection point and remember its id. -/
def splitVertexStep (acc : List Nat × SceneState) (hit : Hit) :
    List Nat × SceneState :=
  let (xid, s') := genId acc.2
  (acc.1 ++ [xid],
   { s' with vertices := s'.vertices.set xid ⟨xid, hit.point, []⟩ })

/-- One iteration of the chain-segment creation loop of `addEdge`: insert
the edge for one consecutive pair and wire it to its endpoints. -/
def chainStep (acc : List Nat × SceneState) (pr : Nat × Nat) :
    List Nat × SceneState :=
  let (newEdgeId, s') := genId acc.2
  let s1 := { s' with
    edges := s'.edges.set newEdgeId ⟨newEdgeId, (pr.1, pr.2), [], false⟩ }
  let vs := (s1.vertices.modify pr.1 (pushEdge newEdgeId)).modify pr.2
    (pushEdge newEdgeId)
  (acc.1 ++ [newEdgeId], { s1 with vertices := vs })

/-- One iteration of the per-segment face-detection loop of `addEdge`. -/
def detectStep (s' : SceneState) (newEdgeId : Nat) : SceneState :=
  match s'.edges.get newEdgeId with
  | none => s'
  | some newEdge =>
    detectAndCreateFaces s' newEdge.vertices.1 newEdge.vertices.2 newEdgeId

/-- The intersection branch of `addEdge`: create a vertex per intersection
point (in ascending `t` order), split each intersected edge, lay the chain
`v1 → x₁ → … → v2`, and run face detection once per chain segment. -/
def addEdgeSplit (s : SceneState) (v1Id v2Id : Nat) (sorted : List Hit) :
    SceneState :=
  let step := sorted.foldl splitVertexStep ([], s)
  let intersectionVertexIds := step.1
  let s1 := step.2
  let s2 := (sorted.zip intersectionVertexIds).foldl
    (fun s' p => splitEdgeAt s' p.1.edgeId p.2) s1
  let allVertexIds := v1Id :: (intersectionVertexIds ++ [v2Id])
  let chain := (allVertexIds.zip allVertexIds.tail).foldl chainStep ([], s2)
  chain.1.foldl detectStep chain.2

/-- `addEdge(v1Id, v2Id)`: generates an id, then (inside the store update)
no-ops when an endpoint is unknown or an edge between the pair exists;
otherwise splits at intersections or inserts directly (with chord
invalidation and face detection).  Returns the generated id and the new
state. -/
def addEdge (s : SceneState) (v1Id v2Id : Nat) : Nat × SceneState :=
  let (id, s0) := genId s
  match s0.vertices.get v1Id, s0.vertices.get v2Id with
  | some v1, some v2 =>
    if (s0.edges.values.find? (fun e => edgeConnects e v1Id v2Id)).isSome then
      (id, s0)
    else
      let intersections := collectIntersections s0 v1.position v2.position
      if intersections.isEmpty then (id, addEdgeDirect s0 v1Id v2Id id)
      else (id, addEdgeSplit s0 v1Id v2Id (sortHits intersections))
  | _, _ => (id, s0)

/-- `deleteEdge(id)`: detach from both endpoint vertices, remove the edge.
Faces referencing the edge are left untouched.  (The source also drops the
id from the selection set; selection is not part of the geometry model.) -/
def deleteEdge (s : SceneState) (id : Nat) : SceneState :=
  match s.edges.get id with
  | none => s
  | some edge =>
    let vs := (s.vertices.modify edge.vertices.1
        (fun v => { v with edges := v.edges.filter (· ≠ id) })).modify
        edge.vertices.2
        (fun v => { v with edges := v.edges.filter (· ≠ id) })
    let s := { s with vertices := vs }
    { s with edges := s.edges.del id }

/-- One iteration of `deleteVertex`'s incident-edge loop: detach the edge
from its other endpoint and delete it. -/
def detachStep (id : Nat) (s' : SceneState) (edgeId : Nat) : SceneState :=
  match s'.edges.get edgeId with
  | none => s'
  | some edge =>
    let otherVertexId := if edge.vertices.1 = id then edge.vertices.2
      else edge.vertices.1
    let vs := s'.vertices.modify otherVertexId
      (fun v => { v with edges := v.edges.filter (· ≠ edgeId) })
    let s1 := { s' with vertices := vs }
    { s1 with edges := s1.edges.del edgeId }

/-- `deleteVertex(id)`: delete every incident edge (detaching each from its
other endpoint), then remove the vertex. -/
def deleteVertex (s : SceneState) (id : Nat) : SceneState :=
  match s.vertices.get id with
  | none => s
  | some vertex =>
    let s := vertex.edges.foldl (detachStep id) s
    { s with vertices := s.vertices.del id }

/-- Look up the positions of the given vertices; `none` as soon as one is
unknown (the early `return` in `addFace`'s update closure). -/
def positionsOf (s : SceneState) : List Nat → Option (List Vec3)
  | [] => some []
  | vId :: rest =>
    match s.vertices.get vId with
    | none => none
    | some v =>
      match positionsOf s rest with
      | none => none
      | some ps => some (v.position :: ps)

/-- One iteration of `addFace`'s boundary loop: reuse the stored edge
connecting the `i`-th consecutive pair, or create it. -/
def addFaceEdgeStep (vertexIds : List Nat) (acc : List Nat × SceneState)
    (i : Nat) : List Nat × SceneState :=
  let v1Id := vertexIds.getD i 0
  let v2Id := vertexIds.getD ((i + 1) % vertexIds.length) 0
  let s' := acc.2
  match s'.edges.values.find? (fun e => edgeConnects e v1Id v2Id) with
  | some e => (acc.1 ++ [e.id], s')
  | none =>
    let (newEdgeId, s1) := genId s'
    -- the source's object literal here omits `isConstruction`
    -- (it is `undefined`, i.e. falsy)
    let es := s1.edges.set newEdgeId ⟨newEdgeId, (v1Id, v2Id), [], false⟩
    let s2 := { s1 with edges := es }
    let vs := (s2.vertices.modify v1Id (pushEdge newEdgeId)).modify
      v2Id (pushEdge newEdgeId)
    (acc.1 ++ [newEdgeId], { s2 with vertices := vs })

/-- `addFace(vertexIds)`: direct face construction.  Requires ≥ 3 vertices
and that all ids are known; reuses or creates each consecutive edge; the
normal is the normalized cross product of the first two boundary vectors
(`ratSqrt` stands for `Math.sqrt`; when the squared length is not a perfect
rational square the source would scale by the irrational length, which no
claim inspects).  No duplicate check of any kind is performed. -/
def addFace (s : SceneState) (vertexIds : List Nat) :
    Option Nat × SceneState :=
  if vertexIds.length < 3 then (none, s)
  else
    let (faceId, s0) := genId s
    match positionsOf s0 vertexIds with
    | none => (none, s0)
    | some positions =>
      let step := (List.range vertexIds.length).foldl
        (addFaceEdgeStep vertexIds) ([], s0)
      let edgeIds := step.1
      let s1 := step.2
      let p0 := positions.getD 0 ⟨0, 0, 0⟩
      let p1 := positions.getD 1 ⟨0, 0, 0⟩
      let p2 := positions.getD 2 ⟨0, 0, 0⟩
      let n := (p1.sub p0).cross (p2.sub p0)
      let len := ratSqrt n.len2
      let normal : Vec3 := if len > 0 then ⟨n.x / len, n.y / len, n.z / len⟩
        else n
      let s2 := { s1 with faces := s1.faces.set faceId ⟨faceId, edgeIds, normal⟩ }
      let s3 := edgeIds.foldl
        (fun s' edgeId =>
          let es := s'.edges.modify edgeId
            (fun e => if faceId ∈ e.faces then e
              else { e with faces := e.faces ++ [faceId] })
          { s' with edges := es })
        s2
      (some faceId, s3)

/-! ## Undo/redo history (`saveToHistory`, `undo`, `redo`) -/

/-- A history snapshot: a structural copy of the three geometry
collections (the source deep-copies; values are immutable here). -/
structure Snapshot where
  vertices : AList Vertex
  edges : AList Edge
  faces : AList Face
deriving DecidableEq

/-- The store state relevant to the history operations. -/
structure HistoryState where
  scene : SceneState
  history : List Snapshot
  historyIndex : Int
deriving DecidableEq

/-- The initial history state (`history: [], historyIndex: -1`). -/
def HistoryState.init (s : SceneState) : HistoryState := ⟨s, [], -1⟩

def geomSnapshot (s : SceneState) : Snapshot := ⟨s.vertices, s.edges, s.faces⟩

/-- `saveToHistory()`: truncate redo-tail, push a snapshot, drop the oldest
entry when the result exceeds 50. -/
def saveToHistory (h : HistoryState) : HistoryState :=
  let snapshot := geomSnapshot h.scene
  let newHistory := h.history.take (h.historyIndex + 1).toNat ++ [snapshot]
  let newHistory := if newHistory.length > 50 then newHistory.drop 1
    else newHistory
  { h with history := newHistory, historyIndex := (newHistory.length : Int) - 1 }

/-- `undo()`: no-op when the index is negative; push the current state when
sitting at the end of the history (without any cap check); then step back
and restore, unless already at index 0. -/
def undo (h : HistoryState) : HistoryState :=
  if h.historyIndex < 0 then h
  else
    let h := if h.historyIndex = (h.history.length : Int) - 1 then
        { h with history := h.history ++ [geomSnapshot h.scene] }
      else h
    if h.historyIndex > 0 then
      let idx := h.historyIndex - 1
      let snap := h.history.getD idx.toNat ⟨[], [], []⟩
      let scene : SceneState :=
        ⟨snap.vertices, snap.edges, snap.faces, h.scene.nextId⟩
      { scene := scene, history := h.history, historyIndex := idx }
    else h

/-- `redo()`: no-op at (or past) the end; otherwise step forward and
restore. -/
def redo (h : HistoryState) : HistoryState :=
  if h.historyIndex ≥ (h.history.length : Int) - 1 then h
  else
    let idx := h.historyIndex + 1
    let snap := h.history.getD idx.toNat ⟨[], [], []⟩
    let scene : SceneState :=
      ⟨snap.vertices, snap.edges, snap.faces, h.scene.nextId⟩
    { scene := scene, history := h.history, historyIndex := idx }

/-! ## Reachability and invariants -/

/-- States reachable from the empty scene by the five geometry mutations of
the store. -/
inductive ReachAll : SceneState → Prop where
  | empty : ReachAll SceneState.empty
  | addVertexStep (s : SceneState) (p : Vec3) :
      ReachAll s → ReachAll (addVertex s p).2
  | addEdgeStep (s : SceneState) (v1 v2 : Nat) :
      ReachAll s → ReachAll (addEdge s v1 v2).2
  | deleteVertexStep (s : SceneState) (id : Nat) :
      ReachAll s → ReachAll (deleteVertex s id)
  | deleteEdgeStep (s : SceneState) (id : Nat) :
      ReachAll s → ReachAll (deleteEdge s id)
  | addFaceStep (s : SceneState) (l : List Nat) :
      ReachAll s → ReachAll (addFace s l).2

/-- States reachable without the direct `addFace` operation. -/
inductive ReachNoFace : SceneState → Prop where
  | empty : ReachNoFace SceneState.empty
  | addVertexStep (s : SceneState) (p : Vec3) :
      ReachNoFace s → ReachNoFace (addVertex s p).2
  | addEdgeStep (s : SceneState) (v1 v2 : Nat) :
      ReachNoFace s → ReachNoFace (addEdge s v1 v2).2
  | deleteVertexStep (s : SceneState) (id : Nat) :
      ReachNoFace s → ReachNoFace (deleteVertex s id)
  | deleteEdgeStep (s : SceneState) (id : Nat) :
      ReachNoFace s → ReachNoFace (deleteEdge s id)

/-- Vertex↔edge bidirectional consistency: a vertex's edge-id list holds
exactly the edges whose endpoint pair includes that vertex. -/
def VEinv (s : SceneState) : Prop :=
  ∀ vid v, s.vertices.get vid = some v →
    ∀ eid, eid ∈ v.edges ↔
      ∃ e, s.edges.get eid = some e ∧
        (e.vertices.1 = vid ∨ e.vertices.2 = vid)

/-- Edge↔face bidirectional consistency: an edge's face-id list holds
exactly the faces whose boundary edge list contains that edge. -/
def EFinv (s : SceneState) : Prop :=
  ∀ eid e, s.edges.get eid = some e →
    ∀ fid, fid ∈ e.faces ↔
      ∃ f, s.faces.get fid = some f ∧ eid ∈ f.edges

/-- Two edge-id lists denote the same set. -/
def sameEdgeSet (l1 l2 : List Nat) : Prop :=
  (∀ e ∈ l1, e ∈ l2) ∧ (∀ e ∈ l2, e ∈ l1)

/-- No two faces of the store reference the same set of edges. -/
def noDupFaces (s : SceneState) : Prop :=
  s.faces.Pairwise (fun p q => ¬ sameEdgeSet p.2.edges q.2.edges)

instance (l1 l2 : List Nat) : Decidable (sameEdgeSet l1 l2) := by
  unfold sameEdgeSet
  infer_instance

instance (s : SceneState) : Decidable (noDupFaces s) := by
  unfold noDupFaces
  infer_instance

/-! ## Concrete runs of the store -/

/-- C1 scenario: 4 vertices `(0,0,0), (10,0,0), (10,0,10), (0,0,10)`
(receiving ids 0–3)… -/
def quad0 : SceneState := (addVertex SceneState.empty ⟨0, 0, 0⟩).2

def quad1 : SceneState := (addVertex quad0 ⟨10, 0, 0⟩).2

def quad2 : SceneState := (addVertex quad1 ⟨10, 0, 10⟩).2

def quad3 : SceneState := (addVertex quad2 ⟨0, 0, 10⟩).2

/-- …then 4 edges connecting them consecutively. -/
def quad4 : SceneState := (addEdge quad3 0 1).2

def quad5 : SceneState := (addEdge quad4 1 2).2

def quad6 : SceneState := (addEdge quad5 2 3).2

/-- The closed-quad state. -/
def quadRun : SceneState := (addEdge quad6 3 0).2

/-- C2 scenario: the closed quad plus the diagonal between opposite corners
`(0,0,0)` and `(10,0,10)` (vertex ids 0 and 2). -/
def diagRun : SceneState := (addEdge quadRun 0 2).2

/-- C3 scenario: segment `(−5,0,0)-(5,0,0)` (vertex ids 0, 1)… -/
def cross0 : SceneState := (addVertex SceneState.empty ⟨-5, 0, 0⟩).2

def cross1 : SceneState := (addVertex cross0 ⟨5, 0, 0⟩).2

def cross2 : SceneState := (addEdge cross1 0 1).2

/-- …then segment `(0,0,−5)-(0,0,5)` (vertex ids 3, 4). -/
def cross3 : SceneState := (addVertex cross2 ⟨0, 0, -5⟩).2

def cross4 : SceneState := (addVertex cross3 ⟨0, 0, 5⟩).2

def crossRun : SceneState := (addEdge cross4 3 4).2

/-- C5 scenario: a triangle built twice by `addFace` over the same three
vertices (ids 0, 1, 2). -/
def dupTri0 : SceneState := (addVertex SceneState.empty ⟨0, 0, 0⟩).2

def dupTri1 : SceneState := (addVertex dupTri0 ⟨1, 0, 0⟩).2

def dupTri2 : SceneState := (addVertex dupTri1 ⟨0, 0, 1⟩).2

def dupTri3 : SceneState := (addFace dupTri2 [0, 1, 2]).2

def dupFaceRun : SceneState := (addFace dupTri3 [0, 1, 2]).2

/-- C6 scenario: a short edge (vertex ids 0, 1) positioned so that the
(sign-flipped) intersection routine reports a bogus interior crossing with
the candidate edge from `(0,0,0)` to `(0.11,0,0)` (vertex ids 3, 4); the
first `addEdge 3 4` therefore takes the splitting branch and creates no
edge between 3 and 4, so the second `addEdge 3 4` is not a no-op. -/
def c6a : SceneState :=
  (addVertex SceneState.empty ⟨-33/10000, 0, 33/10000⟩).2

def c6b : SceneState := (addVertex c6a ⟨-33/10000, 0, 33/10000 + 11/100⟩).2

def c6c : SceneState := (addEdge c6b 0 1).2

def c6d : SceneState := (addVertex c6c ⟨0, 0, 0⟩).2

def c6e : SceneState := (addVertex c6d ⟨11/100, 0, 0⟩).2

def c6FirstAdd : SceneState := (addEdge c6e 3 4).2

def c6SecondAdd : SceneState := (addEdge c6FirstAdd 3 4).2

/-- C9 scenario helper: `n` consecutive `saveToHistory` calls. -/
def saveN : Nat → HistoryState → HistoryState
  | 0, h => h
  | n + 1, h => saveN n (saveToHistory h)

/-- C9 scenario: 50 saves fill the history to its cap, then one `undo` at
the tip pushes an uncapped 51st snapshot. -/
def histOverflow : HistoryState :=
  undo (saveN 50 (HistoryState.init SceneState.empty))

/-! ## Claims about the concrete runs -/

set_option maxRecDepth 20000

/-- C1: after adding the 4 vertices `(0,0,0), (10,0,0), (10,0,10),
(0,0,10)` to the empty scene and the 4 edges connecting them consecutively
(closing the loop), the store contains exactly 1 face, and that face's
normal is `(0,1,0)` or `(0,−1,0)`. -/
theorem C1_closed_quad_synthesizes_face :
    quadRun.faces.values.length = 1 ∧
    ∀ f ∈ quadRun.faces.values,
      f.normal = (⟨0, 1, 0⟩ : Vec3) ∨ f.normal = (⟨0, -1, 0⟩ : Vec3) := by
  with_unfolding_all decide

/-- C2: starting from the closed quad (exactly 1 face), adding the diagonal
between the opposite corners deletes the original face, and the store then
contains exactly 2 triangular faces whose combined edge sets cover all 5
edges. -/
theorem C2_chord_invalidates_face :
    quadRun.faces.values.length = 1 ∧
    (∀ fid ∈ quadRun.faces.keys, diagRun.faces.get fid = none) ∧
    diagRun.faces.values.length = 2 ∧
    (∀ f ∈ diagRun.faces.values, f.edges.length = 3) ∧
    diagRun.edges.values.length = 5 ∧
    ∀ eid ∈ diagRun.edges.keys, ∃ f ∈ diagRun.faces.values, eid ∈ f.edges := by
  with_unfolding_all decide

/-- C3, behaviour of the code at the claimed input: the segments
`(0,0,−5)-(0,0,5)` and `(−5,0,0)-(5,0,0)` cross at the origin, but
`lineSegmentIntersection` computes the *negated* segment parameters
(`t = s = −1/2` instead of `1/2`), rejects them against the endpoint
margin, and returns `none`; consequently the second `addEdge` performs no
split: the scene keeps its 4 original vertices (none at the origin) and
exactly 2 edges, each still spanning a full original segment. -/
theorem C3_crossing_edges_not_split :
    lineSegmentIntersection ⟨0, 0, -5⟩ ⟨0, 0, 5⟩ ⟨-5, 0, 0⟩ ⟨5, 0, 0⟩ = none ∧
    crossRun.vertices.values.length = 4 ∧
    (∀ v ∈ crossRun.vertices.values, v.position ≠ (⟨0, 0, 0⟩ : Vec3)) ∧
    crossRun.edges.values.length = 2 ∧
    crossRun.edges.values.map Edge.vertices = [(0, 1), (3, 4)] := by
  with_unfolding_all decide

/-- C5, counterexample: `addFace` performs no duplicate check, so calling
it twice with the same vertices yields a reachable state holding two faces
with the same edge set. -/
theorem C5_counterexample_duplicate_faces :
    ReachAll dupFaceRun ∧ ¬ noDupFaces dupFaceRun := by
  constructor
  · exact ReachAll.addFaceStep _ _ (ReachAll.addFaceStep _ _
      (ReachAll.addVertexStep _ _ (ReachAll.addVertexStep _ _
        (ReachAll.addVertexStep _ _ ReachAll.empty))))
  · with_unfolding_all decide

/-- C6, counterexample: when the first `addEdge` for a pair takes the
splitting branch (so no edge between the pair is created), the second
`addEdge` with the same unordered pair and no intervening deletion is *not*
a silent no-op: it inserts a new edge, changing the edge collection. -/
theorem C6_counterexample_second_add_not_noop :
    c6SecondAdd.edges ≠ c6FirstAdd.edges ∧
    c6SecondAdd.edges.values.length = c6FirstAdd.edges.values.length + 1 := by
  with_unfolding_all decide

/-- C9, counterexample: 50 `saveToHistory` calls fill the history to the
50-entry cap; a subsequent `undo` at the tip pushes an uncapped snapshot,
so the history holds 51 > 50 entries. -/
theorem C9_counterexample_history_exceeds_cap :
    histOverflow.history.length = 51 := by
  with_unfolding_all decide

/-! ## C7: the frame property of `deleteEdge` -/

/-- C7: for an edge referenced by at least one face, `deleteEdge id` removes
the edge from the edge collection, removes `id` from both endpoint
vertices' edge lists, and changes nothing else: the face collection is
untouched (faces listing `id` stay, with edge list and normal unchanged),
all other edges are unchanged, non-endpoint vertices are unchanged, and
every vertex keeps its position. -/
theorem C7_deleteEdge_frame (s : SceneState) (id : Nat) (e : Edge)
    (hget : s.edges.get id = some e) (hfaces : e.faces ≠ []) :
    (deleteEdge s id).faces = s.faces ∧
    (deleteEdge s id).edges.get id = none ∧
    (∀ eid, eid ≠ id → (deleteEdge s id).edges.get eid = s.edges.get eid) ∧
    (∀ vid, vid = e.vertices.1 ∨ vid = e.vertices.2 →
      (deleteEdge s id).vertices.get vid = (s.vertices.get vid).map
        (fun v => { v with edges := v.edges.filter (· ≠ id) })) ∧
    (∀ vid, vid ≠ e.vertices.1 → vid ≠ e.vertices.2 →
      (deleteEdge s id).vertices.get vid = s.vertices.get vid) ∧
    (∀ vid v v', s.vertices.get vid = some v →
      (deleteEdge s id).vertices.get vid = some v' →
      v'.position = v.position) := by
  have hfc : (deleteEdge s id).faces = s.faces := by
    unfold deleteEdge
    rw [hget]
  have hed : (deleteEdge s id).edges = s.edges.del id := by
    unfold deleteEdge
    rw [hget]
  have hvs : (deleteEdge s id).vertices =
      (s.vertices.modify e.vertices.1
        (fun v => { v with edges := v.edges.filter (· ≠ id) })).modify
        e.vertices.2
        (fun v => { v with edges := v.edges.filter (· ≠ id) }) := by
    unfold deleteEdge
    rw [hget]
  have hverts : ∀ vid, (deleteEdge s id).vertices.get vid =
      ((s.vertices.modify e.vertices.1
        (fun v => { v with edges := v.edges.filter (· ≠ id) })).modify
        e.vertices.2
        (fun v => { v with edges := v.edges.filter (· ≠ id) })).get vid := by
    intro vid
    rw [hvs]
  have step : ∀ (m : AList Vertex) (a vid : Nat) (v' : Vertex),
      (m.modify a
        (fun v => { v with edges := v.edges.filter (· ≠ id) })).get vid =
          some v' →
      ∃ w, m.get vid = some w ∧ v'.position = w.position := by
    intro m a vid v' h
    by_cases hva : vid = a
    · subst hva
      rw [AList.get_modify_self] at h
      rcases hm : m.get vid with _ | w
      · rw [hm] at h
        simp at h
      · rw [hm] at h
        injection h with h
        exact ⟨w, rfl, by rw [← h]⟩
    · rw [AList.get_modify_ne _ _ hva] at h
      exact ⟨v', h, rfl⟩
  refine ⟨hfc, ?_, ?_, ?_, ?_, ?_⟩
  · rw [hed]
    exact AList.get_del_self _ _
  · intro eid hne
    rw [hed]
    exact AList.get_del_ne _ hne
  · intro vid hvid
    rw [hverts vid]
    by_cases h2 : vid = e.vertices.2
    · subst h2
      rw [AList.get_modify_self]
      by_cases h1 : e.vertices.2 = e.vertices.1
      · rw [← h1, AList.get_modify_self]
        rcases s.vertices.get e.vertices.2 with _ | v
        · rfl
        · show some _ = some _
          have : ∀ (l : List Nat),
              (l.filter (· ≠ id)).filter (· ≠ id) = l.filter (· ≠ id) := by
            intro l
            simp [List.filter_filter]
          simp [this]
      · rw [AList.get_modify_ne _ _ h1]
    · rcases hvid with h1 | h2'
      · subst h1
        rw [AList.get_modify_ne _ _ h2, AList.get_modify_self]
      · exact absurd h2' h2
  · intro vid h1 h2
    rw [hverts vid, AList.get_modify_ne _ _ h2, AList.get_modify_ne _ _ h1]
  · intro vid v v' hv hv'
    rw [hverts vid] at hv'
    obtain ⟨w1, hw1, hp1⟩ := step _ _ _ _ hv'
    obtain ⟨w2, hw2, hp2⟩ := step _ _ _ _ hw1
    rw [hv] at hw2
    injection hw2 with hw2
    rw [hp1, hp2, hw2]

/-- C7, witness: the closed quad holds edge 4 (connecting vertices 0 and 1,
referenced by face 8); the frame property holds for deleting it. -/
theorem C7_witness :
    (deleteEdge quadRun 4).faces = quadRun.faces ∧
    (deleteEdge quadRun 4).edges.get 4 = none ∧
    (∀ eid, eid ≠ 4 → (deleteEdge quadRun 4).edges.get eid = quadRun.edges.get eid) ∧
    (∀ vid, vid = (0 : Nat) ∨ vid = (1 : Nat) →
      (deleteEdge quadRun 4).vertices.get vid = (quadRun.vertices.get vid).map
        (fun v => { v with edges := v.edges.filter (· ≠ 4) })) ∧
    (∀ vid, vid ≠ (0 : Nat) → vid ≠ (1 : Nat) →
      (deleteEdge quadRun 4).vertices.get vid = quadRun.vertices.get vid) ∧
    (∀ vid v v', quadRun.vertices.get vid = some v →
      (deleteEdge quadRun 4).vertices.get vid = some v' →
      v'.position = v.position) :=
  C7_deleteEdge_frame quadRun 4 ⟨4, (0, 1), [8], false⟩
    (by with_unfolding_all decide) (by decide)

/-! ## C8: axis inference locks to the X axis -/

/-- A direction within 10° of the X axis dominates the other coordinates
and satisfies the (squared, scaled) 15° lock threshold of `inferAxis`. -/
theorem within10deg_bounds (x y z : ℝ)
    (hangle : Real.cos (Real.pi / 18) * Real.sqrt (x ^ 2 + y ^ 2 + z ^ 2) ≤
      |x|) :
    y ^ 2 ≤ x ^ 2 ∧ z ^ 2 ≤ x ^ 2 ∧
    0 ≤ 4 * x ^ 2 - 2 * (x ^ 2 + y ^ 2 + z ^ 2) ∧
    3 * (x ^ 2 + y ^ 2 + z ^ 2) ^ 2 ≤
      (4 * x ^ 2 - 2 * (x ^ 2 + y ^ 2 + z ^ 2)) ^ 2 := by
  have hpi := Real.pi_pos
  set L : ℝ := x ^ 2 + y ^ 2 + z ^ 2 with hLdef
  have hLnn : 0 ≤ L := by positivity
  -- cos (π/18) is at least cos (π/4) = √2/2, so its square is ≥ 1/2
  have h18mem : Real.pi / 18 ∈ Set.Icc 0 Real.pi := by
    constructor <;> nlinarith
  have h4mem : Real.pi / 4 ∈ Set.Icc 0 Real.pi := by
    constructor <;> nlinarith
  have h6mem : Real.pi / 6 ∈ Set.Icc 0 Real.pi := by
    constructor <;> nlinarith
  have h9mem : Real.pi / 9 ∈ Set.Icc 0 Real.pi := by
    constructor <;> nlinarith
  have hcos18_ge : Real.cos (Real.pi / 4) < Real.cos (Real.pi / 18) := by
    apply Real.strictAntiOn_cos h18mem h4mem
    nlinarith
  have hcos18_nn : 0 ≤ Real.cos (Real.pi / 18) := by
    have := Real.cos_pi_div_four
    nlinarith [Real.sq_sqrt (by norm_num : (0:ℝ) ≤ 2),
      Real.sqrt_nonneg (2:ℝ)]
  have hcos18_sq : 1 / 2 ≤ Real.cos (Real.pi / 18) ^ 2 := by
    have h2 : Real.cos (Real.pi / 4) = Real.sqrt 2 / 2 := Real.cos_pi_div_four
    nlinarith [Real.sq_sqrt (by norm_num : (0:ℝ) ≤ 2),
      Real.sqrt_nonneg (2:ℝ)]
  have hcos9_gt : Real.sqrt 3 < 2 * Real.cos (Real.pi / 9) := by
    have h1 : Real.cos (Real.pi / 6) < Real.cos (Real.pi / 9) := by
      apply Real.strictAntiOn_cos h9mem h6mem
      nlinarith
    have h2 : Real.cos (Real.pi / 6) = Real.sqrt 3 / 2 := Real.cos_pi_div_six
    nlinarith
  have hcossq9 : Real.cos (Real.pi / 18) ^ 2 =
      1 / 2 + Real.cos (Real.pi / 9) / 2 := by
    have h1 := Real.cos_sq (Real.pi / 18)
    have h2 : 2 * (Real.pi / 18) = Real.pi / 9 := by ring
    rw [h2] at h1
    exact h1
  -- |x| dominates: x² ≥ cos²(π/18)·L
  have hex2 : Real.cos (Real.pi / 18) ^ 2 * L ≤ x ^ 2 := by
    have h1 : 0 ≤ Real.cos (Real.pi / 18) * Real.sqrt L :=
      mul_nonneg hcos18_nn (Real.sqrt_nonneg _)
    have h2 := pow_le_pow_left₀ h1 hangle 2
    rw [mul_pow, Real.sq_sqrt hLnn, sq_abs] at h2
    exact h2
  have hhalf : L / 2 ≤ x ^ 2 := by
    nlinarith [mul_le_mul_of_nonneg_right hcos18_sq hLnn]
  have hey2 : y ^ 2 ≤ x ^ 2 := by
    nlinarith [sq_nonneg z]
  have hez2 : z ^ 2 ≤ x ^ 2 := by
    nlinarith [sq_nonneg y]
  have hsqrt3 : Real.sqrt 3 ^ 2 = 3 := Real.sq_sqrt (by norm_num)
  have hsqrt3nn : 0 ≤ Real.sqrt 3 := Real.sqrt_nonneg 3
  -- the axis-lock condition holds: 4x² − 2L ≥ √3·L, hence the squared form
  have hge : Real.sqrt 3 * L ≤ 4 * x ^ 2 - 2 * L := by
    have h2 := mul_le_mul_of_nonneg_right (le_of_lt hcos9_gt) hLnn
    nlinarith [hcossq9, hex2]
  have hann : (0 : ℝ) ≤ 4 * x ^ 2 - 2 * L :=
    le_trans (mul_nonneg hsqrt3nn hLnn) hge
  have hasq : 3 * L ^ 2 ≤ (4 * x ^ 2 - 2 * L) ^ 2 := by
    have h1 := pow_le_pow_left₀ (mul_nonneg hsqrt3nn hLnn) hge 2
    calc 3 * L ^ 2 = (Real.sqrt 3 * L) ^ 2 := by
          rw [mul_pow, hsqrt3]
      _ ≤ (4 * x ^ 2 - 2 * L) ^ 2 := h1
  exact ⟨hey2, hez2, hann, hasq⟩

/-- C8: for a start point at the origin and an end point at distance at
least `0.1` whose direction is within 10° (`π/18`) of the X axis,
`inferAxis` returns axis `x` and a point whose Y and Z coordinates equal
the start point's Y and Z (here `0`).  The 10°-cone hypothesis is stated
exactly: `cos (π/18) · ‖e‖ ≤ |e.x|`. -/
theorem C8_inferAxis_x_lock (e : Vec3) (gridSize : ℚ) (snapEnabled : Bool)
    (hdist : 1 / 100 ≤ Vec3.len2 e)
    (hangle : Real.cos (Real.pi / 18) *
        Real.sqrt (((e.x : ℝ)) ^ 2 + ((e.y : ℝ)) ^ 2 + ((e.z : ℝ)) ^ 2) ≤
        |((e.x : ℝ))|) :
    (inferAxis ⟨0, 0, 0⟩ e gridSize snapEnabled).axis = Axis.x ∧
    (inferAxis ⟨0, 0, 0⟩ e gridSize snapEnabled).point.y = 0 ∧
    (inferAxis ⟨0, 0, 0⟩ e gridSize snapEnabled).point.z = 0 := by
  obtain ⟨hey2, hez2, hannL, hasqL⟩ :=
    within10deg_bounds ((e.x : ℝ)) ((e.y : ℝ)) ((e.z : ℝ)) hangle
  -- transport to ℚ
  have hqy : e.y ^ 2 ≤ e.x ^ 2 := by exact_mod_cast hey2
  have hqz : e.z ^ 2 ≤ e.x ^ 2 := by exact_mod_cast hez2
  have hlen : Vec3.len2 e = e.x ^ 2 + e.y ^ 2 + e.z ^ 2 := by
    unfold Vec3.len2
    ring
  have hqa0 : (0 : ℚ) ≤ 4 * e.x ^ 2 - 2 * (e.x ^ 2 + e.y ^ 2 + e.z ^ 2) := by
    exact_mod_cast hannL
  have hqsq0 : 3 * (e.x ^ 2 + e.y ^ 2 + e.z ^ 2) ^ 2 ≤
      (4 * e.x ^ 2 - 2 * (e.x ^ 2 + e.y ^ 2 + e.z ^ 2)) ^ 2 := by
    exact_mod_cast hasqL
  have hqa : (0 : ℚ) ≤ 4 * e.x ^ 2 - 2 * Vec3.len2 e := by
    rw [hlen]
    exact hqa0
  have hqsq : 3 * (Vec3.len2 e) ^ 2 ≤ (4 * e.x ^ 2 - 2 * Vec3.len2 e) ^ 2 := by
    rw [hlen]
    exact hqsq0
  -- evaluate inferAxis
  have hd : Vec3.sub e ⟨0, 0, 0⟩ = e := by
    cases e
    simp [Vec3.sub]
  have hnotsmall : ¬ (Vec3.len2 e < 1 / 100) := not_lt.2 hdist
  have hmax : max (e.x ^ 2) (max (e.y ^ 2) (e.z ^ 2)) = e.x ^ 2 := by
    rw [max_eq_left (max_le hqy hqz)]
  have hcond : ltSqrt3Mul (4 * e.x ^ 2 - 2 * Vec3.len2 e) (Vec3.len2 e)
      = false := by
    have hno : ¬ ((4 * e.x ^ 2 - 2 * Vec3.len2 e < 0) ∨
        (4 * e.x ^ 2 - 2 * Vec3.len2 e) ^ 2 < 3 * (Vec3.len2 e) ^ 2) :=
      not_or.2 ⟨not_lt.2 hqa, not_lt.2 hqsq⟩
    simp only [ltSqrt3Mul, decide_eq_false_iff_not]
    exact hno
  have heval : inferAxis ⟨0, 0, 0⟩ e gridSize snapEnabled =
      { axis := Axis.x,
        point := ⟨if snapEnabled then snapToGrid e.x gridSize else e.x,
          0, 0⟩ } := by
    unfold inferAxis
    rw [hd]
    simp only [hmax, hcond, hnotsmall, if_false, Bool.false_eq_true]
    rw [if_pos ⟨hqy, hqz⟩]
  rw [heval]
  exact ⟨rfl, rfl, rfl⟩

/-- C8, witness: the end point `(1,0,0)` satisfies both hypotheses (distance
`1 ≥ 0.1`, direction exactly on the X axis), and the conclusion follows by
the theorem. -/
theorem C8_witness :
    (1 / 100 ≤ Vec3.len2 ⟨1, 0, 0⟩) ∧
    (Real.cos (Real.pi / 18) *
        Real.sqrt ((((⟨1, 0, 0⟩ : Vec3).x : ℝ)) ^ 2 +
          (((⟨1, 0, 0⟩ : Vec3).y : ℝ)) ^ 2 + (((⟨1, 0, 0⟩ : Vec3).z : ℝ)) ^ 2) ≤
        |(((⟨1, 0, 0⟩ : Vec3).x : ℝ))|) ∧
    (inferAxis ⟨0, 0, 0⟩ ⟨1, 0, 0⟩ 1 true).axis = Axis.x ∧
    (inferAxis ⟨0, 0, 0⟩ ⟨1, 0, 0⟩ 1 true).point.y = 0 ∧
    (inferAxis ⟨0, 0, 0⟩ ⟨1, 0, 0⟩ 1 true).point.z = 0 := by
  have h1 : (1 : ℚ) / 100 ≤ Vec3.len2 ⟨1, 0, 0⟩ := by
    norm_num [Vec3.len2]
  have h2 : Real.cos (Real.pi / 18) *
      Real.sqrt ((((⟨1, 0, 0⟩ : Vec3).x : ℝ)) ^ 2 +
        (((⟨1, 0, 0⟩ : Vec3).y : ℝ)) ^ 2 + (((⟨1, 0, 0⟩ : Vec3).z : ℝ)) ^ 2) ≤
      |(((⟨1, 0, 0⟩ : Vec3).x : ℝ))| := by
    show Real.cos (Real.pi / 18) *
      Real.sqrt (((1 : ℚ) : ℝ) ^ 2 + ((0 : ℚ) : ℝ) ^ 2 + ((0 : ℚ) : ℝ) ^ 2) ≤
      |((1 : ℚ) : ℝ)|
    push_cast
    rw [show (1 : ℝ) ^ 2 + 0 ^ 2 + 0 ^ 2 = 1 by norm_num, Real.sqrt_one,
      abs_one, mul_one]
    exact Real.cos_le_one _
  exact ⟨h1, h2, C8_inferAxis_x_lock ⟨1, 0, 0⟩ 1 true h1 h2⟩

/-! ## C9 (amended): `saveToHistory` alone keeps the 50-entry cap -/

/-- History states produced from an initial store by `saveToHistory` calls,
with arbitrary geometry edits (which do not touch the history) in
between. -/
inductive ReachSave : HistoryState → Prop where
  | init (s : SceneState) : ReachSave (HistoryState.init s)
  | saveStep (h : HistoryState) : ReachSave h → ReachSave (saveToHistory h)
  | sceneStep (h : HistoryState) (s : SceneState) :
      ReachSave h → ReachSave { h with scene := s }

theorem saveToHistory_history (h : HistoryState) :
    (saveToHistory h).history =
      if (h.history.take (h.historyIndex + 1).toNat ++
            [geomSnapshot h.scene]).length > 50
      then (h.history.take (h.historyIndex + 1).toNat ++
            [geomSnapshot h.scene]).drop 1
      else h.history.take (h.historyIndex + 1).toNat ++
            [geomSnapshot h.scene] := rfl

theorem saveToHistory_index (h : HistoryState) :
    (saveToHistory h).historyIndex =
      ((saveToHistory h).history.length : Int) - 1 := rfl

/-- The invariant maintained by `saveToHistory` sequences. -/
theorem reachSave_inv (h : HistoryState) (hr : ReachSave h) :
    h.history.length ≤ 50 ∧
    h.historyIndex = (h.history.length : Int) - 1 := by
  induction hr with
  | init s => exact ⟨by simp [HistoryState.init], by simp [HistoryState.init]⟩
  | sceneStep h s _ ih => exact ih
  | saveStep h _ ih =>
    refine ⟨?_, saveToHistory_index h⟩
    rw [saveToHistory_history]
    have hlen : (h.history.take (h.historyIndex + 1).toNat ++
        [geomSnapshot h.scene]).length ≤ 51 := by
      simp only [List.length_append, List.length_take, List.length_singleton]
      have := ih.1
      omega
    by_cases hc : (h.history.take (h.historyIndex + 1).toNat ++
        [geomSnapshot h.scene]).length > 50
    · rw [if_pos hc]
      simp only [List.length_drop]
      omega
    · rw [if_neg hc]
      omega

/-- C9 (amended): after any sequence of `saveToHistory` calls (with
arbitrary geometry edits in between) the history never holds more than 50
snapshots, and when a push would exceed 50 — i.e. the history is full —
the oldest entry is discarded: the new history is the old one without its
head, plus the fresh snapshot.  (`undo` does not enforce this cap, see the
counterexample.) -/
theorem C9_amended_save_keeps_cap (h : HistoryState) (hr : ReachSave h) :
    h.history.length ≤ 50 ∧
    (h.history.length = 50 →
      (saveToHistory h).history =
        h.history.drop 1 ++ [geomSnapshot h.scene]) := by
  obtain ⟨hle, hidx⟩ := reachSave_inv h hr
  refine ⟨hle, fun hfull => ?_⟩
  rw [saveToHistory_history]
  have htake : h.history.take (h.historyIndex + 1).toNat = h.history := by
    rw [hidx, hfull]
    norm_num
    exact hle
  rw [htake]
  have hc : (h.history ++ [geomSnapshot h.scene]).length > 50 := by
    simp [hfull]
  rw [if_pos hc]
  exact List.drop_append_of_le_length (by omega)

/-- C9 (amended), witness: the invariant holds at the initial history
state. -/
theorem C9_amended_witness :
    (HistoryState.init SceneState.empty).history.length ≤ 50 ∧
    ((HistoryState.init SceneState.empty).history.length = 50 →
      (saveToHistory (HistoryState.init SceneState.empty)).history =
        (HistoryState.init SceneState.empty).history.drop 1 ++
          [geomSnapshot (HistoryState.init SceneState.empty).scene]) :=
  C9_amended_save_keeps_cap (HistoryState.init SceneState.empty)
    (ReachSave.init SceneState.empty)

/-! ## Structural lemmas about the `addEdge` pipeline -/

/-- Generic preservation of an observation `g` along a fold. -/
theorem foldl_preserve {β γ : Type} (g : SceneState → γ)
    (f : SceneState → β → SceneState) (hf : ∀ s x, g (f s x) = g s) :
    ∀ (l : List β) (s : SceneState), g (l.foldl f s) = g s := by
  intro l
  induction l with
  | nil => intro s; rfl
  | cons x xs ih =>
    intro s
    rw [List.foldl_cons, ih, hf]

/-- Generic preservation of a predicate `P` along a fold. -/
theorem foldl_pred {β : Type} (P : SceneState → Prop)
    (f : SceneState → β → SceneState) (hf : ∀ s x, P s → P (f s x)) :
    ∀ (l : List β) (s : SceneState), P s → P (l.foldl f s) := by
  intro l
  induction l with
  | nil => intro s hs; exact hs
  | cons x xs ih =>
    intro s hs
    rw [List.foldl_cons]
    exact ih _ (hf _ _ hs)

/-- The skeleton of the edge collection: keys with endpoint pairs (the data
`edgeConnects` and the duplicate-edge check depend on). -/
def edgeSkel (m : AList Edge) : List (Nat × (Nat × Nat)) :=
  m.map (fun p => (p.1, p.2.vertices))

@[simp] theorem edgeSkel_nil : edgeSkel [] = [] := rfl

@[simp] theorem edgeSkel_cons (p : Nat × Edge) (m : AList Edge) :
    edgeSkel (p :: m) = (p.1, p.2.vertices) :: edgeSkel m := rfl

theorem edgeSkel_modify (m : AList Edge) (k : Nat) (g : Edge → Edge)
    (hg : ∀ e, (g e).vertices = e.vertices) :
    edgeSkel (m.modify k g) = edgeSkel m := by
  induction m with
  | nil => rfl
  | cons p rest ih =>
    by_cases h : p.1 = k <;> simp [AList.modify, h, hg, ih]

theorem edgeSkel_set_fresh (m : AList Edge) (k : Nat) (e : Edge)
    (h : k ∉ m.keys) : edgeSkel (m.set k e) = edgeSkel m ++ [(k, e.vertices)] := by
  induction m with
  | nil => simp [AList.set]
  | cons p rest ih =>
    simp only [AList.keys_cons, List.mem_cons, not_or] at h
    have h1 : ¬ p.1 = k := fun hh => h.1 hh.symm
    simp [AList.set, h1, ih h.2]

theorem keys_eq_skel_fst (m : AList Edge) :
    m.keys = (edgeSkel m).map Prod.fst := by
  induction m with
  | nil => rfl
  | cons p rest ih => simp [ih]

/-- Folds that only rewrite the edge collection leave the other fields
alone. -/
theorem foldl_edgesUpd_vertices {β : Type} (g : SceneState → β → AList Edge)
    (l : List β) (t : SceneState) :
    (l.foldl (fun s' x => { s' with edges := g s' x }) t).vertices =
      t.vertices := by
  induction l generalizing t with
  | nil => rfl
  | cons x xs ih => rw [List.foldl_cons, ih]

theorem foldl_edgesUpd_faces {β : Type} (g : SceneState → β → AList Edge)
    (l : List β) (t : SceneState) :
    (l.foldl (fun s' x => { s' with edges := g s' x }) t).faces = t.faces := by
  induction l generalizing t with
  | nil => rfl
  | cons x xs ih => rw [List.foldl_cons, ih]

theorem foldl_edgesUpd_nextId {β : Type} (g : SceneState → β → AList Edge)
    (l : List β) (t : SceneState) :
    (l.foldl (fun s' x => { s' with edges := g s' x }) t).nextId =
      t.nextId := by
  induction l generalizing t with
  | nil => rfl
  | cons x xs ih => rw [List.foldl_cons, ih]

/-- Folds of face-list-only edge modifications preserve the edge
skeleton. -/
theorem foldl_modifyFaces_skel {β : Type} (u : β → Nat)
    (gf : β → Edge → Edge) (hg : ∀ x e, (gf x e).vertices = e.vertices)
    (l : List β) (t : SceneState) :
    edgeSkel ((l.foldl
      (fun s' x => { s' with edges := s'.edges.modify (u x) (gf x) })
      t).edges) = edgeSkel t.edges := by
  induction l generalizing t with
  | nil => rfl
  | cons x xs ih =>
    rw [List.foldl_cons, ih]
    exact edgeSkel_modify _ _ _ (hg x)

/-- `createFaceForCycle` never touches the vertex collection. -/
theorem createFace_vertices (v2Id : Nat) (s : SceneState) (c : List Nat) :
    (createFaceForCycle v2Id s c).vertices = s.vertices := by
  simp only [createFaceForCycle, genId]
  repeat' split
  all_goals first
    | rfl
    | exact foldl_edgesUpd_vertices _ _ _

/-- `createFaceForCycle` preserves the edge skeleton (it only appends face
ids to edges' face lists). -/
theorem createFace_edgeSkel (v2Id : Nat) (s : SceneState) (c : List Nat) :
    edgeSkel (createFaceForCycle v2Id s c).edges = edgeSkel s.edges := by
  simp only [createFaceForCycle, genId]
  repeat' split
  all_goals first
    | rfl
    | (refine foldl_modifyFaces_skel (fun x => x) _ ?_ _ _
       exact fun x e => rfl)

/-- `createFaceForCycle` only advances the id generator (by 0 or 1). -/
theorem createFace_nextId (v2Id : Nat) (s : SceneState) (c : List Nat) :
    s.nextId ≤ (createFaceForCycle v2Id s c).nextId := by
  simp only [createFaceForCycle, genId]
  repeat' split
  all_goals first
    | exact le_refl _
    | (refine le_of_le_of_eq (Nat.le_succ s.nextId) (Eq.symm ?_)
       exact foldl_edgesUpd_nextId _ _ _)

theorem detect_vertices (s : SceneState) (a b c : Nat) :
    (detectAndCreateFaces s a b c).vertices = s.vertices :=
  foldl_preserve SceneState.vertices _ (fun t x => createFace_vertices b t x)
    _ _

theorem detect_edgeSkel (s : SceneState) (a b c : Nat) :
    edgeSkel (detectAndCreateFaces s a b c).edges = edgeSkel s.edges :=
  foldl_preserve (fun t => edgeSkel t.edges) _
    (fun t x => createFace_edgeSkel b t x) _ _

theorem removeFace_vertices (s : SceneState) (fid : Nat) :
    (removeFace s fid).vertices = s.vertices := by
  unfold removeFace
  split
  · rfl
  · exact foldl_edgesUpd_vertices _ _ _

theorem removeFace_edgeSkel (s : SceneState) (fid : Nat) :
    edgeSkel (removeFace s fid).edges = edgeSkel s.edges := by
  unfold removeFace
  split
  · rfl
  · refine foldl_modifyFaces_skel (fun x => x) _ ?_ _ _
    exact fun x e => rfl

theorem removeFace_nextId (s : SceneState) (fid : Nat) :
    (removeFace s fid).nextId = s.nextId := by
  unfold removeFace
  split
  · rfl
  · exact foldl_edgesUpd_nextId _ _ _

theorem addEdgeDirect_vertices (s : SceneState) (v1 v2 id : Nat) :
    (addEdgeDirect s v1 v2 id).vertices =
      (s.vertices.modify v1 (pushEdge id)).modify v2 (pushEdge id) := by
  unfold addEdgeDirect
  rw [detect_vertices]
  exact foldl_preserve SceneState.vertices removeFace removeFace_vertices _ _

theorem addEdgeDirect_edgeSkel (s : SceneState) (v1 v2 id : Nat)
    (h : id ∉ s.edges.keys) :
    edgeSkel (addEdgeDirect s v1 v2 id).edges =
      edgeSkel s.edges ++ [(id, (v1, v2))] := by
  unfold addEdgeDirect
  rw [detect_edgeSkel,
    foldl_preserve (fun t => edgeSkel t.edges) removeFace removeFace_edgeSkel]
  exact edgeSkel_set_fresh _ _ _ h

/-- `edgeConnects` only reads the endpoint pair. -/
def connectsPair (q : Nat × Nat) (a b : Nat) : Bool :=
  (q.1 == a && q.2 == b) || (q.1 == b && q.2 == a)

theorem find_connects_isSome (m : AList Edge) (a b : Nat) :
    (m.values.find? (fun e => edgeConnects e a b)).isSome =
      (edgeSkel m).any (fun q => connectsPair q.2 a b) := by
  induction m with
  | nil => rfl
  | cons p rest ih =>
    rcases hB : edgeConnects p.2 a b with _ | _
    · have hB' : connectsPair p.2.vertices a b = false := hB
      rw [AList.values_cons, List.find?_cons_of_neg _ (by simp [hB])]
      simp [hB', ih]
    · have hB' : connectsPair p.2.vertices a b = true := hB
      rw [AList.values_cons, List.find?_cons_of_pos _ (by simp [hB])]
      simp [hB']

theorem get_modify_isSome {α : Type} (m : AList α) (k k' : Nat) (f : α → α) :
    ((m.modify k f).get k').isSome = (m.get k').isSome := by
  by_cases h : k' = k
  · subst h
    rw [AList.get_modify_self]
    rcases m.get k' with _ | v <;> rfl
  · rw [AList.get_modify_ne _ _ h]

/-- `collectIntersections` ignores the id generator. -/
theorem collect_bump (s : SceneState) (n : Nat) (p q : Vec3) :
    collectIntersections { s with nextId := n } p q =
      collectIntersections s p q := rfl

/-- Evaluation of `addEdge` on the direct (no duplicate, no intersection)
branch. -/
theorem addEdge_eval_direct (s : SceneState) (v1 v2 : Nat) (w1 w2 : Vertex)
    (h1 : s.vertices.get v1 = some w1) (h2 : s.vertices.get v2 = some w2)
    (hno : (s.edges.values.find? (fun e => edgeConnects e v1 v2)).isSome
      = false)
    (hints : collectIntersections s w1.position w2.position = []) :
    addEdge s v1 v2 = (s.nextId,
      addEdgeDirect { s with nextId := s.nextId + 1 } v1 v2 s.nextId) := by
  simp only [addEdge, genId]
  rw [h1, h2]
  simp only [hno, Bool.false_eq_true, if_false, collect_bump, hints,
    List.isEmpty_nil, if_true]

/-- Evaluation of `addEdge` when an edge between the pair already exists:
only the id generator advances. -/
theorem addEdge_eval_noop (s : SceneState) (v1 v2 : Nat) (w1 w2 : Vertex)
    (h1 : s.vertices.get v1 = some w1) (h2 : s.vertices.get v2 = some w2)
    (hyes : (s.edges.values.find? (fun e => edgeConnects e v1 v2)).isSome
      = true) :
    addEdge s v1 v2 = (s.nextId, { s with nextId := s.nextId + 1 }) := by
  simp only [addEdge, genId]
  rw [h1, h2]
  simp only [hyes, if_true]

/-! ## C6 (amended): redundant `addEdge` after a direct insertion -/

/-- Two isolated vertices (ids 0 and 1) in an otherwise empty scene. -/
def c6wBase : SceneState :=
  (addVertex (addVertex SceneState.empty ⟨0, 0, 0⟩).2 ⟨1, 0, 0⟩).2

/-- C6 (amended): when the first `addEdge` call for an unordered pair finds
no existing pair edge and no intersections (the direct branch — splitting
is the exception shown in the counterexample), it inserts exactly one edge
between the pair, and a second `addEdge` call with the same pair and no
intervening deletion is a silent no-op: vertices, edges and faces are all
unchanged. -/
theorem C6_amended_redundant_add (s : SceneState) (v1 v2 : Nat)
    (w1 w2 : Vertex)
    (hfresh : ∀ k ∈ s.edges.keys, k < s.nextId)
    (h1 : s.vertices.get v1 = some w1) (h2 : s.vertices.get v2 = some w2)
    (hno : (s.edges.values.find? (fun e => edgeConnects e v1 v2)).isSome
      = false)
    (hints : collectIntersections s w1.position w2.position = []) :
    (addEdge (addEdge s v1 v2).2 v1 v2).2.vertices =
      (addEdge s v1 v2).2.vertices ∧
    (addEdge (addEdge s v1 v2).2 v1 v2).2.edges = (addEdge s v1 v2).2.edges ∧
    (addEdge (addEdge s v1 v2).2 v1 v2).2.faces = (addEdge s v1 v2).2.faces ∧
    ((edgeSkel (addEdge s v1 v2).2.edges).filter
      (fun q => connectsPair q.2 v1 v2)).length = 1 := by
  have he1 := addEdge_eval_direct s v1 v2 w1 w2 h1 h2 hno hints
  have hid : s.nextId ∉ s.edges.keys := fun hmem =>
    absurd (hfresh _ hmem) (lt_irrefl _)
  have hskel : edgeSkel (addEdgeDirect { s with nextId := s.nextId + 1 }
      v1 v2 s.nextId).edges = edgeSkel s.edges ++ [(s.nextId, (v1, v2))] :=
    addEdgeDirect_edgeSkel _ v1 v2 s.nextId hid
  have hnone : ∀ q ∈ edgeSkel s.edges, ¬ connectsPair q.2 v1 v2 = true := by
    rw [find_connects_isSome] at hno
    exact fun q hq => by
      intro hc
      rw [List.any_eq_false] at hno
      exact hno q hq hc
  -- exactly one edge connects the pair after the first call
  have hcount : ((edgeSkel (addEdgeDirect { s with nextId := s.nextId + 1 }
      v1 v2 s.nextId).edges).filter
      (fun q => connectsPair q.2 v1 v2)).length = 1 := by
    rw [hskel, List.filter_append, List.filter_eq_nil_iff.2 hnone]
    simp [connectsPair]
  -- the second call sees the pair edge and is a geometric no-op
  have hw1' : ((addEdgeDirect { s with nextId := s.nextId + 1 }
      v1 v2 s.nextId).vertices.get v1).isSome = true := by
    rw [addEdgeDirect_vertices, get_modify_isSome, get_modify_isSome, h1]
    rfl
  have hw2' : ((addEdgeDirect { s with nextId := s.nextId + 1 }
      v1 v2 s.nextId).vertices.get v2).isSome = true := by
    rw [addEdgeDirect_vertices, get_modify_isSome, get_modify_isSome, h2]
    rfl
  obtain ⟨u1, hu1⟩ := Option.isSome_iff_exists.1 hw1'
  obtain ⟨u2, hu2⟩ := Option.isSome_iff_exists.1 hw2'
  have hyes : ((addEdgeDirect { s with nextId := s.nextId + 1 }
      v1 v2 s.nextId).edges.values.find?
      (fun e => edgeConnects e v1 v2)).isSome = true := by
    rw [find_connects_isSome, hskel]
    simp [connectsPair]
  have he2 := addEdge_eval_noop _ v1 v2 u1 u2 hu1 hu2 hyes
  rw [he1]
  simp only []
  rw [he2]
  exact ⟨rfl, rfl, rfl, hcount⟩

/-- C6 (amended), witness: two isolated vertices in an otherwise empty
scene; adding the edge between them twice leaves exactly one edge and the
second call does not change the geometry. -/
theorem C6_amended_witness :
    (addEdge (addEdge c6wBase 0 1).2 0 1).2.vertices =
      (addEdge c6wBase 0 1).2.vertices ∧
    (addEdge (addEdge c6wBase 0 1).2 0 1).2.edges =
      (addEdge c6wBase 0 1).2.edges ∧
    (addEdge (addEdge c6wBase 0 1).2 0 1).2.faces =
      (addEdge c6wBase 0 1).2.faces ∧
    ((edgeSkel (addEdge c6wBase 0 1).2.edges).filter
      (fun q => connectsPair q.2 0 1)).length = 1 :=
  C6_amended_redundant_add c6wBase 0 1 ⟨0, ⟨0, 0, 0⟩, []⟩ ⟨1, ⟨1, 0, 0⟩, []⟩
    (by with_unfolding_all decide) (by with_unfolding_all decide)
    (by with_unfolding_all decide) (by with_unfolding_all decide)
    (by with_unfolding_all decide)

/-! ## C10: the returned id is fresh and, off the direct branch, unused -/

/-- The candidate id is absent from the edge collection and strictly below
the id counter. -/
def freshUnused (N : Nat) (t : SceneState) : Prop :=
  t.edges.get N = none ∧ N < t.nextId

theorem detect_nextId (s : SceneState) (a b c : Nat) :
    s.nextId ≤ (detectAndCreateFaces s a b c).nextId := by
  unfold detectAndCreateFaces
  exact foldl_pred (fun t => s.nextId ≤ t.nextId) _
    (fun t x h => le_trans h (createFace_nextId b t x)) _ _ (le_refl _)

theorem detect_freshUnused (N : Nat) (s : SceneState) (a b c : Nat)
    (h : freshUnused N s) : freshUnused N (detectAndCreateFaces s a b c) := by
  obtain ⟨h1, h2⟩ := h
  constructor
  · have hk : (detectAndCreateFaces s a b c).edges.keys = s.edges.keys := by
      rw [keys_eq_skel_fst, keys_eq_skel_fst, detect_edgeSkel]
    rw [AList.get_eq_none_iff, hk, ← AList.get_eq_none_iff]
    exact h1
  · exact lt_of_lt_of_le h2 (detect_nextId s a b c)

theorem foldl_pred_pair {β : Type} (P : SceneState → Prop)
    (f : List Nat × SceneState → β → List Nat × SceneState)
    (hf : ∀ a x, P a.2 → P (f a x).2) :
    ∀ (l : List β) (a : List Nat × SceneState), P a.2 → P ((l.foldl f a).2) := by
  intro l
  induction l with
  | nil => exact fun a h => h
  | cons x xs ih =>
    intro a h
    rw [List.foldl_cons]
    exact ih _ (hf _ _ h)

theorem splitVertexStep_freshUnused (N : Nat) (a : List Nat × SceneState)
    (x : Hit) (h : freshUnused N a.2) :
    freshUnused N (splitVertexStep a x).2 :=
  ⟨h.1, Nat.lt_succ_of_lt h.2⟩

theorem chainStep_freshUnused (N : Nat) (a : List Nat × SceneState)
    (pr : Nat × Nat) (h : freshUnused N a.2) :
    freshUnused N (chainStep a pr).2 := by
  refine ⟨?_, Nat.lt_succ_of_lt h.2⟩
  show (a.2.edges.set a.2.nextId ⟨a.2.nextId, (pr.1, pr.2), [], false⟩).get N
    = none
  rw [AList.get_set_ne _ _ (Nat.ne_of_lt h.2)]
  exact h.1

theorem splitEdgeAt_freshUnused (N : Nat) (t : SceneState) (e x : Nat)
    (h : freshUnused N t) : freshUnused N (splitEdgeAt t e x) := by
  obtain ⟨h1, h2⟩ := h
  simp only [splitEdgeAt, genId]
  rcases hg : t.edges.get e with _ | edge
  · exact ⟨h1, h2⟩
  simp only []
  rcases hv1 : t.vertices.get edge.vertices.1 with _ | w1
  · exact ⟨h1, h2⟩
  rcases hv2 : t.vertices.get edge.vertices.2 with _ | w2
  · exact ⟨h1, h2⟩
  refine ⟨?_, ?_⟩
  · show ((((t.edges).set t.nextId
        ⟨t.nextId, (edge.vertices.1, x), [], edge.isConstruction⟩).set
        (t.nextId + 1)
        ⟨t.nextId + 1, (x, edge.vertices.2), [], edge.isConstruction⟩).del
        e).get N = none
    by_cases he : N = e
    · subst he
      exact AList.get_del_self _ _
    · rw [AList.get_del_ne _ he,
        AList.get_set_ne _ _ (show N ≠ t.nextId + 1 by omega),
        AList.get_set_ne _ _ (Nat.ne_of_lt h2)]
      exact h1
  · show N < t.nextId + 1 + 1
    omega

theorem detectStep_freshUnused (N : Nat) (t : SceneState) (k : Nat)
    (h : freshUnused N t) : freshUnused N (detectStep t k) := by
  unfold detectStep
  rcases hg : t.edges.get k with _ | e
  · exact h
  · exact detect_freshUnused N t _ _ _ h

theorem addEdgeSplit_freshUnused (N : Nat) (s : SceneState) (v1 v2 : Nat)
    (sorted : List Hit) (h : freshUnused N s) :
    freshUnused N (addEdgeSplit s v1 v2 sorted) := by
  unfold addEdgeSplit
  refine foldl_pred (freshUnused N) detectStep
    (fun t k ht => detectStep_freshUnused N t k ht) _ _ ?_
  refine foldl_pred_pair (freshUnused N) chainStep
    (fun a pr ha => chainStep_freshUnused N a pr ha) _ _ ?_
  refine foldl_pred (freshUnused N)
    (fun (s' : SceneState) (p : Hit × Nat) => splitEdgeAt s' p.1.edgeId p.2)
    (fun t p ht => splitEdgeAt_freshUnused N t _ _ ht) _ _ ?_
  exact foldl_pred_pair (freshUnused N) splitVertexStep
    (fun a x ha => splitVertexStep_freshUnused N a x ha) _ _ h

/-- Evaluation of `addEdge` when an endpoint id is unknown: only the id
generator advances. -/
theorem addEdge_eval_unknown (s : SceneState) (v1 v2 : Nat)
    (h : s.vertices.get v1 = none ∨ s.vertices.get v2 = none) :
    addEdge s v1 v2 = (s.nextId, { s with nextId := s.nextId + 1 }) := by
  simp only [addEdge, genId]
  rcases h with h | h
  · rw [h]
  · rw [h]
    rcases hv1 : s.vertices.get v1 with _ | w1 <;> rfl

/-- Evaluation of `addEdge` on the intersection-splitting branch. -/
theorem addEdge_eval_split (s : SceneState) (v1 v2 : Nat) (w1 w2 : Vertex)
    (h1 : s.vertices.get v1 = some w1) (h2 : s.vertices.get v2 = some w2)
    (hno : (s.edges.values.find? (fun e => edgeConnects e v1 v2)).isSome
      = false)
    (hne : (collectIntersections s w1.position w2.position).isEmpty = false) :
    addEdge s v1 v2 = (s.nextId,
      addEdgeSplit { s with nextId := s.nextId + 1 } v1 v2
        (sortHits (collectIntersections s w1.position w2.position))) := by
  simp only [addEdge, genId]
  rw [h1, h2]
  simp only [hno, Bool.false_eq_true, if_false, collect_bump, hne]

/-- C10: `addEdge` always returns the value of the id counter (the freshly
generated id), and whenever the call does not take the direct-insertion
branch — an endpoint id is unknown, an edge between the pair already
exists, or the candidate intersects existing edges and is replaced by chain
segments — the returned id is not a key of the resulting edge
collection. -/
theorem C10_addEdge_returns_fresh_id (s : SceneState) (v1 v2 : Nat)
    (hfresh : ∀ k ∈ s.edges.keys, k < s.nextId) :
    (addEdge s v1 v2).1 = s.nextId ∧
    ((∀ w1 w2, s.vertices.get v1 = some w1 → s.vertices.get v2 = some w2 →
        (s.edges.values.find? (fun e => edgeConnects e v1 v2)).isSome = true ∨
        collectIntersections s w1.position w2.position ≠ []) →
      (addEdge s v1 v2).2.edges.get s.nextId = none) := by
  have hN : s.edges.get s.nextId = none := by
    rw [AList.get_eq_none_iff]
    exact fun hmem => absurd (hfresh _ hmem) (lt_irrefl _)
  rcases hv1 : s.vertices.get v1 with _ | w1
  · rw [addEdge_eval_unknown s v1 v2 (Or.inl hv1)]
    exact ⟨rfl, fun _ => hN⟩
  rcases hv2 : s.vertices.get v2 with _ | w2
  · rw [addEdge_eval_unknown s v1 v2 (Or.inr hv2)]
    exact ⟨rfl, fun _ => hN⟩
  rcases hfind : (s.edges.values.find? (fun e => edgeConnects e v1 v2)).isSome
    with _ | _
  · rcases hints : collectIntersections s w1.position w2.position
      with _ | ⟨h0, rest⟩
    · rw [addEdge_eval_direct s v1 v2 w1 w2 hv1 hv2 hfind hints]
      refine ⟨rfl, fun hante => ?_⟩
      rcases hante w1 w2 rfl rfl with hc | hc
      · exact absurd hc Bool.false_ne_true
      · exact absurd hints hc
    · have hne : (collectIntersections s w1.position w2.position).isEmpty
          = false := by
        rw [hints]
        rfl
      rw [addEdge_eval_split s v1 v2 w1 w2 hv1 hv2 hfind hne]
      refine ⟨rfl, fun _ => ?_⟩
      exact (addEdgeSplit_freshUnused s.nextId { s with nextId := s.nextId + 1 }
        v1 v2 (sortHits (collectIntersections s w1.position w2.position))
        ⟨hN, Nat.lt_succ_self _⟩).1
  · rw [addEdge_eval_noop s v1 v2 w1 w2 hv1 hv2 hfind]
    exact ⟨rfl, fun _ => hN⟩

/-- C10, witness: the freshness property at a concrete two-vertex scene. -/
theorem C10_witness :
    (addEdge c6wBase 0 1).1 = c6wBase.nextId ∧
    ((∀ w1 w2, c6wBase.vertices.get 0 = some w1 →
        c6wBase.vertices.get 1 = some w2 →
        (c6wBase.edges.values.find? (fun e => edgeConnects e 0 1)).isSome
          = true ∨
        collectIntersections c6wBase w1.position w2.position ≠ []) →
      (addEdge c6wBase 0 1).2.edges.get c6wBase.nextId = none) :=
  C10_addEdge_returns_fresh_id c6wBase 0 1 (by with_unfolding_all decide)

/-! ## C4: the vertex–edge / edge–face consistency invariant -/

/-- The well-formedness invariant the store operations maintain: edge keys
are duplicate-free, all keys and all cross-references are below the id
counter, edges record their own key, and vertex↔edge and edge↔face
consistency hold. -/
structure StoreInv (s : SceneState) : Prop where
  nodupE : s.edges.keys.Nodup
  freshV : ∀ k ∈ s.vertices.keys, k < s.nextId
  freshE : ∀ k ∈ s.edges.keys, k < s.nextId
  freshF : ∀ k ∈ s.faces.keys, k < s.nextId
  idcoh : ∀ k e, s.edges.get k = some e → e.id = k
  endpts : ∀ k e, s.edges.get k = some e →
    e.vertices.1 < s.nextId ∧ e.vertices.2 < s.nextId
  facerefs : ∀ k f, s.faces.get k = some f → ∀ eid ∈ f.edges, eid < s.nextId
  ve : VEinv s
  ef : EFinv s

theorem storeInv_empty : StoreInv SceneState.empty := by
  refine ⟨List.nodup_nil, ?_, ?_, ?_, ?_, ?_, ?_, ?_, ?_⟩
  · intro k hk
    simp [SceneState.empty] at hk
  · intro k hk
    simp [SceneState.empty] at hk
  · intro k hk
    simp [SceneState.empty] at hk
  · intro k e he
    simp [SceneState.empty] at he
  · intro k e he
    simp [SceneState.empty] at he
  · intro k f hf
    simp [SceneState.empty] at hf
  · intro vid v hv
    simp [SceneState.empty] at hv
  · intro eid e he
    simp [SceneState.empty] at he

theorem storeInv_bump (s : SceneState) (h : StoreInv s) :
    StoreInv { s with nextId := s.nextId + 1 } := by
  obtain ⟨h1, h2, h3, h4, h5, h6, h7, h8, h9⟩ := h
  exact ⟨h1, fun k hk => Nat.lt_succ_of_lt (h2 k hk),
    fun k hk => Nat.lt_succ_of_lt (h3 k hk),
    fun k hk => Nat.lt_succ_of_lt (h4 k hk), h5,
    fun k e he => ⟨Nat.lt_succ_of_lt (h6 k e he).1,
      Nat.lt_succ_of_lt (h6 k e he).2⟩,
    fun k f hf eid hm => Nat.lt_succ_of_lt (h7 k f hf eid hm), h8, h9⟩

/-- A found connecting edge is a stored edge under its own id. -/
theorem find_connects_mem (s : SceneState) (h : StoreInv s) (a b : Nat)
    {e : Edge}
    (hf : s.edges.values.find? (fun x => edgeConnects x a b) = some e) :
    s.edges.get e.id = some e ∧ edgeConnects e a b = true := by
  have hmem : e ∈ s.edges.values := List.mem_of_find?_eq_some hf
  have hpred := List.find?_some hf
  obtain ⟨k, hk⟩ := AList.exists_get_of_mem_values _ hmem h.nodupE
  have hid := h.idcoh k e hk
  rw [hid]
  exact ⟨hk, hpred⟩

/-- An id on a vertex's edge list is never the fresh id `s.nextId`. -/
theorem edge_list_lt (s : SceneState) (h : StoreInv s) {vid : Nat}
    {w : Vertex} (hw : s.vertices.get vid = some w) {eid : Nat}
    (hm : eid ∈ w.edges) : eid < s.nextId := by
  obtain ⟨e, he, _⟩ := (h.ve vid w hw eid).1 hm
  exact h.freshE eid (AList.get_mem_keys _ he)

/-- Characterize a vertex record after the two `pushEdge` modifications of
an edge insertion. -/
theorem get_push_char (V : AList Vertex) (a b vid N : Nat) {v : Vertex}
    (hv : ((V.modify a (pushEdge N)).modify b (pushEdge N)).get vid
      = some v) :
    ∃ w, V.get vid = some w ∧
      ∀ eid, (eid ∈ v.edges ↔
        eid ∈ w.edges ∨ (eid = N ∧ (vid = a ∨ vid = b))) := by
  by_cases hvb : vid = b
  · rw [hvb, AList.get_modify_self] at hv
    by_cases hba : b = a
    · rw [hba, AList.get_modify_self] at hv
      rcases hw : V.get a with _ | w
      · rw [hw] at hv
        simp at hv
      · rw [hw] at hv
        simp only [Option.map_some'] at hv
        injection hv with hv'
        refine ⟨w, by rw [hvb, hba]; exact hw, ?_⟩
        intro eid
        rw [← hv']
        simp [pushEdge, hvb, or_assoc]
    · rw [AList.get_modify_ne _ _ hba] at hv
      rcases hw : V.get b with _ | w
      · rw [hw] at hv
        simp at hv
      · rw [hw] at hv
        simp only [Option.map_some'] at hv
        injection hv with hv'
        refine ⟨w, by rw [hvb]; exact hw, ?_⟩
        intro eid
        rw [← hv']
        simp [pushEdge, hvb]
  · rw [AList.get_modify_ne _ _ hvb] at hv
    by_cases hva : vid = a
    · rw [hva, AList.get_modify_self] at hv
      rcases hw : V.get a with _ | w
      · rw [hw] at hv
        simp at hv
      · rw [hw] at hv
        simp only [Option.map_some'] at hv
        injection hv with hv'
        refine ⟨w, by rw [hva]; exact hw, ?_⟩
        intro eid
        rw [← hv']
        simp [pushEdge, hva]
    · rw [AList.get_modify_ne _ _ hva] at hv
      refine ⟨v, hv, ?_⟩
      intro eid
      simp [hva, hvb]

/-- Membership characterization of the vertex side of a fresh edge
insertion, against the updated edge collection. -/
theorem ve_insert_aux (s : SceneState) (h : StoreInv s) (a b vid : Nat)
    (w : Vertex) (hw : s.vertices.get vid = some w) (con : Bool)
    (L : List Nat)
    (hL : ∀ eid, eid ∈ L ↔
      eid ∈ w.edges ∨ (eid = s.nextId ∧ (vid = a ∨ vid = b))) :
    ∀ eid, eid ∈ L ↔
      ∃ e, (s.edges.set s.nextId ⟨s.nextId, (a, b), [], con⟩).get eid
          = some e ∧
        (e.vertices.1 = vid ∨ e.vertices.2 = vid) := by
  intro eid
  rw [hL]
  by_cases heid : eid = s.nextId
  · subst heid
    rw [AList.get_set_self]
    constructor
    · intro hc
      rcases hc with hc | hc
      · exact absurd (edge_list_lt s h hw hc) (lt_irrefl _)
      · exact ⟨_, rfl, by
          rcases hc.2 with hc' | hc'
          · exact Or.inl hc'.symm
          · exact Or.inr hc'.symm⟩
    · rintro ⟨e, he, hcond⟩
      injection he with he'
      subst he'
      refine Or.inr ⟨rfl, ?_⟩
      rcases hcond with hc | hc
      · exact Or.inl hc.symm
      · exact Or.inr hc.symm
  · rw [AList.get_set_ne _ _ heid]
    constructor
    · intro hc
      rcases hc with hc | hc
      · exact (h.ve vid w hw eid).1 hc
      · exact absurd hc.1 heid
    · intro hc
      exact Or.inl ((h.ve vid w hw eid).2 hc)

/-- Inserting a fresh edge between two existing vertices (the common
pattern of `addEdge`'s direct branch, chain segments, and `addFace`'s
edge-creation branch) preserves the invariant. -/
theorem edgeInsert_inv (s : SceneState) (a b : Nat) (con : Bool)
    (ha : a ∈ s.vertices.keys) (hb : b ∈ s.vertices.keys)
    (h : StoreInv s) :
    StoreInv
      { vertices := (s.vertices.modify a (pushEdge s.nextId)).modify b
          (pushEdge s.nextId),
        edges := s.edges.set s.nextId ⟨s.nextId, (a, b), [], con⟩,
        faces := s.faces,
        nextId := s.nextId + 1 } := by
  have hNe : s.nextId ∉ s.edges.keys := fun hmem =>
    absurd (h.freshE _ hmem) (lt_irrefl _)
  have hkeysE : (s.edges.set s.nextId
      ⟨s.nextId, (a, b), [], con⟩).keys = s.edges.keys ++ [s.nextId] :=
    AList.keys_set_of_not_mem _ _ hNe
  have hkeysV : ((s.vertices.modify a (pushEdge s.nextId)).modify b
      (pushEdge s.nextId)).keys = s.vertices.keys := by
    rw [AList.keys_modify, AList.keys_modify]
  refine ⟨?_, ?_, ?_, ?_, ?_, ?_, ?_, ?_, ?_⟩
  · show (s.edges.set s.nextId ⟨s.nextId, (a, b), [], con⟩).keys.Nodup
    exact AList.nodup_keys_set _ _ _ h.nodupE
  · show ∀ k ∈ ((s.vertices.modify a (pushEdge s.nextId)).modify b
        (pushEdge s.nextId)).keys, k < s.nextId + 1
    rw [hkeysV]
    exact fun k hk => Nat.lt_succ_of_lt (h.freshV k hk)
  · show ∀ k ∈ (s.edges.set s.nextId
        ⟨s.nextId, (a, b), [], con⟩).keys, k < s.nextId + 1
    rw [hkeysE]
    intro k hk
    rcases List.mem_append.1 hk with hk | hk
    · exact Nat.lt_succ_of_lt (h.freshE k hk)
    · rw [List.mem_singleton] at hk
      omega
  · exact fun k hk => Nat.lt_succ_of_lt (h.freshF k hk)
  · intro k e he
    replace he : (s.edges.set s.nextId
        ⟨s.nextId, (a, b), [], con⟩).get k = some e := he
    by_cases hk : k = s.nextId
    · subst hk
      rw [AList.get_set_self] at he
      injection he with he'
      subst he'
      rfl
    · rw [AList.get_set_ne _ _ hk] at he
      exact h.idcoh k e he
  · intro k e he
    replace he : (s.edges.set s.nextId
        ⟨s.nextId, (a, b), [], con⟩).get k = some e := he
    by_cases hk : k = s.nextId
    · subst hk
      rw [AList.get_set_self] at he
      injection he with he'
      subst he'
      exact ⟨Nat.lt_succ_of_lt (h.freshV a ha),
        Nat.lt_succ_of_lt (h.freshV b hb)⟩
    · rw [AList.get_set_ne _ _ hk] at he
      exact ⟨Nat.lt_succ_of_lt (h.endpts k e he).1,
        Nat.lt_succ_of_lt (h.endpts k e he).2⟩
  · exact fun k f hf eid hm => Nat.lt_succ_of_lt (h.facerefs k f hf eid hm)
  · intro vid v hv
    replace hv : ((s.vertices.modify a (pushEdge s.nextId)).modify b
        (pushEdge s.nextId)).get vid = some v := hv
    obtain ⟨w, hw, hchar⟩ := get_push_char _ a b vid s.nextId hv
    exact ve_insert_aux s h a b vid w hw con v.edges hchar
  · intro eid e he
    replace he : (s.edges.set s.nextId
        ⟨s.nextId, (a, b), [], con⟩).get eid = some e := he
    intro fid
    by_cases hk : eid = s.nextId
    · subst hk
      rw [AList.get_set_self] at he
      injection he with he'
      subst he'
      constructor
      · intro hc
        simp at hc
      · rintro ⟨f, hf, hm⟩
        exact absurd (h.facerefs fid f hf _ hm) (lt_irrefl _)
    · rw [AList.get_set_ne _ _ hk] at he
      exact h.ef eid e he fid

/-- A state fold that only rewrites `edges` equals the corresponding fold
on the edge collection itself. -/
theorem foldl_edges_component {β : Type} (u : β → Nat) (g : β → Edge → Edge)
    (l : List β) (t : SceneState) :
    (l.foldl (fun s' x => { s' with edges := s'.edges.modify (u x) (g x) })
      t).edges = l.foldl (fun E x => E.modify (u x) (g x)) t.edges := by
  induction l generalizing t with
  | nil => rfl
  | cons x xs ih => rw [List.foldl_cons, List.foldl_cons, ih]

theorem foldModify_keys (g : Edge → Edge) (l : List Nat) (E : AList Edge) :
    (l.foldl (fun E' k => E'.modify k g) E).keys = E.keys := by
  induction l generalizing E with
  | nil => rfl
  | cons x xs ih => rw [List.foldl_cons, ih, AList.keys_modify]

theorem foldModify_isSome (g : Edge → Edge) (l : List Nat) (E : AList Edge)
    (k : Nat) :
    ((l.foldl (fun E' k' => E'.modify k' g) E).get k).isSome
      = (E.get k).isSome := by
  induction l generalizing E with
  | nil => rfl
  | cons x xs ih => rw [List.foldl_cons, ih, get_modify_isSome]

/-- Characterize an edge record after the face-attachment fold: endpoint
pair and id are preserved, and the faces list gains exactly `fid` (when the
edge is on the boundary list). -/
theorem foldModify_get_some (g : Edge → Edge) (fid : Nat)
    (hgv : ∀ e, (g e).vertices = e.vertices)
    (hgi : ∀ e, (g e).id = e.id)
    (hgf : ∀ e fk, fk ∈ (g e).faces ↔ fk ∈ e.faces ∨ fk = fid)
    (l : List Nat) (E : AList Edge) (k : Nat) (e : Edge)
    (h : E.get k = some e) :
    ∃ e', (l.foldl (fun E' k' => E'.modify k' g) E).get k = some e' ∧
      e'.vertices = e.vertices ∧ e'.id = e.id ∧
      ∀ fk, fk ∈ e'.faces ↔ fk ∈ e.faces ∨ (fk = fid ∧ k ∈ l) := by
  induction l generalizing E e with
  | nil => exact ⟨e, h, rfl, rfl, by simp⟩
  | cons x xs ih =>
    rw [List.foldl_cons]
    by_cases hkx : k = x
    · have h1 : (E.modify x g).get k = some (g e) := by
        rw [hkx] at h ⊢
        rw [AList.get_modify_self, h]
        rfl
      obtain ⟨e', he', hv', hi', hf'⟩ := ih _ _ h1
      refine ⟨e', he', by rw [hv', hgv], by rw [hi', hgi], ?_⟩
      intro fk
      rw [hf', hgf]
      constructor
      · rintro ((hc | hc) | hc)
        · exact Or.inl hc
        · exact Or.inr ⟨hc, by simp [hkx]⟩
        · exact Or.inr ⟨hc.1, by simp [hkx]⟩
      · rintro (hc | hc)
        · exact Or.inl (Or.inl hc)
        · exact Or.inl (Or.inr hc.1)
    · have h1 : (E.modify x g).get k = some e := by
        rw [AList.get_modify_ne _ _ hkx]
        exact h
      obtain ⟨e', he', hv', hi', hf'⟩ := ih _ _ h1
      refine ⟨e', he', hv', hi', ?_⟩
      intro fk
      rw [hf']
      simp [List.mem_cons, hkx]

/-- Attaching a fresh face `fid` with boundary `edgeIds` — registering the
face and folding a face-list append over the boundary edges — preserves the
invariant.  `g` abstracts the per-edge append (`addFace` guards it with a
membership test, cycle synthesis does not). -/
theorem faceAttach_inv (t : SceneState) (fid : Nat) (edgeIds : List Nat)
    (nrm : Vec3) (g : Edge → Edge)
    (hgv : ∀ e, (g e).vertices = e.vertices)
    (hgi : ∀ e, (g e).id = e.id)
    (hgf : ∀ e fk, fk ∈ (g e).faces ↔ fk ∈ e.faces ∨ fk = fid)
    (hfid_lt : fid < t.nextId)
    (hfid_new : fid ∉ t.faces.keys)
    (hfid_unref : ∀ k e, t.edges.get k = some e → fid ∉ e.faces)
    (hsub : ∀ k ∈ edgeIds, k ∈ t.edges.keys)
    (h : StoreInv t) :
    StoreInv
      { vertices := t.vertices,
        edges := edgeIds.foldl (fun E k => E.modify k g) t.edges,
        faces := t.faces.set fid ⟨fid, edgeIds, nrm⟩,
        nextId := t.nextId } := by
  have hkeysE : (edgeIds.foldl (fun E k => E.modify k g) t.edges).keys
      = t.edges.keys := foldModify_keys g edgeIds t.edges
  have hkeysF : (t.faces.set fid ⟨fid, edgeIds, nrm⟩).keys
      = t.faces.keys ++ [fid] := AList.keys_set_of_not_mem _ _ hfid_new
  refine ⟨?_, h.freshV, ?_, ?_, ?_, ?_, ?_, ?_, ?_⟩
  · show (edgeIds.foldl (fun E k => E.modify k g) t.edges).keys.Nodup
    rw [hkeysE]
    exact h.nodupE
  · show ∀ k ∈ (edgeIds.foldl (fun E k => E.modify k g) t.edges).keys,
      k < t.nextId
    rw [hkeysE]
    exact h.freshE
  · show ∀ k ∈ (t.faces.set fid ⟨fid, edgeIds, nrm⟩).keys, k < t.nextId
    rw [hkeysF]
    intro k hk
    rcases List.mem_append.1 hk with hk | hk
    · exact h.freshF k hk
    · rw [List.mem_singleton] at hk
      omega
  · intro k e' he'
    replace he' : (edgeIds.foldl (fun E k' => E.modify k' g) t.edges).get k
        = some e' := he'
    have hsome : (t.edges.get k).isSome = true := by
      rw [← foldModify_isSome g edgeIds, he']
      rfl
    obtain ⟨e, he⟩ := Option.isSome_iff_exists.1 hsome
    obtain ⟨e'', he'', _, hi'', _⟩ :=
      foldModify_get_some g fid hgv hgi hgf edgeIds t.edges k e he
    rw [he''] at he'
    injection he' with he'
    subst he'
    rw [hi'']
    exact h.idcoh k e he
  · intro k e' he'
    replace he' : (edgeIds.foldl (fun E k' => E.modify k' g) t.edges).get k
        = some e' := he'
    have hsome : (t.edges.get k).isSome = true := by
      rw [← foldModify_isSome g edgeIds, he']
      rfl
    obtain ⟨e, he⟩ := Option.isSome_iff_exists.1 hsome
    obtain ⟨e'', he'', hv'', _, _⟩ :=
      foldModify_get_some g fid hgv hgi hgf edgeIds t.edges k e he
    rw [he''] at he'
    injection he' with he'
    subst he'
    rw [hv'']
    exact h.endpts k e he
  · intro k f hf
    replace hf : (t.faces.set fid ⟨fid, edgeIds, nrm⟩).get k = some f := hf
    by_cases hk : k = fid
    · subst hk
      rw [AList.get_set_self] at hf
      injection hf with hf'
      subst hf'
      exact fun eid hm => h.freshE eid (hsub eid hm)
    · rw [AList.get_set_ne _ _ hk] at hf
      exact h.facerefs k f hf
  · intro vid v hv eid
    replace hv : t.vertices.get vid = some v := hv
    rw [h.ve vid v hv eid]
    constructor
    · rintro ⟨e, he, hcond⟩
      obtain ⟨e', he', hv', _, _⟩ :=
        foldModify_get_some g fid hgv hgi hgf edgeIds t.edges eid e he
      exact ⟨e', he', by rw [hv']; exact hcond⟩
    · rintro ⟨e', he', hcond⟩
      have hsome : (t.edges.get eid).isSome = true := by
        rw [← foldModify_isSome g edgeIds, he']
        rfl
      obtain ⟨e, he⟩ := Option.isSome_iff_exists.1 hsome
      obtain ⟨e'', he'', hv'', _, _⟩ :=
        foldModify_get_some g fid hgv hgi hgf edgeIds t.edges eid e he
      rw [he''] at he'
      injection he' with he'
      subst he'
      exact ⟨e, he, by rw [hv''] at hcond; exact hcond⟩
  · intro eid e' he' fid'
    replace he' : (edgeIds.foldl (fun E k' => E.modify k' g) t.edges).get eid
        = some e' := he'
    have hsome : (t.edges.get eid).isSome = true := by
      rw [← foldModify_isSome g edgeIds, he']
      rfl
    obtain ⟨e, he⟩ := Option.isSome_iff_exists.1 hsome
    obtain ⟨e'', he'', _, _, hf''⟩ :=
      foldModify_get_some g fid hgv hgi hgf edgeIds t.edges eid e he
    rw [he''] at he'
    injection he' with he'
    subst he'
    rw [hf'' fid']
    by_cases hfd : fid' = fid
    · subst hfd
      rw [AList.get_set_self]
      constructor
      · rintro (hc | hc)
        · exact absurd hc (hfid_unref eid e he)
        · exact ⟨_, rfl, hc.2⟩
      · rintro ⟨f, hf, hm⟩
        injection hf with hf'
        subst hf'
        exact Or.inr ⟨rfl, hm⟩
    · rw [AList.get_set_ne _ _ hfd]
      constructor
      · rintro (hc | hc)
        · exact (h.ef eid e he fid').1 hc
        · exact absurd hc.1 hfd
      · intro hc
        exact Or.inl ((h.ef eid e he fid').2 hc)

theorem sceneState_ext (s1 s2 : SceneState)
    (hv : s1.vertices = s2.vertices) (he : s1.edges = s2.edges)
    (hf : s1.faces = s2.faces) (hn : s1.nextId = s2.nextId) : s1 = s2 := by
  cases s1
  cases s2
  congr 1

theorem storeInv_congr (s1 s2 : SceneState)
    (hv : s1.vertices = s2.vertices) (he : s1.edges = s2.edges)
    (hf : s1.faces = s2.faces) (hn : s1.nextId = s2.nextId)
    (h : StoreInv s1) : StoreInv s2 :=
  sceneState_ext s1 s2 hv he hf hn ▸ h

/-- One step of the `cycleFaceEdges` accumulation only adds stored edge
keys. -/
theorem connects_step_sub (t : SceneState) (h : StoreInv t) (a b : Nat)
    (acc : List Nat) (hacc : ∀ k ∈ acc, k ∈ t.edges.keys) :
    ∀ k ∈ (match t.edges.values.find? (fun e => edgeConnects e a b) with
      | some e => acc ++ [e.id]
      | none => acc), k ∈ t.edges.keys := by
  rcases hf : t.edges.values.find? (fun e => edgeConnects e a b) with _ | e
  · exact hacc
  · intro k hk
    replace hk : k ∈ acc ++ [e.id] := hk
    rcases List.mem_append.1 hk with hk | hk
    · exact hacc k hk
    · rw [List.mem_singleton] at hk
      subst hk
      exact AList.get_mem_keys _ (find_connects_mem t h a b hf).1

/-- Every id collected by `cycleFaceEdges` is a stored edge key. -/
theorem cycleFaceEdges_sub (t : SceneState) (h : StoreInv t)
    (cycle : List Nat) :
    ∀ k ∈ cycleFaceEdges t cycle, k ∈ t.edges.keys := by
  unfold cycleFaceEdges
  suffices H : ∀ (l : List Nat) (acc : List Nat),
      (∀ k ∈ acc, k ∈ t.edges.keys) →
      ∀ k ∈ l.foldl
        (fun fe i =>
          let currVId := cycle.getD i 0
          let nextVId := cycle.getD ((i + 1) % cycle.length) 0
          match t.edges.values.find? (fun e =>
              edgeConnects e currVId nextVId) with
          | some e => fe ++ [e.id]
          | none => fe) acc, k ∈ t.edges.keys by
    refine H _ [] ?_
    intro k hk
    simp at hk
  intro l
  induction l with
  | nil => exact fun acc hacc => hacc
  | cons i rest ih =>
    intro acc hacc
    rw [List.foldl_cons]
    exact ih _ (connects_step_sub t h _ _ acc hacc)

/-- `createFaceForCycle` preserves the invariant. -/
theorem createFace_inv (v2Id : Nat) (t : SceneState) (c : List Nat)
    (h : StoreInv t) : StoreInv (createFaceForCycle v2Id t c) := by
  simp only [createFaceForCycle, genId]
  repeat' split
  any_goals exact h
  refine storeInv_congr _ _ ?_ ?_ ?_ ?_
    (faceAttach_inv { t with nextId := t.nextId + 1 } t.nextId
      (cycleFaceEdges t (c ++ [v2Id]))
      (calculateFaceNormal (cyclePositions t (c ++ [v2Id])))
      (fun e => { e with faces := e.faces ++ [t.nextId] })
      (fun e => rfl) (fun e => rfl) (fun e fk => by simp)
      (Nat.lt_succ_self _)
      (fun hmem => absurd (h.freshF _ hmem) (lt_irrefl _))
      ?_ (cycleFaceEdges_sub t h _) (storeInv_bump t h))
  · exact Eq.symm (foldl_edgesUpd_vertices _ _ _)
  · exact Eq.symm (foldl_edges_component (fun x => x)
      (fun _ e => { e with faces := e.faces ++ [t.nextId] }) _ _)
  · exact Eq.symm (foldl_edgesUpd_faces _ _ _)
  · exact Eq.symm (foldl_edgesUpd_nextId _ _ _)
  · intro k e he hmem
    obtain ⟨f, hf, _⟩ := (h.ef k e he t.nextId).1 hmem
    exact absurd (h.freshF _ (AList.get_mem_keys _ hf)) (lt_irrefl _)

/-- `detectAndCreateFaces` preserves the invariant. -/
theorem detect_inv (s : SceneState) (a b c : Nat) (h : StoreInv s) :
    StoreInv (detectAndCreateFaces s a b c) := by
  unfold detectAndCreateFaces
  exact foldl_pred StoreInv (createFaceForCycle b)
    (fun t x ht => createFace_inv b t x ht) _ _ h

/-- Characterize an edge record after the face-detachment fold of
`removeFace`. -/
theorem foldModify_get_some_del (g : Edge → Edge) (fid : Nat)
    (hgv : ∀ e, (g e).vertices = e.vertices)
    (hgi : ∀ e, (g e).id = e.id)
    (hgf : ∀ e fk, fk ∈ (g e).faces ↔ fk ∈ e.faces ∧ ¬ fk = fid)
    (l : List Nat) (E : AList Edge) (k : Nat) (e : Edge)
    (h : E.get k = some e) :
    ∃ e', (l.foldl (fun E' k' => E'.modify k' g) E).get k = some e' ∧
      e'.vertices = e.vertices ∧ e'.id = e.id ∧
      ∀ fk, fk ∈ e'.faces ↔ fk ∈ e.faces ∧ ¬ (fk = fid ∧ k ∈ l) := by
  induction l generalizing E e with
  | nil => exact ⟨e, h, rfl, rfl, by simp⟩
  | cons x xs ih =>
    rw [List.foldl_cons]
    by_cases hkx : k = x
    · have h1 : (E.modify x g).get k = some (g e) := by
        rw [hkx] at h ⊢
        rw [AList.get_modify_self, h]
        rfl
      obtain ⟨e', he', hv', hi', hf'⟩ := ih _ _ h1
      refine ⟨e', he', by rw [hv', hgv], by rw [hi', hgi], ?_⟩
      intro fk
      rw [hf', hgf]
      constructor
      · rintro ⟨⟨hm, hne⟩, _⟩
        exact ⟨hm, fun hc => hne hc.1⟩
      · rintro ⟨hm, hno⟩
        have hne : ¬ fk = fid := fun hc => hno ⟨hc, by simp [hkx]⟩
        exact ⟨⟨hm, hne⟩, fun hc => hne hc.1⟩
    · have h1 : (E.modify x g).get k = some e := by
        rw [AList.get_modify_ne _ _ hkx]
        exact h
      obtain ⟨e', he', hv', hi', hf'⟩ := ih _ _ h1
      refine ⟨e', he', hv', hi', ?_⟩
      intro fk
      rw [hf']
      simp [List.mem_cons, hkx]

/-- Detaching a face from its boundary edges and deleting it preserves the
invariant. -/
theorem faceDetach_inv (t : SceneState) (fid : Nat) (face : Face)
    (hface : t.faces.get fid = some face) (h : StoreInv t) :
    StoreInv
      { vertices := t.vertices,
        edges := face.edges.foldl (fun E k => E.modify k
          (fun e => { e with faces := e.faces.filter (· ≠ fid) })) t.edges,
        faces := t.faces.del fid,
        nextId := t.nextId } := by
  have hgf : ∀ (e : Edge) fk,
      fk ∈ (({ e with faces := e.faces.filter (· ≠ fid) } : Edge)).faces ↔
        fk ∈ e.faces ∧ ¬ fk = fid := by
    intro e fk
    simp [List.mem_filter]
  have hkeysE : (face.edges.foldl (fun E k => E.modify k
      (fun e => { e with faces := e.faces.filter (· ≠ fid) }))
      t.edges).keys = t.edges.keys := foldModify_keys _ _ _
  refine ⟨?_, h.freshV, ?_, ?_, ?_, ?_, ?_, ?_, ?_⟩
  · show (face.edges.foldl _ t.edges).keys.Nodup
    rw [hkeysE]
    exact h.nodupE
  · show ∀ k ∈ (face.edges.foldl _ t.edges).keys, k < t.nextId
    rw [hkeysE]
    exact h.freshE
  · show ∀ k ∈ (t.faces.del fid).keys, k < t.nextId
    rw [AList.keys_del]
    exact fun k hk => h.freshF k (List.mem_of_mem_filter hk)
  · intro k e' he'
    replace he' : (face.edges.foldl (fun E k' => E.modify k'
        (fun e => { e with faces := e.faces.filter (· ≠ fid) }))
        t.edges).get k = some e' := he'
    have hsome : (t.edges.get k).isSome = true := by
      rw [← foldModify_isSome _ face.edges, he']
      rfl
    obtain ⟨e, he⟩ := Option.isSome_iff_exists.1 hsome
    obtain ⟨e'', he'', _, hi'', _⟩ :=
      foldModify_get_some_del (fun e => { e with faces := e.faces.filter (· ≠ fid) }) fid (fun e => rfl) (fun e => rfl) hgf
        face.edges t.edges k e he
    rw [he''] at he'
    injection he' with he'
    subst he'
    rw [hi'']
    exact h.idcoh k e he
  · intro k e' he'
    replace he' : (face.edges.foldl (fun E k' => E.modify k'
        (fun e => { e with faces := e.faces.filter (· ≠ fid) }))
        t.edges).get k = some e' := he'
    have hsome : (t.edges.get k).isSome = true := by
      rw [← foldModify_isSome _ face.edges, he']
      rfl
    obtain ⟨e, he⟩ := Option.isSome_iff_exists.1 hsome
    obtain ⟨e'', he'', hv'', _, _⟩ :=
      foldModify_get_some_del (fun e => { e with faces := e.faces.filter (· ≠ fid) }) fid (fun e => rfl) (fun e => rfl) hgf
        face.edges t.edges k e he
    rw [he''] at he'
    injection he' with he'
    subst he'
    rw [hv'']
    exact h.endpts k e he
  · intro k f hf
    replace hf : (t.faces.del fid).get k = some f := hf
    by_cases hk : k = fid
    · subst hk
      rw [AList.get_del_self] at hf
      cases hf
    · rw [AList.get_del_ne _ hk] at hf
      exact h.facerefs k f hf
  · intro vid v hv eid
    replace hv : t.vertices.get vid = some v := hv
    rw [h.ve vid v hv eid]
    constructor
    · rintro ⟨e, he, hcond⟩
      obtain ⟨e', he', hv', _, _⟩ :=
        foldModify_get_some_del (fun e => { e with faces := e.faces.filter (· ≠ fid) }) fid (fun e => rfl) (fun e => rfl) hgf
          face.edges t.edges eid e he
      exact ⟨e', he', by rw [hv']; exact hcond⟩
    · rintro ⟨e', he', hcond⟩
      have hsome : (t.edges.get eid).isSome = true := by
        rw [← foldModify_isSome _ face.edges, he']
        rfl
      obtain ⟨e, he⟩ := Option.isSome_iff_exists.1 hsome
      obtain ⟨e'', he'', hv'', _, _⟩ :=
        foldModify_get_some_del (fun e => { e with faces := e.faces.filter (· ≠ fid) }) fid (fun e => rfl) (fun e => rfl) hgf
          face.edges t.edges eid e he
      rw [he''] at he'
      injection he' with he'
      subst he'
      exact ⟨e, he, by rw [hv''] at hcond; exact hcond⟩
  · intro eid e' he' fid'
    replace he' : (face.edges.foldl (fun E k' => E.modify k'
        (fun e => { e with faces := e.faces.filter (· ≠ fid) }))
        t.edges).get eid = some e' := he'
    have hsome : (t.edges.get eid).isSome = true := by
      rw [← foldModify_isSome _ face.edges, he']
      rfl
    obtain ⟨e, he⟩ := Option.isSome_iff_exists.1 hsome
    obtain ⟨e'', he'', _, _, hf''⟩ :=
      foldModify_get_some_del (fun e => { e with faces := e.faces.filter (· ≠ fid) }) fid (fun e => rfl) (fun e => rfl) hgf
        face.edges t.edges eid e he
    rw [he''] at he'
    injection he' with he'
    subst he'
    rw [hf'' fid']
    by_cases hfd : fid' = fid
    · subst hfd
      rw [AList.get_del_self]
      constructor
      · rintro ⟨hm, hno⟩
        obtain ⟨f', hf', hmm⟩ := (h.ef eid e he fid').1 hm
        rw [hface] at hf'
        injection hf' with hf'
        subst hf'
        exact absurd ⟨rfl, hmm⟩ hno
      · rintro ⟨f, hf, _⟩
        cases hf
    · rw [AList.get_del_ne _ hfd]
      rw [← h.ef eid e he fid']
      constructor
      · exact fun hc => hc.1
      · intro hc
        exact ⟨hc, fun hcc => hfd hcc.1⟩

/-- `removeFace` preserves the invariant. -/
theorem removeFace_inv (t : SceneState) (fid : Nat) (h : StoreInv t) :
    StoreInv (removeFace t fid) := by
  unfold removeFace
  rcases hface : t.faces.get fid with _ | face
  · exact h
  · refine storeInv_congr _ _ ?_ ?_ ?_ ?_ (faceDetach_inv t fid face hface h)
    · exact Eq.symm (foldl_edgesUpd_vertices _ _ _)
    · exact Eq.symm (foldl_edges_component (fun x => x)
        (fun _ e => { e with faces := e.faces.filter (· ≠ fid) }) _ _)
    · show t.faces.del fid = ((face.edges.foldl _ t).faces).del fid
      rw [foldl_edgesUpd_faces]
    · exact Eq.symm (foldl_edgesUpd_nextId _ _ _)

/-- `addVertex` preserves the invariant. -/
theorem addVertex_inv (s : SceneState) (p : Vec3) (h : StoreInv s) :
    StoreInv (addVertex s p).2 := by
  simp only [addVertex, genId]
  have hNv : s.nextId ∉ s.vertices.keys := fun hmem =>
    absurd (h.freshV _ hmem) (lt_irrefl _)
  refine ⟨h.nodupE, ?_, ?_, ?_, h.idcoh, ?_, ?_, ?_, h.ef⟩
  · show ∀ k ∈ (s.vertices.set s.nextId ⟨s.nextId, p, []⟩).keys,
      k < s.nextId + 1
    rw [AList.keys_set_of_not_mem _ _ hNv]
    intro k hk
    rcases List.mem_append.1 hk with hk | hk
    · exact Nat.lt_succ_of_lt (h.freshV k hk)
    · rw [List.mem_singleton] at hk
      omega
  · exact fun k hk => Nat.lt_succ_of_lt (h.freshE k hk)
  · exact fun k hk => Nat.lt_succ_of_lt (h.freshF k hk)
  · exact fun k e he => ⟨Nat.lt_succ_of_lt (h.endpts k e he).1,
      Nat.lt_succ_of_lt (h.endpts k e he).2⟩
  · exact fun k f hf eid hm => Nat.lt_succ_of_lt (h.facerefs k f hf eid hm)
  · intro vid v hv eid
    replace hv : (s.vertices.set s.nextId ⟨s.nextId, p, []⟩).get vid
        = some v := hv
    by_cases hvid : vid = s.nextId
    · subst hvid
      rw [AList.get_set_self] at hv
      injection hv with hv'
      subst hv'
      constructor
      · intro hc
        simp at hc
      · rintro ⟨e, he, hcond⟩
        have := h.endpts eid e he
        rcases hcond with hc | hc <;> omega
    · rw [AList.get_set_ne _ _ hvid] at hv
      exact h.ve vid v hv eid

/-- Characterize a vertex record after the two edge-detachment
modifications of `deleteEdge`. -/
theorem get_filter_char (V : AList Vertex) (a b vid N : Nat) {v : Vertex}
    (hv : ((V.modify a
        (fun w => { w with edges := w.edges.filter (· ≠ N) })).modify b
        (fun w => { w with edges := w.edges.filter (· ≠ N) })).get vid
      = some v) :
    ∃ w, V.get vid = some w ∧
      ∀ eid, (eid ∈ v.edges ↔
        eid ∈ w.edges ∧ ¬ (eid = N ∧ (vid = a ∨ vid = b))) := by
  by_cases hvb : vid = b
  · rw [hvb, AList.get_modify_self] at hv
    by_cases hba : b = a
    · rw [hba, AList.get_modify_self] at hv
      rcases hw : V.get a with _ | w
      · rw [hw] at hv
        simp at hv
      · rw [hw] at hv
        simp only [Option.map_some'] at hv
        injection hv with hv'
        refine ⟨w, by rw [hvb, hba]; exact hw, ?_⟩
        intro eid
        rw [← hv']
        simp only [List.mem_filter]
        simp [hvb, List.mem_filter, and_assoc]
    · rw [AList.get_modify_ne _ _ hba] at hv
      rcases hw : V.get b with _ | w
      · rw [hw] at hv
        simp at hv
      · rw [hw] at hv
        simp only [Option.map_some'] at hv
        injection hv with hv'
        refine ⟨w, by rw [hvb]; exact hw, ?_⟩
        intro eid
        rw [← hv']
        simp [hvb, List.mem_filter]
  · rw [AList.get_modify_ne _ _ hvb] at hv
    by_cases hva : vid = a
    · rw [hva, AList.get_modify_self] at hv
      rcases hw : V.get a with _ | w
      · rw [hw] at hv
        simp at hv
      · rw [hw] at hv
        simp only [Option.map_some'] at hv
        injection hv with hv'
        refine ⟨w, by rw [hva]; exact hw, ?_⟩
        intro eid
        rw [← hv']
        simp [hva, List.mem_filter]
    · rw [AList.get_modify_ne _ _ hva] at hv
      refine ⟨v, hv, ?_⟩
      intro eid
      simp [hva, hvb]

/-- `deleteEdge` preserves the invariant. -/
theorem deleteEdge_inv (s : SceneState) (id : Nat) (h : StoreInv s) :
    StoreInv (deleteEdge s id) := by
  unfold deleteEdge
  rcases hg : s.edges.get id with _ | edge
  · exact h
  refine ⟨?_, ?_, ?_, h.freshF, ?_, ?_, h.facerefs, ?_, ?_⟩
  · show (s.edges.del id).keys.Nodup
    exact AList.nodup_keys_del _ _ h.nodupE
  · show ∀ k ∈ ((s.vertices.modify edge.vertices.1 _).modify
        edge.vertices.2 _).keys, k < s.nextId
    rw [AList.keys_modify, AList.keys_modify]
    exact h.freshV
  · show ∀ k ∈ (s.edges.del id).keys, k < s.nextId
    rw [AList.keys_del]
    exact fun k hk => h.freshE k (List.mem_of_mem_filter hk)
  · intro k e he
    replace he : (s.edges.del id).get k = some e := he
    by_cases hk : k = id
    · subst hk
      rw [AList.get_del_self] at he
      cases he
    · rw [AList.get_del_ne _ hk] at he
      exact h.idcoh k e he
  · intro k e he
    replace he : (s.edges.del id).get k = some e := he
    by_cases hk : k = id
    · subst hk
      rw [AList.get_del_self] at he
      cases he
    · rw [AList.get_del_ne _ hk] at he
      exact h.endpts k e he
  · intro vid v hv eid
    replace hv : ((s.vertices.modify edge.vertices.1
        (fun w => { w with edges := w.edges.filter (· ≠ id) })).modify
        edge.vertices.2
        (fun w => { w with edges := w.edges.filter (· ≠ id) })).get vid
        = some v := hv
    obtain ⟨w, hw, hchar⟩ := get_filter_char _ _ _ vid id hv
    rw [hchar]
    by_cases he : eid = id
    · subst he
      constructor
      · rintro ⟨hm, hno⟩
        obtain ⟨e, hge, hcond⟩ := (h.ve vid w hw eid).1 hm
        rw [hg] at hge
        injection hge with hge
        subst hge
        refine absurd ⟨rfl, ?_⟩ hno
        rcases hcond with hc | hc
        · exact Or.inl hc.symm
        · exact Or.inr hc.symm
      · rintro ⟨e, hge, _⟩
        rw [AList.get_del_self] at hge
        cases hge
    · constructor
      · rintro ⟨hm, _⟩
        obtain ⟨e, hge, hcond⟩ := (h.ve vid w hw eid).1 hm
        exact ⟨e, by rw [AList.get_del_ne _ he]; exact hge, hcond⟩
      · rintro ⟨e, hge, hcond⟩
        rw [AList.get_del_ne _ he] at hge
        refine ⟨(h.ve vid w hw eid).2 ⟨e, hge, hcond⟩, ?_⟩
        rintro ⟨hc, _⟩
        exact he hc
  · intro eid e he fid
    replace he : (s.edges.del id).get eid = some e := he
    by_cases hk : eid = id
    · subst hk
      rw [AList.get_del_self] at he
      cases he
    · rw [AList.get_del_ne _ hk] at he
      exact h.ef eid e he fid

/-- Vertex↔edge consistency for every vertex other than `id` (the state of
affairs during `deleteVertex`'s incident-edge loop, where `id`'s own list
goes stale). -/
def VEexcept (id : Nat) (t : SceneState) : Prop :=
  ∀ vid v, t.vertices.get vid = some v → vid ≠ id →
    ∀ eid, eid ∈ v.edges ↔
      ∃ e, t.edges.get eid = some e ∧
        (e.vertices.1 = vid ∨ e.vertices.2 = vid)

/-- The intermediate states of `deleteVertex`'s loop, relative to the
starting state `s0`: the edge collection is a sub-map of the original, the
other fields are stable, and consistency holds away from `id`. -/
structure DelMid (id : Nat) (s0 t : SceneState) : Prop where
  sub : ∀ k e, t.edges.get k = some e → s0.edges.get k = some e
  keysV : t.vertices.keys = s0.vertices.keys
  nid : t.nextId = s0.nextId
  faces : t.faces = s0.faces
  nodupE : t.edges.keys.Nodup
  vex : VEexcept id t
  ef : EFinv t

theorem detachStep_get (id : Nat) (t : SceneState) (x k : Nat) :
    (detachStep id t x).edges.get k
      = if k = x then none else t.edges.get k := by
  unfold detachStep
  rcases hg : t.edges.get x with _ | edge
  · by_cases hk : k = x
    · rw [if_pos hk, hk]
      exact hg
    · rw [if_neg hk]
  · by_cases hk : k = x
    · rw [if_pos hk, hk]
      exact AList.get_del_self _ _
    · rw [if_neg hk]
      exact AList.get_del_ne _ hk

theorem detachStep_mid (id : Nat) (s0 : SceneState)
    (t : SceneState) (x : Nat) (hm : DelMid id s0 t)
    (hx : ∀ e, t.edges.get x = some e →
      e.vertices.1 = id ∨ e.vertices.2 = id) :
    DelMid id s0 (detachStep id t x) := by
  unfold detachStep
  rcases hg : t.edges.get x with _ | edge
  · exact hm
  have hxid := hx edge hg
  refine ⟨?_, ?_, hm.nid, hm.faces, ?_, ?_, ?_⟩
  · intro k e he
    replace he : (t.edges.del x).get k = some e := he
    by_cases hk : k = x
    · rw [hk, AList.get_del_self] at he
      cases he
    · rw [AList.get_del_ne _ hk] at he
      exact hm.sub k e he
  · show ((t.vertices.modify (if edge.vertices.1 = id then edge.vertices.2
      else edge.vertices.1) (fun w =>
        { w with edges := w.edges.filter (· ≠ x) })).keys)
      = s0.vertices.keys
    rw [AList.keys_modify]
    exact hm.keysV
  · show (t.edges.del x).keys.Nodup
    exact AList.nodup_keys_del _ _ hm.nodupE
  · intro vid v hv hvid eid
    replace hv : (t.vertices.modify (if edge.vertices.1 = id
        then edge.vertices.2 else edge.vertices.1)
        (fun w => { w with edges := w.edges.filter (· ≠ x) })).get vid
        = some v := hv
    set other := if edge.vertices.1 = id then edge.vertices.2
      else edge.vertices.1 with hother
    by_cases hvo : vid = other
    · rw [hvo, AList.get_modify_self] at hv
      rcases hw : t.vertices.get other with _ | w
      · rw [hw] at hv
        simp at hv
      · rw [hw] at hv
        simp only [Option.map_some'] at hv
        injection hv with hv'
        have hchar : ∀ eid', eid' ∈ v.edges ↔ eid' ∈ w.edges ∧ ¬ eid' = x := by
          intro eid'
          rw [← hv']
          simp [List.mem_filter]
        have hwv : t.vertices.get vid = some w := by
          rw [hvo]
          exact hw
        rw [hchar]
        by_cases hex : eid = x
        · constructor
          · rintro ⟨_, hne⟩
            exact absurd hex hne
          · rintro ⟨e', hge, _⟩
            replace hge : (t.edges.del x).get eid = some e' := hge
            rw [hex, AList.get_del_self] at hge
            cases hge
        · constructor
          · rintro ⟨hmm, _⟩
            obtain ⟨e', hge, hcond⟩ := (hm.vex vid w hwv hvid eid).1 hmm
            refine ⟨e', ?_, hcond⟩
            show (t.edges.del x).get eid = some e'
            rw [AList.get_del_ne _ hex]
            exact hge
          · rintro ⟨e', hge, hcond⟩
            replace hge : (t.edges.del x).get eid = some e' := hge
            rw [AList.get_del_ne _ hex] at hge
            exact ⟨(hm.vex vid w hwv hvid eid).2 ⟨e', hge, hcond⟩, hex⟩
    · rw [AList.get_modify_ne _ _ hvo] at hv
      by_cases hex : eid = x
      · constructor
        · intro hmm
          obtain ⟨e', hge, hcond⟩ := (hm.vex vid v hv hvid eid).1 hmm
          rw [hex, hg] at hge
          injection hge with hge
          subst hge
          exfalso
          rcases hxid with h1 | h1
          · rcases hcond with hc | hc
            · exact hvid (by rw [← hc]; exact h1)
            · refine hvo ?_
              rw [← hc, hother, if_pos h1]
          · by_cases h2 : edge.vertices.1 = id
            · rcases hcond with hc | hc
              · exact hvid (by rw [← hc]; exact h2)
              · exact hvid (by rw [← hc]; exact h1)
            · rcases hcond with hc | hc
              · refine hvo ?_
                rw [← hc, hother, if_neg h2]
              · exact hvid (by rw [← hc]; exact h1)
        · rintro ⟨e', hge, _⟩
          replace hge : (t.edges.del x).get eid = some e' := hge
          rw [hex, AList.get_del_self] at hge
          cases hge
      · constructor
        · intro hmm
          obtain ⟨e', hge, hcond⟩ := (hm.vex vid v hv hvid eid).1 hmm
          refine ⟨e', ?_, hcond⟩
          show (t.edges.del x).get eid = some e'
          rw [AList.get_del_ne _ hex]
          exact hge
        · rintro ⟨e', hge, hcond⟩
          replace hge : (t.edges.del x).get eid = some e' := hge
          rw [AList.get_del_ne _ hex] at hge
          exact (hm.vex vid v hv hvid eid).2 ⟨e', hge, hcond⟩
  · intro eid e he fid
    replace he : (t.edges.del x).get eid = some e := he
    by_cases hk : eid = x
    · rw [hk, AList.get_del_self] at he
      cases he
    · rw [AList.get_del_ne _ hk] at he
      exact hm.ef eid e he fid

theorem delFold_mid (id : Nat) (s0 : SceneState) :
    ∀ (l : List Nat) (t : SceneState), DelMid id s0 t →
    (∀ x ∈ l, ∀ e, t.edges.get x = some e →
      e.vertices.1 = id ∨ e.vertices.2 = id) →
    (∀ k e, t.edges.get k = some e →
      (e.vertices.1 = id ∨ e.vertices.2 = id) → k ∈ l) →
    DelMid id s0 (l.foldl (detachStep id) t) ∧
    ∀ k e, (l.foldl (detachStep id) t).edges.get k = some e →
      ¬ (e.vertices.1 = id ∨ e.vertices.2 = id) := by
  intro l
  induction l with
  | nil =>
    intro t hm _ hrem
    exact ⟨hm, fun k e he hc =>
      absurd (hrem k e he hc) (List.not_mem_nil k)⟩
  | cons x rest ih =>
    intro t hm hl hrem
    rw [List.foldl_cons]
    have hstep := detachStep_mid id s0 t x hm
      (hl x (List.mem_cons_self x rest))
    refine ih _ hstep ?_ ?_
    · intro x' hx' e he
      rw [detachStep_get] at he
      by_cases hc : x' = x
      · rw [if_pos hc] at he
        cases he
      · rw [if_neg hc] at he
        exact hl x' (List.mem_cons_of_mem x hx') e he
    · intro k e he hcond
      rw [detachStep_get] at he
      by_cases hc : k = x
      · rw [if_pos hc] at he
        cases he
      · rw [if_neg hc] at he
        rcases List.mem_cons.1 (hrem k e he hcond) with hk | hk
        · exact absurd hk hc
        · exact hk

/-- `deleteVertex` preserves the invariant. -/
theorem deleteVertex_inv (s : SceneState) (id : Nat) (h : StoreInv s) :
    StoreInv (deleteVertex s id) := by
  unfold deleteVertex
  rcases hg : s.vertices.get id with _ | vertex
  · exact h
  have hm0 : DelMid id s s :=
    ⟨fun k e he => he, rfl, rfl, rfl, h.nodupE,
      fun vid v hv _ eid => h.ve vid v hv eid, h.ef⟩
  have hl0 : ∀ x ∈ vertex.edges, ∀ e, s.edges.get x = some e →
      e.vertices.1 = id ∨ e.vertices.2 = id := by
    intro x hx e he
    obtain ⟨e', hge', hcond⟩ := (h.ve id vertex hg x).1 hx
    rw [he] at hge'
    injection hge' with hge'
    subst hge'
    rcases hcond with hc | hc
    · exact Or.inl hc
    · exact Or.inr hc
  have hrem0 : ∀ k e, s.edges.get k = some e →
      (e.vertices.1 = id ∨ e.vertices.2 = id) → k ∈ vertex.edges := by
    intro k e he hcond
    exact (h.ve id vertex hg k).2 ⟨e, he, hcond⟩
  obtain ⟨hmid, hnoid⟩ := delFold_mid id s vertex.edges s hm0 hl0 hrem0
  refine ⟨hmid.nodupE, ?_, ?_, ?_, ?_, ?_, ?_, ?_, hmid.ef⟩
  · show ∀ k ∈ ((vertex.edges.foldl (detachStep id) s).vertices.del id).keys,
      k < (vertex.edges.foldl (detachStep id) s).nextId
    rw [AList.keys_del, hmid.nid]
    intro k hk
    have := List.mem_of_mem_filter hk
    rw [hmid.keysV] at this
    exact h.freshV k this
  · show ∀ k ∈ (vertex.edges.foldl (detachStep id) s).edges.keys,
      k < (vertex.edges.foldl (detachStep id) s).nextId
    intro k hk
    rw [hmid.nid]
    obtain ⟨e, he⟩ := Option.isSome_iff_exists.1
      ((AList.get_isSome_iff _ k).2 hk)
    exact h.freshE k (AList.get_mem_keys _ (hmid.sub k e he))
  · show ∀ k ∈ (vertex.edges.foldl (detachStep id) s).faces.keys,
      k < (vertex.edges.foldl (detachStep id) s).nextId
    rw [hmid.faces, hmid.nid]
    exact h.freshF
  · intro k e he
    exact h.idcoh k e (hmid.sub k e he)
  · intro k e he
    replace he : (vertex.edges.foldl (detachStep id) s).edges.get k
        = some e := he
    show e.vertices.1 < (vertex.edges.foldl (detachStep id) s).nextId ∧
      e.vertices.2 < (vertex.edges.foldl (detachStep id) s).nextId
    rw [hmid.nid]
    exact h.endpts k e (hmid.sub k e he)
  · intro k f hf eid hme
    replace hf : (vertex.edges.foldl (detachStep id) s).faces.get k
        = some f := hf
    rw [hmid.faces] at hf
    show eid < (vertex.edges.foldl (detachStep id) s).nextId
    rw [hmid.nid]
    exact h.facerefs k f hf eid hme
  · intro vid v hv eid
    replace hv : ((vertex.edges.foldl (detachStep id) s).vertices.del
        id).get vid = some v := hv
    by_cases hvid : vid = id
    · rw [hvid, AList.get_del_self] at hv
      cases hv
    · rw [AList.get_del_ne _ hvid] at hv
      exact hmid.vex vid v hv hvid eid

/-- A successful `positionsOf` certifies that all the vertex ids exist. -/
theorem positionsOf_mem (s : SceneState) :
    ∀ (l : List Nat) (ps : List Vec3), positionsOf s l = some ps →
    ∀ vid ∈ l, vid ∈ s.vertices.keys := by
  intro l
  induction l with
  | nil =>
    intro ps _ vid hv
    exact absurd hv (List.not_mem_nil vid)
  | cons vId rest ih =>
    intro ps h vid hv
    rw [positionsOf] at h
    rcases hg : s.vertices.get vId with _ | v
    · rw [hg] at h
      cases h
    · rw [hg] at h
      rcases hrest : positionsOf s rest with _ | ps' <;> rw [hrest] at h
      · cases h
      · rcases List.mem_cons.1 hv with hv | hv
        · rw [hv]
          exact AList.get_mem_keys _ hg
        · exact ih ps' hrest vid hv

/-- The intermediate states of `addFace`'s boundary loop: the invariant
holds, accumulated boundary ids are stored edges, the cycle's vertices
exist, faces are untouched and the pre-generated face id stays fresh. -/
structure AFMid (s : SceneState) (vertexIds : List Nat)
    (a : List Nat × SceneState) : Prop where
  inv : StoreInv a.2
  bnd : ∀ k ∈ a.1, k ∈ a.2.edges.keys
  vkeys : ∀ vid ∈ vertexIds, vid ∈ a.2.vertices.keys
  faces : a.2.faces = s.faces
  lt : s.nextId < a.2.nextId

theorem addFaceEdgeStep_mid (s : SceneState) (vertexIds : List Nat)
    (a : List Nat × SceneState) (i : Nat) (hi : i < vertexIds.length)
    (hm : AFMid s vertexIds a) :
    AFMid s vertexIds (addFaceEdgeStep vertexIds a i) := by
  have hv1 : vertexIds.getD i 0 ∈ a.2.vertices.keys := by
    refine hm.vkeys _ ?_
    rw [List.getD_eq_getElem vertexIds 0 hi]
    exact List.getElem_mem _
  have hlen : 0 < vertexIds.length := Nat.lt_of_le_of_lt (Nat.zero_le i) hi
  have hi2 : (i + 1) % vertexIds.length < vertexIds.length :=
    Nat.mod_lt _ hlen
  have hv2 : vertexIds.getD ((i + 1) % vertexIds.length) 0
      ∈ a.2.vertices.keys := by
    refine hm.vkeys _ ?_
    rw [List.getD_eq_getElem vertexIds 0 hi2]
    exact List.getElem_mem _
  simp only [addFaceEdgeStep, genId]
  rcases hf : a.2.edges.values.find? (fun e => edgeConnects e
      (vertexIds.getD i 0)
      (vertexIds.getD ((i + 1) % vertexIds.length) 0)) with _ | e
  · -- no stored edge: fresh insertion
    have hins := edgeInsert_inv a.2 (vertexIds.getD i 0)
      (vertexIds.getD ((i + 1) % vertexIds.length) 0) false hv1 hv2 hm.inv
    refine ⟨hins, ?_, ?_, hm.faces, Nat.lt_succ_of_lt hm.lt⟩
    · intro k hk
      replace hk : k ∈ a.1 ++ [a.2.nextId] := hk
      show k ∈ (a.2.edges.set a.2.nextId _).keys
      have hNe : a.2.nextId ∉ a.2.edges.keys := fun hmem =>
        absurd (hm.inv.freshE _ hmem) (lt_irrefl _)
      rw [AList.keys_set_of_not_mem _ _ hNe]
      rcases List.mem_append.1 hk with hk | hk
      · exact List.mem_append.2 (Or.inl (hm.bnd k hk))
      · exact List.mem_append.2 (Or.inr hk)
    · intro vid hv
      show vid ∈ ((a.2.vertices.modify _ (pushEdge a.2.nextId)).modify _
        (pushEdge a.2.nextId)).keys
      rw [AList.keys_modify, AList.keys_modify]
      exact hm.vkeys vid hv
  · -- reuse the found edge
    refine ⟨hm.inv, ?_, hm.vkeys, hm.faces, hm.lt⟩
    intro k hk
    replace hk : k ∈ a.1 ++ [e.id] := hk
    rcases List.mem_append.1 hk with hk | hk
    · exact hm.bnd k hk
    · rw [List.mem_singleton] at hk
      rw [hk]
      exact AList.get_mem_keys _ (find_connects_mem a.2 hm.inv _ _ hf).1

theorem addFaceFold_mid (s : SceneState) (vertexIds : List Nat) :
    ∀ (l : List Nat), (∀ i ∈ l, i < vertexIds.length) →
    ∀ (a : List Nat × SceneState), AFMid s vertexIds a →
    AFMid s vertexIds (l.foldl (addFaceEdgeStep vertexIds) a) := by
  intro l
  induction l with
  | nil => exact fun _ a hm => hm
  | cons x rest ih =>
    intro hl a hm
    rw [List.foldl_cons]
    exact ih (fun i hi => hl i (List.mem_cons_of_mem x hi)) _
      (addFaceEdgeStep_mid s vertexIds a x
        (hl x (List.mem_cons_self x rest)) hm)

/-- `addFace` preserves the invariant. -/
theorem addFace_inv (s : SceneState) (l : List Nat) (h : StoreInv s) :
    StoreInv (addFace s l).2 := by
  simp only [addFace, genId]
  split
  · exact h
  rcases hpos : positionsOf { s with nextId := s.nextId + 1 } l
    with _ | positions
  · exact storeInv_bump s h
  have hm0 : AFMid s l ([], { s with nextId := s.nextId + 1 }) :=
    ⟨storeInv_bump s h, fun k hk => absurd hk (List.not_mem_nil k),
      positionsOf_mem _ l positions hpos, rfl, Nat.lt_succ_self _⟩
  have hmid := addFaceFold_mid s l (List.range l.length)
    (fun i hi => List.mem_range.1 hi) _ hm0
  set a := (List.range l.length).foldl (addFaceEdgeStep l)
    ([], { s with nextId := s.nextId + 1 }) with ha
  have hgv : ∀ e : Edge, ((if s.nextId ∈ e.faces then e
      else { e with faces := e.faces ++ [s.nextId] }) : Edge).vertices
      = e.vertices := by
    intro e
    by_cases hc : s.nextId ∈ e.faces
    · rw [if_pos hc]
    · rw [if_neg hc]
  have hgi : ∀ e : Edge, ((if s.nextId ∈ e.faces then e
      else { e with faces := e.faces ++ [s.nextId] }) : Edge).id = e.id := by
    intro e
    by_cases hc : s.nextId ∈ e.faces
    · rw [if_pos hc]
    · rw [if_neg hc]
  have hgf : ∀ (e : Edge) fk, fk ∈ ((if s.nextId ∈ e.faces then e
      else { e with faces := e.faces ++ [s.nextId] }) : Edge).faces ↔
      fk ∈ e.faces ∨ fk = s.nextId := by
    intro e fk
    by_cases hc : s.nextId ∈ e.faces
    · rw [if_pos hc]
      constructor
      · exact fun hh => Or.inl hh
      · rintro (hh | hh)
        · exact hh
        · rw [hh]
          exact hc
    · rw [if_neg hc]
      simp
  have hfid_new : s.nextId ∉ a.2.faces.keys := by
    rw [hmid.faces]
    exact fun hmem => absurd (h.freshF _ hmem) (lt_irrefl _)
  have hfid_unref : ∀ k e, a.2.edges.get k = some e →
      s.nextId ∉ e.faces := by
    intro k e he hmem
    obtain ⟨f, hfm, _⟩ := (hmid.inv.ef k e he s.nextId).1 hmem
    rw [hmid.faces] at hfm
    exact absurd (h.freshF _ (AList.get_mem_keys _ hfm)) (lt_irrefl _)
  have hatt := faceAttach_inv a.2 s.nextId a.1
    (let p0 := positions.getD 0 ⟨0, 0, 0⟩
     let p1 := positions.getD 1 ⟨0, 0, 0⟩
     let p2 := positions.getD 2 ⟨0, 0, 0⟩
     let n := (p1.sub p0).cross (p2.sub p0)
     let len := ratSqrt n.len2
     if len > 0 then ⟨n.x / len, n.y / len, n.z / len⟩ else n)
    (fun e => if s.nextId ∈ e.faces then e
      else { e with faces := e.faces ++ [s.nextId] })
    hgv hgi hgf hmid.lt hfid_new hfid_unref
    (fun k hk => hmid.bnd k hk) hmid.inv
  refine storeInv_congr _ _ ?_ ?_ ?_ ?_ hatt
  · exact Eq.symm (foldl_edgesUpd_vertices _ _ _)
  · exact Eq.symm (foldl_edges_component (fun x => x)
      (fun _ e => if s.nextId ∈ e.faces then e
        else { e with faces := e.faces ++ [s.nextId] }) _ _)
  · exact Eq.symm (foldl_edgesUpd_faces _ _ _)
  · exact Eq.symm (foldl_edgesUpd_nextId _ _ _)

/-- Characterize a vertex record through one `modify` that rewrites the
incident-edge list. -/
theorem get_modify_vchar (V : AList Vertex) (c : Nat)
    (φ : List Nat → List Nat) (vid : Nat) {v' : Vertex}
    (hv : (V.modify c (fun w => { w with edges := φ w.edges })).get vid
      = some v') :
    ∃ v, V.get vid = some v ∧
      v'.edges = (if vid = c then φ v.edges else v.edges) := by
  by_cases hc : vid = c
  · rw [hc, AList.get_modify_self] at hv
    rcases hw : V.get c with _ | w
    · rw [hw] at hv
      simp at hv
    · rw [hw] at hv
      simp only [Option.map_some'] at hv
      injection hv with hv'
      refine ⟨w, by rw [hc]; exact hw, ?_⟩
      rw [← hv', if_pos hc]
  · rw [AList.get_modify_ne _ _ hc] at hv
    exact ⟨v', hv, by rw [if_neg hc]⟩

/-- Characterize a vertex record after the five modifications of
`splitEdgeAt` (detach `eId` from both old endpoints, wire the halves to
them and to the intersection vertex `x`). -/
theorem get_split_vchar (V : AList Vertex) (a b x eId n1 n2 : Nat)
    (hxa : x ≠ a) (hxb : x ≠ b) (vid : Nat) {v : Vertex}
    (hv : (((((V.modify a (fun w =>
        { w with edges := w.edges.filter (· ≠ eId) })).modify b (fun w =>
        { w with edges := w.edges.filter (· ≠ eId) })).modify a
        (pushEdge n1)).modify b (pushEdge n2)).modify x (fun w =>
        { w with edges := w.edges ++ [n1, n2] })).get vid = some v) :
    ∃ w, V.get vid = some w ∧
      ∀ eid, eid ∈ v.edges ↔
        ((eid ∈ w.edges ∧ ¬ (eid = eId ∧ (vid = a ∨ vid = b))) ∨
         (eid = n1 ∧ (vid = a ∨ vid = x)) ∨
         (eid = n2 ∧ (vid = b ∨ vid = x))) := by
  obtain ⟨v4, h4, e5⟩ := get_modify_vchar _ x (fun l => l ++ [n1, n2]) vid hv
  obtain ⟨v3, h3, e4⟩ := get_modify_vchar _ b (fun l => l ++ [n2]) vid h4
  obtain ⟨v2, h2, e3⟩ := get_modify_vchar _ a (fun l => l ++ [n1]) vid h3
  obtain ⟨v1, h1, e2⟩ := get_modify_vchar _ b
    (fun l => l.filter (· ≠ eId)) vid h2
  obtain ⟨w, hw, e1⟩ := get_modify_vchar _ a
    (fun l => l.filter (· ≠ eId)) vid h1
  refine ⟨w, hw, ?_⟩
  intro eid
  rw [e5, e4, e3, e2, e1]
  by_cases hvx : vid = x <;> by_cases hva : vid = a <;> by_cases hvb : vid = b
  · exact absurd (hva.symm.trans hvx).symm hxa
  · exact absurd (hva.symm.trans hvx).symm hxa
  · exact absurd (hvb.symm.trans hvx).symm hxb
  · -- vid = x only
    simp only [if_pos hvx, if_neg hva, if_neg hvb, List.mem_append,
      List.mem_cons, List.mem_singleton, List.not_mem_nil, or_false]
    constructor
    · rintro (hc | hc | hc)
      · refine Or.inl ⟨hc, ?_⟩
        rintro ⟨_, hcc | hcc⟩
        · exact hva hcc
        · exact hvb hcc
      · exact Or.inr (Or.inl ⟨hc, Or.inr hvx⟩)
      · exact Or.inr (Or.inr ⟨hc, Or.inr hvx⟩)
    · rintro (hc | hc | hc)
      · exact Or.inl hc.1
      · exact Or.inr (Or.inl hc.1)
      · exact Or.inr (Or.inr hc.1)
  · -- vid = a and vid = b
    simp only [if_pos hva, if_pos hvb, if_neg hvx, List.mem_append,
      List.mem_filter, List.mem_singleton, decide_eq_true_eq]
    constructor
    · rintro ((hc | hc) | hc)
      · exact Or.inl ⟨hc.1.1, fun hcc => hc.1.2 hcc.1⟩
      · exact Or.inr (Or.inl ⟨hc, Or.inl hva⟩)
      · exact Or.inr (Or.inr ⟨hc, Or.inl hvb⟩)
    · rintro (hc | hc | hc)
      · have hne : ¬ eid = eId := fun hcc => hc.2 ⟨hcc, Or.inl hva⟩
        exact Or.inl (Or.inl ⟨⟨hc.1, hne⟩, hne⟩)
      · exact Or.inl (Or.inr hc.1)
      · exact Or.inr hc.1
  · -- vid = a only
    simp only [if_pos hva, if_neg hvb, if_neg hvx, List.mem_append,
      List.mem_filter, List.mem_singleton, decide_eq_true_eq]
    constructor
    · rintro (hc | hc)
      · exact Or.inl ⟨hc.1, fun hcc => hc.2 hcc.1⟩
      · exact Or.inr (Or.inl ⟨hc, Or.inl hva⟩)
    · rintro (hc | hc | hc)
      · exact Or.inl ⟨hc.1, fun hcc => hc.2 ⟨hcc, Or.inl hva⟩⟩
      · exact Or.inr hc.1
      · rcases hc.2 with hc' | hc'
        · exact absurd hc' hvb
        · exact absurd hc' hvx
  · -- vid = b only
    simp only [if_pos hvb, if_neg hva, if_neg hvx, List.mem_append,
      List.mem_filter, List.mem_singleton, decide_eq_true_eq]
    constructor
    · rintro (hc | hc)
      · exact Or.inl ⟨hc.1, fun hcc => hc.2 hcc.1⟩
      · exact Or.inr (Or.inr ⟨hc, Or.inl hvb⟩)
    · rintro (hc | hc | hc)
      · exact Or.inl ⟨hc.1, fun hcc => hc.2 ⟨hcc, Or.inr hvb⟩⟩
      · rcases hc.2 with hc' | hc'
        · exact absurd hc' hva
        · exact absurd hc' hvx
      · exact Or.inr hc.1
  · -- none of them
    simp only [if_neg hva, if_neg hvb, if_neg hvx]
    constructor
    · intro hc
      refine Or.inl ⟨hc, ?_⟩
      rintro ⟨_, hcc | hcc⟩
      · exact hva hcc
      · exact hvb hcc
    · rintro (hc | hc | hc)
      · exact hc.1
      · rcases hc.2 with hc' | hc'
        · exact absurd hc' hva
        · exact absurd hc' hvx
      · rcases hc.2 with hc' | hc'
        · exact absurd hc' hvb
        · exact absurd hc' hvx


/-- `splitEdgeAt` preserves the invariant, given that the intersection
vertex exists, old keys sit below the bound `B` and new ids at or above
it.  Also restates the endpoint bound for the surviving edges. -/
theorem splitEdgeAt_inv (B : Nat) (t : SceneState) (eId x : Nat)
    (hx : x ∈ t.vertices.keys) (hxB : B ≤ x) (heB : eId < B)
    (hBn : B ≤ t.nextId)
    (hEnd : ∀ k e, t.edges.get k = some e → k < B →
      e.vertices.1 < B ∧ e.vertices.2 < B)
    (h : StoreInv t) :
    StoreInv (splitEdgeAt t eId x) ∧
    (∀ k e, (splitEdgeAt t eId x).edges.get k = some e → k < B →
      e.vertices.1 < B ∧ e.vertices.2 < B) := by
  simp only [splitEdgeAt, genId]
  rcases hg : t.edges.get eId with _ | edge
  · exact ⟨h, hEnd⟩
  simp only []
  rcases hva : t.vertices.get edge.vertices.1 with _ | wa
  · exact ⟨h, hEnd⟩
  rcases hvb : t.vertices.get edge.vertices.2 with _ | wb
  · exact ⟨h, hEnd⟩
  have haB : edge.vertices.1 < B := (hEnd eId edge hg heB).1
  have hbB : edge.vertices.2 < B := (hEnd eId edge hg heB).2
  have hxa : x ≠ edge.vertices.1 := by intro hh; omega
  have hxb : x ≠ edge.vertices.2 := by intro hh; omega
  have hxv : x < t.nextId := h.freshV x hx
  have heId_lt : eId < t.nextId := by omega
  have hn1k : t.nextId ∉ t.edges.keys := fun hm =>
    absurd (h.freshE _ hm) (lt_irrefl _)
  have hget : ∀ k, (((t.edges.set t.nextId
      ⟨t.nextId, (edge.vertices.1, x), [], edge.isConstruction⟩).set
      (t.nextId + 1)
      ⟨t.nextId + 1, (x, edge.vertices.2), [], edge.isConstruction⟩).del
      eId).get k =
      if k = eId then none
      else if k = t.nextId then
        some ⟨t.nextId, (edge.vertices.1, x), [], edge.isConstruction⟩
      else if k = t.nextId + 1 then
        some ⟨t.nextId + 1, (x, edge.vertices.2), [], edge.isConstruction⟩
      else t.edges.get k := by
    intro k
    by_cases h1 : k = eId
    · rw [if_pos h1, h1, AList.get_del_self]
    · rw [if_neg h1, AList.get_del_ne _ h1]
      by_cases h2 : k = t.nextId
      · rw [if_pos h2, AList.get_set_ne _ _ (by omega : k ≠ t.nextId + 1),
          h2, AList.get_set_self]
      · rw [if_neg h2]
        by_cases h3 : k = t.nextId + 1
        · rw [if_pos h3, h3, AList.get_set_self]
        · rw [if_neg h3, AList.get_set_ne _ _ h3, AList.get_set_ne _ _ h2]
  constructor
  · refine ⟨?_, ?_, ?_, ?_, ?_, ?_, ?_, ?_, ?_⟩
    · show ((((t.edges.set t.nextId _).set (t.nextId + 1) _).del
        eId)).keys.Nodup
      exact AList.nodup_keys_del _ _ (AList.nodup_keys_set _ _ _
        (AList.nodup_keys_set _ _ _ h.nodupE))
    · intro k hk
      replace hk : k ∈ (((((t.vertices.modify edge.vertices.1 (fun w =>
          { w with edges := w.edges.filter (· ≠ eId) })).modify
          edge.vertices.2 (fun w =>
          { w with edges := w.edges.filter (· ≠ eId) })).modify
          edge.vertices.1 (pushEdge t.nextId)).modify edge.vertices.2
          (pushEdge (t.nextId + 1))).modify x (fun w =>
          { w with edges := w.edges ++ [t.nextId, t.nextId + 1] })).keys := hk
      rw [AList.keys_modify, AList.keys_modify, AList.keys_modify,
        AList.keys_modify, AList.keys_modify] at hk
      have := h.freshV k hk
      show k < t.nextId + 1 + 1
      omega
    · intro k hk
      have hk' := (AList.get_isSome_iff _ k).2 hk
      rw [hget] at hk'
      show k < t.nextId + 1 + 1
      by_cases h1 : k = eId
      · rw [if_pos h1] at hk'
        cases hk'
      · rw [if_neg h1] at hk'
        by_cases h2 : k = t.nextId
        · omega
        · rw [if_neg h2] at hk'
          by_cases h3 : k = t.nextId + 1
          · omega
          · rw [if_neg h3] at hk'
            obtain ⟨e, he⟩ := Option.isSome_iff_exists.1 hk'
            have := h.freshE k (AList.get_mem_keys _ he)
            omega
    · intro k hk
      have := h.freshF k hk
      show k < t.nextId + 1 + 1
      omega
    · intro k e he
      replace he : (((t.edges.set t.nextId
          ⟨t.nextId, (edge.vertices.1, x), [], edge.isConstruction⟩).set
          (t.nextId + 1)
          ⟨t.nextId + 1, (x, edge.vertices.2), [], edge.isConstruction⟩).del
          eId).get k = some e := he
      rw [hget] at he
      by_cases h1 : k = eId
      · rw [if_pos h1] at he
        cases he
      · rw [if_neg h1] at he
        by_cases h2 : k = t.nextId
        · rw [if_pos h2] at he
          injection he with he'
          subst he'
          rw [h2]
        · rw [if_neg h2] at he
          by_cases h3 : k = t.nextId + 1
          · rw [if_pos h3] at he
            injection he with he'
            subst he'
            rw [h3]
          · rw [if_neg h3] at he
            exact h.idcoh k e he
    · intro k e he
      replace he : (((t.edges.set t.nextId
          ⟨t.nextId, (edge.vertices.1, x), [], edge.isConstruction⟩).set
          (t.nextId + 1)
          ⟨t.nextId + 1, (x, edge.vertices.2), [], edge.isConstruction⟩).del
          eId).get k = some e := he
      rw [hget] at he
      show e.vertices.1 < t.nextId + 1 + 1 ∧ e.vertices.2 < t.nextId + 1 + 1
      by_cases h1 : k = eId
      · rw [if_pos h1] at he
        cases he
      · rw [if_neg h1] at he
        by_cases h2 : k = t.nextId
        · rw [if_pos h2] at he
          injection he with he'
          subst he'
          exact ⟨by show edge.vertices.1 < _; omega, by show x < _; omega⟩
        · rw [if_neg h2] at he
          by_cases h3 : k = t.nextId + 1
          · rw [if_pos h3] at he
            injection he with he'
            subst he'
            exact ⟨by show x < _; omega, by show edge.vertices.2 < _; omega⟩
          · rw [if_neg h3] at he
            have := h.endpts k e he
            omega
    · intro k f hf eid hm
      have := h.facerefs k f hf eid hm
      show eid < t.nextId + 1 + 1
      omega
    · intro vid v hv eid
      replace hv : (((((t.vertices.modify edge.vertices.1 (fun w =>
          { w with edges := w.edges.filter (· ≠ eId) })).modify
          edge.vertices.2 (fun w =>
          { w with edges := w.edges.filter (· ≠ eId) })).modify
          edge.vertices.1 (pushEdge t.nextId)).modify edge.vertices.2
          (pushEdge (t.nextId + 1))).modify x (fun w =>
          { w with edges := w.edges ++ [t.nextId, t.nextId + 1] })).get vid
          = some v := hv
      obtain ⟨w, hw, hchar⟩ :=
        get_split_vchar t.vertices edge.vertices.1 edge.vertices.2 x eId
          t.nextId (t.nextId + 1) hxa hxb vid hv
      rw [hchar eid]
      by_cases he1 : eid = t.nextId
      · constructor
        · rintro (hc | hc | hc)
          · exfalso
            obtain ⟨e', hge, _⟩ := (h.ve vid w hw eid).1 hc.1
            have := h.freshE eid (AList.get_mem_keys _ hge)
            omega
          · refine ⟨⟨t.nextId, (edge.vertices.1, x), [],
              edge.isConstruction⟩, ?_, ?_⟩
            · show (((t.edges.set t.nextId _).set (t.nextId + 1) _).del
                eId).get eid = _
              rw [hget, if_neg (by omega), if_pos he1]
            · rcases hc.2 with hc' | hc'
              · exact Or.inl hc'.symm
              · exact Or.inr hc'.symm
          · exfalso
            omega
        · rintro ⟨e', hge, hcond⟩
          replace hge : (((t.edges.set t.nextId
              ⟨t.nextId, (edge.vertices.1, x), [],
                edge.isConstruction⟩).set (t.nextId + 1)
              ⟨t.nextId + 1, (x, edge.vertices.2), [],
                edge.isConstruction⟩).del eId).get eid = some e' := hge
          rw [hget, if_neg (by omega), if_pos he1] at hge
          injection hge with hge
          subst hge
          refine Or.inr (Or.inl ⟨he1, ?_⟩)
          rcases hcond with hc | hc
          · exact Or.inl hc.symm
          · exact Or.inr hc.symm
      · by_cases he2 : eid = t.nextId + 1
        · constructor
          · rintro (hc | hc | hc)
            · exfalso
              obtain ⟨e', hge, _⟩ := (h.ve vid w hw eid).1 hc.1
              have := h.freshE eid (AList.get_mem_keys _ hge)
              omega
            · exact absurd hc.1 he1
            · refine ⟨⟨t.nextId + 1, (x, edge.vertices.2), [],
                edge.isConstruction⟩, ?_, ?_⟩
              · show (((t.edges.set t.nextId _).set (t.nextId + 1) _).del
                  eId).get eid = _
                rw [hget, if_neg (by omega), if_neg he1, if_pos he2]
              · rcases hc.2 with hc' | hc'
                · exact Or.inr hc'.symm
                · exact Or.inl hc'.symm
          · rintro ⟨e', hge, hcond⟩
            replace hge : (((t.edges.set t.nextId
                ⟨t.nextId, (edge.vertices.1, x), [],
                  edge.isConstruction⟩).set (t.nextId + 1)
                ⟨t.nextId + 1, (x, edge.vertices.2), [],
                  edge.isConstruction⟩).del eId).get eid = some e' := hge
            rw [hget, if_neg (by omega), if_neg he1, if_pos he2] at hge
            injection hge with hge
            subst hge
            refine Or.inr (Or.inr ⟨he2, ?_⟩)
            rcases hcond with hc | hc
            · exact Or.inr hc.symm
            · exact Or.inl hc.symm
        · by_cases heE : eid = eId
          · constructor
            · rintro (hc | hc | hc)
              · exfalso
                obtain ⟨e', hge, hcond⟩ := (h.ve vid w hw eid).1 hc.1
                rw [heE, hg] at hge
                injection hge with hge
                subst hge
                refine hc.2 ⟨heE, ?_⟩
                rcases hcond with hc' | hc'
                · exact Or.inl hc'.symm
                · exact Or.inr hc'.symm
              · exact absurd hc.1 he1
              · exact absurd hc.1 he2
            · rintro ⟨e', hge, _⟩
              replace hge : (((t.edges.set t.nextId
                  ⟨t.nextId, (edge.vertices.1, x), [],
                    edge.isConstruction⟩).set (t.nextId + 1)
                  ⟨t.nextId + 1, (x, edge.vertices.2), [],
                    edge.isConstruction⟩).del eId).get eid = some e' := hge
              rw [hget, if_pos heE] at hge
              cases hge
          · constructor
            · rintro (hc | hc | hc)
              · obtain ⟨e', hge, hcond⟩ := (h.ve vid w hw eid).1 hc.1
                refine ⟨e', ?_, hcond⟩
                show (((t.edges.set t.nextId _).set (t.nextId + 1) _).del
                  eId).get eid = some e'
                rw [hget, if_neg heE, if_neg he1, if_neg he2]
                exact hge
              · exact absurd hc.1 he1
              · exact absurd hc.1 he2
            · rintro ⟨e', hge, hcond⟩
              replace hge : (((t.edges.set t.nextId
                  ⟨t.nextId, (edge.vertices.1, x), [],
                    edge.isConstruction⟩).set (t.nextId + 1)
                  ⟨t.nextId + 1, (x, edge.vertices.2), [],
                    edge.isConstruction⟩).del eId).get eid = some e' := hge
              rw [hget, if_neg heE, if_neg he1, if_neg he2] at hge
              refine Or.inl ⟨(h.ve vid w hw eid).2 ⟨e', hge, hcond⟩, ?_⟩
              rintro ⟨hc, _⟩
              exact heE hc
    · intro eid e' he' fid
      replace he' : (((t.edges.set t.nextId
          ⟨t.nextId, (edge.vertices.1, x), [], edge.isConstruction⟩).set
          (t.nextId + 1)
          ⟨t.nextId + 1, (x, edge.vertices.2), [], edge.isConstruction⟩).del
          eId).get eid = some e' := he'
      rw [hget] at he'
      by_cases h1 : eid = eId
      · rw [if_pos h1] at he'
        cases he'
      · rw [if_neg h1] at he'
        by_cases h2 : eid = t.nextId
        · rw [if_pos h2] at he'
          injection he' with he'
          subst he'
          constructor
          · intro hc
            simp at hc
          · rintro ⟨f, hf, hm⟩
            have := h.facerefs fid f hf eid hm
            omega
        · rw [if_neg h2] at he'
          by_cases h3 : eid = t.nextId + 1
          · rw [if_pos h3] at he'
            injection he' with he'
            subst he'
            constructor
            · intro hc
              simp at hc
            · rintro ⟨f, hf, hm⟩
              have := h.facerefs fid f hf eid hm
              omega
          · rw [if_neg h3] at he'
            exact h.ef eid e' he' fid
  · intro k e he hkB
    replace he : (((t.edges.set t.nextId
        ⟨t.nextId, (edge.vertices.1, x), [], edge.isConstruction⟩).set
        (t.nextId + 1)
        ⟨t.nextId + 1, (x, edge.vertices.2), [], edge.isConstruction⟩).del
        eId).get k = some e := he
    rw [hget] at he
    by_cases h1 : k = eId
    · rw [if_pos h1] at he
      cases he
    · rw [if_neg h1] at he
      by_cases h2 : k = t.nextId
      · omega
      · rw [if_neg h2] at he
        by_cases h3 : k = t.nextId + 1
        · omega
        · rw [if_neg h3] at he
          exact hEnd k e he hkB


theorem mem_keys_set_of_mem {α : Type} (m : AList α) (k u : Nat) (v : α)
    (h : u ∈ m.keys) : u ∈ (m.set k v).keys := by
  by_cases hk : k ∈ m.keys
  · rwa [AList.keys_set_of_mem _ _ hk]
  · rw [AList.keys_set_of_not_mem _ _ hk]
    exact List.mem_append.2 (Or.inl h)

/-- The intermediate states of the intersection-vertex creation loop. -/
structure SVMid (B : Nat) (E0 : AList Edge) (V0 : List Nat)
    (a : List Nat × SceneState) : Prop where
  inv : StoreInv a.2
  edges : a.2.edges = E0
  nid : B ≤ a.2.nextId
  xmem : ∀ y ∈ a.1, y ∈ a.2.vertices.keys ∧ B ≤ y
  vsub : ∀ u ∈ V0, u ∈ a.2.vertices.keys

theorem splitVertexStep_svmid (B : Nat) (E0 : AList Edge) (V0 : List Nat)
    (a : List Nat × SceneState) (hit : Hit) (hm : SVMid B E0 V0 a) :
    SVMid B E0 V0 (splitVertexStep a hit) := by
  refine ⟨addVertex_inv a.2 hit.point hm.inv, hm.edges,
    Nat.le_succ_of_le hm.nid, ?_, ?_⟩
  · intro y hy
    replace hy : y ∈ a.1 ++ [a.2.nextId] := hy
    show y ∈ (a.2.vertices.set a.2.nextId
      ⟨a.2.nextId, hit.point, []⟩).keys ∧ B ≤ y
    rcases List.mem_append.1 hy with hy | hy
    · obtain ⟨hy1, hy2⟩ := hm.xmem y hy
      exact ⟨mem_keys_set_of_mem _ _ _ _ hy1, hy2⟩
    · rw [List.mem_singleton] at hy
      subst hy
      exact ⟨AList.get_mem_keys _ (AList.get_set_self _ _ _), hm.nid⟩
  · intro u hu
    show u ∈ (a.2.vertices.set a.2.nextId ⟨a.2.nextId, hit.point, []⟩).keys
    exact mem_keys_set_of_mem _ _ _ _ (hm.vsub u hu)

theorem svFold_svmid (B : Nat) (E0 : AList Edge) (V0 : List Nat) :
    ∀ (l : List Hit) (a : List Nat × SceneState), SVMid B E0 V0 a →
    SVMid B E0 V0 (l.foldl splitVertexStep a) := by
  intro l
  induction l with
  | nil => exact fun a hm => hm
  | cons x rest ih =>
    intro a hm
    rw [List.foldl_cons]
    exact ih _ (splitVertexStep_svmid B E0 V0 a x hm)

theorem splitEdgeAt_vkeys (t : SceneState) (e x : Nat) :
    (splitEdgeAt t e x).vertices.keys = t.vertices.keys := by
  simp only [splitEdgeAt, genId]
  rcases hg : t.edges.get e with _ | edge
  · rfl
  simp only []
  rcases hva : t.vertices.get edge.vertices.1 with _ | wa
  · rfl
  rcases hvb : t.vertices.get edge.vertices.2 with _ | wb
  · rfl
  show (((((t.vertices.modify _ _).modify _ _).modify _ _).modify _
    _).modify _ _).keys = t.vertices.keys
  rw [AList.keys_modify, AList.keys_modify, AList.keys_modify,
    AList.keys_modify, AList.keys_modify]

theorem splitEdgeAt_nextId_ge (t : SceneState) (e x : Nat) :
    t.nextId ≤ (splitEdgeAt t e x).nextId := by
  simp only [splitEdgeAt, genId]
  rcases hg : t.edges.get e with _ | edge
  · exact le_refl _
  simp only []
  rcases hva : t.vertices.get edge.vertices.1 with _ | wa
  · exact le_refl _
  rcases hvb : t.vertices.get edge.vertices.2 with _ | wb
  · exact le_refl _
  show t.nextId ≤ t.nextId + 1 + 1
  omega

theorem splitFold_inv (B : Nat) :
    ∀ (l : List (Hit × Nat)) (t : SceneState), StoreInv t →
    (∀ k e, t.edges.get k = some e → k < B →
      e.vertices.1 < B ∧ e.vertices.2 < B) →
    B ≤ t.nextId →
    (∀ p ∈ l, p.1.edgeId < B ∧ p.2 ∈ t.vertices.keys ∧ B ≤ p.2) →
    StoreInv (l.foldl
      (fun (s' : SceneState) (p : Hit × Nat) =>
        splitEdgeAt s' p.1.edgeId p.2) t) ∧
    (l.foldl (fun (s' : SceneState) (p : Hit × Nat) =>
      splitEdgeAt s' p.1.edgeId p.2) t).vertices.keys
      = t.vertices.keys := by
  intro l
  induction l with
  | nil => exact fun t h _ _ _ => ⟨h, rfl⟩
  | cons p rest ih =>
    intro t h hE hB hl
    rw [List.foldl_cons]
    obtain ⟨hp1, hp2, hp3⟩ := hl p (List.mem_cons_self p rest)
    obtain ⟨h', hE'⟩ := splitEdgeAt_inv B t p.1.edgeId p.2 hp2 hp3 hp1 hB hE h
    have hkeys := splitEdgeAt_vkeys t p.1.edgeId p.2
    have hnid := splitEdgeAt_nextId_ge t p.1.edgeId p.2
    have hl' : ∀ q ∈ rest, q.1.edgeId < B ∧
        q.2 ∈ (splitEdgeAt t p.1.edgeId p.2).vertices.keys ∧ B ≤ q.2 := by
      intro q hq
      obtain ⟨hq1, hq2, hq3⟩ := hl q (List.mem_cons_of_mem p hq)
      exact ⟨hq1, by rw [hkeys]; exact hq2, hq3⟩
    obtain ⟨hinv, hkeys'⟩ := ih _ h' hE' (le_trans hB hnid) hl'
    exact ⟨hinv, hkeys'.trans hkeys⟩

theorem chainStep_vkeys (a : List Nat × SceneState) (pr : Nat × Nat) :
    (chainStep a pr).2.vertices.keys = a.2.vertices.keys := by
  show ((a.2.vertices.modify pr.1 (pushEdge a.2.nextId)).modify pr.2
    (pushEdge a.2.nextId)).keys = a.2.vertices.keys
  rw [AList.keys_modify, AList.keys_modify]

theorem chainFold_inv :
    ∀ (l : List (Nat × Nat)) (a : List Nat × SceneState), StoreInv a.2 →
    (∀ pr ∈ l, pr.1 ∈ a.2.vertices.keys ∧ pr.2 ∈ a.2.vertices.keys) →
    StoreInv ((l.foldl chainStep a).2) := by
  intro l
  induction l with
  | nil => exact fun a h _ => h
  | cons pr rest ih =>
    intro a h hl
    rw [List.foldl_cons]
    obtain ⟨hp1, hp2⟩ := hl pr (List.mem_cons_self pr rest)
    refine ih _ (edgeInsert_inv a.2 pr.1 pr.2 false hp1 hp2 h) ?_
    intro q hq
    obtain ⟨hq1, hq2⟩ := hl q (List.mem_cons_of_mem pr hq)
    rw [chainStep_vkeys]
    exact ⟨hq1, hq2⟩

theorem detectStep_inv (t : SceneState) (k : Nat) (h : StoreInv t) :
    StoreInv (detectStep t k) := by
  unfold detectStep
  rcases hg : t.edges.get k with _ | e
  · exact h
  · exact detect_inv t _ _ _ h

/-- `addEdgeSplit` (from the bumped state, with the hits taken from the
original edges) preserves the invariant. -/
theorem addEdgeSplit_inv (s : SceneState) (v1 v2 : Nat)
    (hv1 : v1 ∈ s.vertices.keys) (hv2 : v2 ∈ s.vertices.keys)
    (sorted : List Hit)
    (hB : ∀ hit ∈ sorted, hit.edgeId < s.nextId)
    (h : StoreInv s) :
    StoreInv (addEdgeSplit { s with nextId := s.nextId + 1 } v1 v2
      sorted) := by
  have hm1 := svFold_svmid (s.nextId + 1) s.edges [v1, v2] sorted
    ([], { s with nextId := s.nextId + 1 })
    ⟨storeInv_bump s h, rfl, le_refl _,
      fun y hy => absurd hy (List.not_mem_nil y),
      fun u hu => by
        rcases List.mem_cons.1 hu with hu | hu
        · rw [hu]
          exact hv1
        · rw [List.mem_singleton.1 hu]
          exact hv2⟩
  have hendB : ∀ k e, (sorted.foldl splitVertexStep
      ([], { s with nextId := s.nextId + 1 })).2.edges.get k = some e →
      k < s.nextId + 1 →
      e.vertices.1 < s.nextId + 1 ∧ e.vertices.2 < s.nextId + 1 := by
    intro k e he _
    rw [hm1.edges] at he
    have := h.endpts k e he
    omega
  have hzip : ∀ p ∈ sorted.zip (sorted.foldl splitVertexStep
      ([], { s with nextId := s.nextId + 1 })).1,
      p.1.edgeId < s.nextId + 1 ∧
      p.2 ∈ (sorted.foldl splitVertexStep
        ([], { s with nextId := s.nextId + 1 })).2.vertices.keys ∧
      s.nextId + 1 ≤ p.2 := by
    intro p hp
    have hz := List.of_mem_zip hp
    obtain ⟨hmm, hge⟩ := hm1.xmem p.2 hz.2
    have := hB p.1 hz.1
    exact ⟨by omega, hmm, hge⟩
  obtain ⟨hinv2, hkeys2⟩ := splitFold_inv (s.nextId + 1) _ _ hm1.inv hendB
    hm1.nid hzip
  unfold addEdgeSplit
  refine foldl_pred StoreInv detectStep
    (fun t k ht => detectStep_inv t k ht) _ _ ?_
  refine chainFold_inv _ _ hinv2 ?_
  intro pr hpr
  have hz := List.of_mem_zip hpr
  have hall : ∀ u, u ∈ v1 :: ((sorted.foldl splitVertexStep
      ([], { s with nextId := s.nextId + 1 })).1 ++ [v2]) →
      u ∈ ((sorted.zip (sorted.foldl splitVertexStep
        ([], { s with nextId := s.nextId + 1 })).1).foldl
        (fun (s' : SceneState) (p : Hit × Nat) =>
          splitEdgeAt s' p.1.edgeId p.2)
        (sorted.foldl splitVertexStep
          ([], { s with nextId := s.nextId + 1 })).2).vertices.keys := by
    intro u hu
    rw [hkeys2]
    rcases List.mem_cons.1 hu with hu | hu
    · rw [hu]
      exact hm1.vsub v1 (List.mem_cons_self _ _)
    · rcases List.mem_append.1 hu with hu | hu
      · exact (hm1.xmem u hu).1
      · rw [List.mem_singleton.1 hu]
        exact hm1.vsub v2 (by simp)
  exact ⟨hall pr.1 hz.1, hall pr.2 (List.mem_cons_of_mem v1 hz.2)⟩

/-- The direct branch of `addEdge` preserves the invariant. -/
theorem addEdgeDirect_inv (s : SceneState) (v1 v2 : Nat)
    (hv1 : v1 ∈ s.vertices.keys) (hv2 : v2 ∈ s.vertices.keys)
    (h : StoreInv s) :
    StoreInv (addEdgeDirect { s with nextId := s.nextId + 1 } v1 v2
      s.nextId) := by
  unfold addEdgeDirect
  refine detect_inv _ _ _ _ ?_
  refine foldl_pred StoreInv removeFace
    (fun t x ht => removeFace_inv t x ht) _ _ ?_
  exact edgeInsert_inv s v1 v2 false hv1 hv2 h

theorem insertHit_mem (y hh : Hit) :
    ∀ l, y ∈ insertHit hh l → y = hh ∨ y ∈ l := by
  intro l
  induction l with
  | nil =>
    intro hy
    replace hy : y ∈ [hh] := hy
    exact Or.inl (List.mem_singleton.1 hy)
  | cons h' rest ih =>
    intro hy
    rw [insertHit] at hy
    by_cases hc : hh.tKey < h'.tKey
    · rw [if_pos hc] at hy
      rcases List.mem_cons.1 hy with hy | hy
      · exact Or.inl hy
      · exact Or.inr hy
    · rw [if_neg hc] at hy
      rcases List.mem_cons.1 hy with hy | hy
      · refine Or.inr ?_
        rw [hy]
        exact List.mem_cons_self _ _
      · rcases ih hy with hy | hy
        · exact Or.inl hy
        · exact Or.inr (List.mem_cons_of_mem _ hy)

theorem sortHits_mem (y : Hit) (l : List Hit) (hy : y ∈ sortHits l) :
    y ∈ l := by
  have H : ∀ (l' : List Hit) (acc : List Hit),
      y ∈ l'.foldl (fun acc hh => insertHit hh acc) acc →
      y ∈ acc ∨ y ∈ l' := by
    intro l'
    induction l' with
    | nil => exact fun acc hm => Or.inl hm
    | cons h' rest ih =>
      intro acc hm
      rw [List.foldl_cons] at hm
      rcases ih _ hm with hm | hm
      · rcases insertHit_mem y h' acc hm with hm | hm
        · refine Or.inr ?_
          rw [hm]
          exact List.mem_cons_self _ _
        · exact Or.inl hm
      · exact Or.inr (List.mem_cons_of_mem _ hm)
  rcases H l [] hy with hm | hm
  · exact absurd hm (List.not_mem_nil y)
  · exact hm

theorem collect_step_mem (s : SceneState) (p1 p2 : Vec3) (acc : List Hit)
    (q : Nat × Edge) (y : Hit)
    (hy : y ∈ ((match s.vertices.get q.2.vertices.1,
        s.vertices.get q.2.vertices.2 with
      | some ev1, some ev2 =>
        match lineSegmentIntersection p1 p2 ev1.position ev2.position with
        | some point => acc ++ [⟨point, q.1, (point.sub p1).len2⟩]
        | none => acc
      | _, _ => acc : List Hit))) : y ∈ acc ∨ y.edgeId = q.1 := by
  revert hy
  rcases s.vertices.get q.2.vertices.1 with _ | ev1
  · exact fun hy => Or.inl hy
  rcases s.vertices.get q.2.vertices.2 with _ | ev2
  · exact fun hy => Or.inl hy
  show y ∈ ((match lineSegmentIntersection p1 p2 ev1.position
      ev2.position with
    | some point => acc ++ [⟨point, q.1, (point.sub p1).len2⟩]
    | none => acc : List Hit)) → y ∈ acc ∨ y.edgeId = q.1
  rcases lineSegmentIntersection p1 p2 ev1.position ev2.position with _ | pt
  · exact fun hy => Or.inl hy
  · intro hy
    replace hy : y ∈ acc ++ [⟨pt, q.1, (pt.sub p1).len2⟩] := hy
    rcases List.mem_append.1 hy with hy | hy
    · exact Or.inl hy
    · rw [List.mem_singleton.1 hy]
      exact Or.inr rfl

theorem collect_edgeId_lt (s : SceneState) (h : StoreInv s) (p1 p2 : Vec3) :
    ∀ hit ∈ collectIntersections s p1 p2, hit.edgeId < s.nextId := by
  unfold collectIntersections
  have H : ∀ (l : List (Nat × Edge)) (acc : List Hit),
      (∀ y ∈ acc, y.edgeId < s.nextId) →
      (∀ q ∈ l, q.1 < s.nextId) →
      ∀ y ∈ l.foldl
        (fun acc p =>
          let edge := p.2
          match s.vertices.get edge.vertices.1,
              s.vertices.get edge.vertices.2 with
          | some ev1, some ev2 =>
            match lineSegmentIntersection p1 p2 ev1.position
                ev2.position with
            | some point => acc ++ [⟨point, p.1, (point.sub p1).len2⟩]
            | none => acc
          | _, _ => acc) acc, y.edgeId < s.nextId := by
    intro l
    induction l with
    | nil => exact fun acc hacc _ y hm => hacc y hm
    | cons q rest ih =>
      intro acc hacc hl
      rw [List.foldl_cons]
      refine ih _ ?_ (fun q' hq' => hl q' (List.mem_cons_of_mem q hq'))
      intro y hm
      rcases collect_step_mem s p1 p2 acc q y hm with hc | hc
      · exact hacc y hc
      · rw [hc]
        exact hl q (List.mem_cons_self q rest)
  refine H s.edges [] (fun y hy => absurd hy (List.not_mem_nil y)) ?_
  intro q hq
  exact h.freshE q.1 (List.mem_map.2 ⟨q, hq, rfl⟩)

/-- `addEdge` preserves the invariant. -/
theorem addEdge_inv (s : SceneState) (v1 v2 : Nat) (h : StoreInv s) :
    StoreInv (addEdge s v1 v2).2 := by
  rcases hv1 : s.vertices.get v1 with _ | w1
  · rw [addEdge_eval_unknown s v1 v2 (Or.inl hv1)]
    exact storeInv_bump s h
  rcases hv2 : s.vertices.get v2 with _ | w2
  · rw [addEdge_eval_unknown s v1 v2 (Or.inr hv2)]
    exact storeInv_bump s h
  rcases hfind : (s.edges.values.find? (fun e =>
      edgeConnects e v1 v2)).isSome with _ | _
  · rcases hints : collectIntersections s w1.position w2.position
      with _ | ⟨h0, rest⟩
    · rw [addEdge_eval_direct s v1 v2 w1 w2 hv1 hv2 hfind hints]
      exact addEdgeDirect_inv s v1 v2 (AList.get_mem_keys _ hv1)
        (AList.get_mem_keys _ hv2) h
    · have hne : (collectIntersections s w1.position w2.position).isEmpty
          = false := by
        rw [hints]
        rfl
      rw [addEdge_eval_split s v1 v2 w1 w2 hv1 hv2 hfind hne]
      refine addEdgeSplit_inv s v1 v2 (AList.get_mem_keys _ hv1)
        (AList.get_mem_keys _ hv2) _ ?_ h
      intro hit hm
      exact collect_edgeId_lt s h w1.position w2.position hit
        (sortHits_mem hit _ hm)
  · rw [addEdge_eval_noop s v1 v2 w1 w2 hv1 hv2 hfind]
    exact storeInv_bump s h

/-- Every state reachable by the store operations satisfies the full
invariant. -/
theorem reachAll_storeInv (s : SceneState) (h : ReachAll s) : StoreInv s := by
  induction h with
  | empty => exact storeInv_empty
  | addVertexStep s p _ ih => exact addVertex_inv s p ih
  | addEdgeStep s v1 v2 _ ih => exact addEdge_inv s v1 v2 ih
  | deleteVertexStep s id _ ih => exact deleteVertex_inv s id ih
  | deleteEdgeStep s id _ ih => exact deleteEdge_inv s id ih
  | addFaceStep s l _ ih => exact addFace_inv s l ih

/-- C4: after any sequence of the mesh-store mutations (`addVertex`,
`addEdge`, `deleteVertex`, `deleteEdge`, `addFace`) starting from the empty
scene, every vertex's edge-id list holds exactly the edges whose endpoint
pair includes it, and every edge's face-id list holds exactly the faces
whose boundary edge list contains it. -/
theorem C4_invariant_preservation (s : SceneState) (h : ReachAll s) :
    VEinv s ∧ EFinv s :=
  ⟨(reachAll_storeInv s h).ve, (reachAll_storeInv s h).ef⟩

/-- C4, witness: the consistency invariant at a concrete reachable state
(two vertices joined by an edge). -/
theorem C4_witness :
    VEinv (addEdge (addVertex (addVertex SceneState.empty
      ⟨0, 0, 0⟩).2 ⟨1, 0, 0⟩).2 0 1).2 ∧
    EFinv (addEdge (addVertex (addVertex SceneState.empty
      ⟨0, 0, 0⟩).2 ⟨1, 0, 0⟩).2 0 1).2 :=
  C4_invariant_preservation _
    (ReachAll.addEdgeStep _ 0 1
      (ReachAll.addVertexStep _ _
        (ReachAll.addVertexStep _ _ ReachAll.empty)))

/-! ## C5 (amended): duplicate suppression in cycle synthesis -/

/-- C5 (amended): cycle-detection face synthesis does suppress duplicates,
with the code's own test: whenever some stored face passes the duplicate
check against the candidate cycle's boundary list (equal length, and every
edge of the stored face contained in the candidate's list),
`createFaceForCycle` leaves the store unchanged.  (`addFace` performs no
such check — see the counterexample.) -/
theorem C5_amended_cycle_dedup (s : SceneState) (v2Id : Nat) (c : List Nat)
    (hfind : (s.faces.values.find? (fun f =>
        f.edges.length == (cycleFaceEdges s (c ++ [v2Id])).length &&
        f.edges.all (fun e =>
          (cycleFaceEdges s (c ++ [v2Id])).contains e))).isSome = true) :
    createFaceForCycle v2Id s c = s := by
  simp only [createFaceForCycle]
  split
  · rfl
  split
  · rfl
  split
  · rcases hf : s.faces.values.find? (fun f =>
        f.edges.length == (cycleFaceEdges s (c ++ [v2Id])).length &&
        f.edges.all (fun e =>
          (cycleFaceEdges s (c ++ [v2Id])).contains e)) with _ | fdup
    · rw [hf] at hfind
      simp at hfind
    · rw [hf]
  · rfl

/-- C5 (amended), witness: re-offering the quad's own cycle to
`createFaceForCycle` on the completed quad state is suppressed by the
duplicate test and leaves the store unchanged. -/
theorem C5_amended_witness :
    (quadRun.faces.values.find? (fun f =>
        f.edges.length == (cycleFaceEdges quadRun ([1, 2, 3] ++ [0])).length
          &&
        f.edges.all (fun e =>
          (cycleFaceEdges quadRun ([1, 2, 3] ++ [0])).contains e))).isSome
      = true ∧
    createFaceForCycle 0 quadRun [1, 2, 3] = quadRun :=
  ⟨by with_unfolding_all decide,
    C5_amended_cycle_dedup quadRun 0 [1, 2, 3]
      (by with_unfolding_all decide)⟩

end Poche
